import Mathlib

/-!
Bandwidth orchestration: priority tiers, demand normalisation, tier degradation.

A shallow embedding of the background-task algorithms of `src/index.js`
(`prepDMAppData`, `normalizeComponents`, `conformComponentGroup` and the
escalation loop of `evaluateDMApp`).

Modelling conventions.

* A JavaScript object used as a map (`components`, `stats`) is the list of its
  entries in enumeration order; its keys are pairwise distinct, which theorems
  that need it take as a hypothesis.
* JavaScript numbers are exact rationals (`ℚ`); priorities are integers.
  Rounding of IEEE doubles is not modelled.
* `undefined` / `NaN` are not rationals: a comparator that yields `NaN` returns
  `none`, and a run in which a bandwidth would become `undefined` ends in
  `Err.notANumber`.
* A thrown `TypeError` is `none`.
* The `while` loop of `conformComponentGroup` takes a fuel argument; running
  out of fuel is `Err.outOfFuel`.
-/

namespace BandwidthOrchestration

/-! ## Constants -/

/-- An instance id: the key of a component in the layout and in the metrics. -/
abbrev InstanceId := String

/-- Source: `const PRIORITY_LEVELS = 3`, the default number of priority levels. -/
def PRIORITY_LEVELS : Nat := 3

/-- Source: `const BANDWIDTH_LIMIT_SAFETY = 0.95`. -/
def BANDWIDTH_LIMIT_SAFETY : ℚ := 95 / 100

/-- Source: `const TURNEDOFF = -1`. -/
def TURNEDOFF : ℚ := -1

/-! ## JavaScript built-ins used by the algorithms -/

/-- One insertion step of the stable sort: `a`, which stood in front of the
already sorted list, moves behind `b` only when `comparefn(a, b) > 0`; a `NaN`
result (`none`) counts as `+0`, as `Array.prototype.sort` prescribes. -/
def sortInsert {α : Type} (comparefn : α → α → Option ℚ) (a : α) : List α → List α
  | [] => [a]
  | b :: l =>
    match comparefn a b with
    | some v => if v > 0 then b :: sortInsert comparefn a l else a :: b :: l
    | none => a :: b :: l

/-- The stable `Array.prototype.sort(comparefn)` on a copy of the array. -/
def sortJS {α : Type} (comparefn : α → α → Option ℚ) : List α → List α
  | [] => []
  | a :: l => sortInsert comparefn a (sortJS comparefn l)

/-- First significant decimal digit of the fraction `a / b` when `0 < a < b`:
multiply by ten until the integer part is non-zero. -/
def leadingDigit : Nat → Nat → Nat → Nat
  | 0, a, b => a / b
  | fuel + 1, a, b => if b ≤ a then a / b else leadingDigit fuel (10 * a) b

/-- The built-in `parseInt(x)` applied to a number `x`. The argument is first
converted to a string and the leading run of decimal digits of that string is
read. For `10⁻⁶ ≤ |x| < 10²¹` the string is in positional notation
(`"1.8"`, `"0.000002"`) and the digits read are the integer part. For
`0 < |x| < 10⁻⁶` the string is in exponent notation (`"5e-7"`,
`"9.99e-8"`), so the digits read are the single leading significant digit.
A leading minus sign is kept. Arguments of magnitude `10²¹` and more (which
also print in exponent notation) do not arise in `prepDMAppData`, where the
argument is below the tier count, itself at most an array length; on them the
model returns the integer part. -/
def parseInt (x : ℚ) : Int :=
  let a := x.num.natAbs
  let b := x.den
  let digits : Nat :=
    if a = 0 then 0
    else if a * 10 ^ 6 < b then leadingDigit b a b
    else a / b
  if x.num < 0 then -(digits : Int) else (digits : Int)

/-! ## Priority tiers (`prepDMAppData`) -/

/-- A layout entry: `components[id] = {priority: ...}`. -/
structure Component where
  priority : Int
  deriving DecidableEq, Repr

/-- Argument of `prepDMAppData`: `{priorityLevels, components}`;
`priorityLevels` may be absent. -/
structure DMAppData where
  priorityLevels : Option Nat
  components : List (InstanceId × Component)

/-- One iteration of the loop that finds the priority range. -/
def rangeStep (r : Option Int × Int) (c : InstanceId × Component) : Option Int × Int :=
  let min :=
    match r.1 with
    | none => some c.2.priority
    | some m => if c.2.priority < m then some c.2.priority else some m
  let max := if c.2.priority > r.2 then c.2.priority else r.2
  (min, max)

/-- Source: `var min=undefined, max=0; for (var component in components) ...`. -/
def priorityRange (components : List (InstanceId × Component)) : Option Int × Int :=
  components.foldl rangeStep (none, 0)

/-- Source: `levels = data.priorityLevels` with the default and the clamp to
the number of components. -/
def levelCount (data : DMAppData) : Nat :=
  let levels := data.priorityLevels.getD PRIORITY_LEVELS
  if levels > data.components.length then data.components.length else levels

/-- Source: `var diff = (max - min + 1)/levels`. With no components `min` is
`undefined`; no placement is computed then and the model uses `0` for it.
Division by `levels = 0` gives `Infinity` in the source and `0` here; in both
the quotient of the next step is `0`. -/
def levelWidth (data : DMAppData) : ℚ :=
  let r := priorityRange data.components
  (((r.2 - r.1.getD 0 + 1 : Int) : ℚ)) / (levelCount data : ℚ)

/-- Source: `(components[keys[key]].priority - min) / diff`, the number handed
to `parseInt`. -/
def levelQuotient (data : DMAppData) (priority : Int) : ℚ :=
  (((priority - (priorityRange data.components).1.getD 0 : Int)) : ℚ) / levelWidth data

/-- Source: `levels - parseInt((components[keys[key]].priority - min) / diff)`. -/
def levelOf (data : DMAppData) (priority : Int) : Int :=
  (levelCount data : Int) - parseInt (levelQuotient data priority)

/-- Source: the comparator `components[b].priority - components[a].priority`. -/
def priorityComparator (a b : InstanceId × Component) : Option ℚ :=
  some (((b.2.priority - a.2.priority : Int)) : ℚ)

/-- Source: `Object.keys(components).sort(...)`; each key travels with its
entry. -/
def sortedKeys (data : DMAppData) : List (InstanceId × Component) :=
  sortJS priorityComparator data.components

/-- Appends `key` to the tier stored at position `n` (tier `n + 1`). -/
def pushTier (key : InstanceId) : Nat → List (List InstanceId) → List (List InstanceId)
  | _, [] => []
  | 0, t :: ts => (t ++ [key]) :: ts
  | n + 1, t :: ts => t :: pushTier key n ts

/-- Source: `for (var key in keys) { var level = ...; results[level].push(keys[key]); }`.
`results` holds tier `k` at position `k - 1`. `results[level]` exists exactly
for `1 ≤ level ≤ levels`; otherwise it is `undefined` and `.push` throws. -/
def assignLevels (data : DMAppData) :
    List (InstanceId × Component) → List (List InstanceId) → Option (List (List InstanceId))
  | [], results => some results
  | key :: keys, results =>
    let level := levelOf data key.2.priority
    if 1 ≤ level ∧ level ≤ (levelCount data : Int) then
      assignLevels data keys (pushTier key.1 (level.toNat - 1) results)
    else none

/-- Source: `prepDMAppData(data)`. The result lists the tiers `1, 2, ..., levels`
(the JavaScript array has a hole at index `0`); `none` is a thrown `TypeError`. -/
def prepDMAppData (data : DMAppData) : Option (List (List InstanceId)) :=
  assignLevels data (sortedKeys data) (List.replicate (levelCount data) [])

/-! ## Metrics snapshot -/

/-- Source: `bitrates = JSON.parse(group[0].bitrates)`, the ladders of a component. -/
structure Bitrates where
  video : List ℚ
  audio : List ℚ
  deriving DecidableEq

/-- Source: the record `stats[component]` built by `getMetrics`. -/
structure Stat where
  videoBandwidth : ℚ
  audioBandwidth : ℚ
  bandwidth : ℚ
  bitrates : Bitrates
  playingVideoBitrate : ℚ
  maxBitrate : ℚ
  deriving DecidableEq

/-- The metrics snapshot `stats`: entries in enumeration order. -/
abbrev Stats := List (InstanceId × Stat)

/-- Source: `stats[id]`; `none` is `undefined`. -/
def getStat : Stats → InstanceId → Option Stat
  | [], _ => none
  | (k, s) :: rest, id => if k = id then some s else getStat rest id

/-- Source: the assignment `stat.videoBandwidth = v` where `stat = stats[id]`. -/
def setVideoBandwidth : Stats → InstanceId → ℚ → Stats
  | [], _, _ => []
  | (k, s) :: rest, id, v =>
    if k = id then (k, { s with videoBandwidth := v }) :: rest
    else (k, s) :: setVideoBandwidth rest id v

/-- Reading `stats[id].videoBandwidth`. -/
def videoBandwidthOf (stats : Stats) (id : InstanceId) : Option ℚ :=
  (getStat stats id).map (fun s => s.videoBandwidth)

/-! ## Demand normalisation (`normalizeComponents`) -/

/-- Source: the loop of `normalizeComponents`, with the running `totalDiff`.
Returns the mutated snapshot and the final total. -/
def normalizeLoop : Stats → ℚ → Stats × ℚ
  | [], totalDiff => ([], totalDiff)
  | (id, stat) :: rest, totalDiff =>
    if stat.videoBandwidth = 0 then
      let r := normalizeLoop rest totalDiff
      ((id, stat) :: r.1, r.2)
    else
      let diff := stat.playingVideoBitrate - stat.videoBandwidth
      if diff > 0 then
        let r := normalizeLoop rest (totalDiff + diff)
        ((id, { stat with videoBandwidth := stat.playingVideoBitrate }) :: r.1, r.2)
      else
        let r := normalizeLoop rest totalDiff
        ((id, stat) :: r.1, r.2)

/-- Source: `normalizeComponents(stats)`. -/
def normalizeComponents (stats : Stats) : Stats × ℚ :=
  normalizeLoop stats 0

/-! ## Tier degradation (`conformComponentGroup`) -/

/-- How a run leaves the model. -/
inductive Err where
  | notANumber
  | outOfFuel
  deriving DecidableEq, Repr

deriving instance DecidableEq for Except

/-- Source: the comparator `(a,b) => b.videoBandwidth - a.videoBandwidth` of
`conformComponentGroup`. Its arguments are the elements of `group`, which are
instance ids (the strings pushed by `prepDMAppData`), not stat records: a
string has no `videoBandwidth` property, both reads give `undefined` and the
difference is `NaN`. -/
def groupComparator (_a _b : InstanceId) : Option ℚ := none

/-- Source: `for (; j < video.length && video[j] < videoBandwidth; j++);`
entered at index `j` with `rest` the ladder from index `j` on; returns the
final `j`. -/
def scanRungs (videoBandwidth : ℚ) : List ℚ → Nat → Nat
  | [], j => j
  | r :: rest, j => if r < videoBandwidth then scanRungs videoBandwidth rest (j + 1) else j

/-- Source: `var j = 1; for (...);`, the value of `j` after the scan. -/
def rungIndex (stat : Stat) : Nat :=
  scanRungs stat.videoBandwidth (stat.bitrates.video.drop 1) 1

/-- Source: `stat.bitrates.video[j - 1]`; `none` is `undefined` (empty ladder). -/
def selectedRung (stat : Stat) : Option ℚ :=
  stat.bitrates.video[rungIndex stat - 1]?

/-- Source: `var diff = stat.videoBandwidth - stat.bitrates.video[j - 1]`. -/
def rungDiff (stat : Stat) : Option ℚ :=
  (selectedRung stat).map (fun rung => stat.videoBandwidth - rung)

/-- Source: the body of the `for` loop of `conformComponentGroup` for the
member `id`. Returns the snapshot, `bandwidthUsage` and `changed` after it. -/
def conformMember (stats : Stats) (id : InstanceId) (bandwidthUsage : ℚ)
    (shutdown changed : Bool) : Except Err (Stats × ℚ × Bool) :=
  match getStat stats id with
  | none => .ok (stats, bandwidthUsage, changed)
  | some stat =>
    if stat.videoBandwidth = TURNEDOFF then .ok (stats, bandwidthUsage, changed)
    else
      match selectedRung stat with
      | none => .error Err.notANumber
      | some rung =>
        let diff := stat.videoBandwidth - rung
        let r : ℚ × Stats :=
          if diff = 0 then
            if shutdown then (stat.videoBandwidth, setVideoBandwidth stats id TURNEDOFF)
            else (diff, stats)
          else (diff, setVideoBandwidth stats id rung)
        .ok (r.2, bandwidthUsage - r.1, changed || decide (r.1 > 0))

/-- Source: `for (var i = 0; i < sortedGroup.length && bandwidthUsage > availableBandwith; i++)`,
on the members still to visit. -/
def conformPass (availableBandwith : ℚ) (shutdown : Bool) :
    List InstanceId → Stats → ℚ → Bool → Except Err (Stats × ℚ × Bool)
  | [], stats, bandwidthUsage, changed => .ok (stats, bandwidthUsage, changed)
  | id :: rest, stats, bandwidthUsage, changed =>
    if bandwidthUsage > availableBandwith then
      match conformMember stats id bandwidthUsage shutdown changed with
      | .error e => .error e
      | .ok (stats1, usage1, changed1) =>
        conformPass availableBandwith shutdown rest stats1 usage1 changed1
    else .ok (stats, bandwidthUsage, changed)

/-- Source: `while (changed && bandwidthUsage > availableBandwith) { changed = false; for ... }`. -/
def conformLoop (sortedGroup : List InstanceId) (availableBandwith : ℚ) (shutdown : Bool) :
    Nat → Stats → ℚ → Bool → Except Err (Stats × ℚ)
  | 0, stats, bandwidthUsage, changed =>
    if changed = true ∧ bandwidthUsage > availableBandwith then .error Err.outOfFuel
    else .ok (stats, bandwidthUsage)
  | fuel + 1, stats, bandwidthUsage, changed =>
    if changed = true ∧ bandwidthUsage > availableBandwith then
      match conformPass availableBandwith shutdown sortedGroup stats bandwidthUsage false with
      | .error e => .error e
      | .ok (stats1, usage1, changed1) =>
        conformLoop sortedGroup availableBandwith shutdown fuel stats1 usage1 changed1
    else .ok (stats, bandwidthUsage)

/-- Source: `conformComponentGroup(stats, group, bandwidthUsage, availableBandwith, shutdown)`.
Returns the mutated snapshot and the new usage. -/
def conformComponentGroup (fuel : Nat) (stats : Stats) (group : List InstanceId)
    (bandwidthUsage availableBandwith : ℚ) (shutdown : Bool) : Except Err (Stats × ℚ) :=
  conformLoop (sortJS groupComparator group) availableBandwith shutdown fuel stats
    bandwidthUsage true


/-! ## Escalation loop of `evaluateDMApp` -/

/-- Source: `for (var j = levels.length - 1; j > i && bandwidthUsage > availableBandwidth; j--)
bandwidthUsage = conformComponentGroup(stats, levels[j], ...)`, on the tiers
still to visit, lowest priority first. -/
def conformLowerTiers (fuel : Nat) (availableBandwidth : ℚ) (shutdown : Bool) :
    List (List InstanceId) → Stats → ℚ → Except Err (Stats × ℚ)
  | [], stats, bandwidthUsage => .ok (stats, bandwidthUsage)
  | group :: groups, stats, bandwidthUsage =>
    if bandwidthUsage > availableBandwidth then
      match conformComponentGroup fuel stats group bandwidthUsage availableBandwidth shutdown with
      | .error e => .error e
      | .ok (stats1, usage1) =>
        conformLowerTiers fuel availableBandwidth shutdown groups stats1 usage1
    else .ok (stats, bandwidthUsage)

/-- Source: `for (var turn = 0, shutdown = false; turn <= 1 && bandwidthUsage > availableBandwidth;
turn++, shutdown = true) { body }`: the body runs with `shutdown = false`, then
with `shutdown = true`, each time only while over budget. -/
def twoTurns (availableBandwidth : ℚ) (body : Bool → Stats → ℚ → Except Err (Stats × ℚ))
    (stats : Stats) (bandwidthUsage : ℚ) : Except Err (Stats × ℚ) :=
  if bandwidthUsage > availableBandwidth then
    match body false stats bandwidthUsage with
    | .error e => .error e
    | .ok (stats1, usage1) =>
      if usage1 > availableBandwidth then body true stats1 usage1 else .ok (stats1, usage1)
  else .ok (stats, bandwidthUsage)

/-- Source: the body of the outer loop of `evaluateDMApp` for the tier index
`i` (`1 ≤ i < levels.length`). `levels` lists the tiers `1, 2, ...`, so
`levels[i]` of the source is at position `i - 1` and the tiers `j > i` are
`levels.drop i`. Returns the snapshot, `bandwidthUsage` and
`availableBandwidth` after the round. -/
def escalationRound (fuel : Nat) (levels : List (List InstanceId)) (hasBandwidthLimit : Bool)
    (i : Nat) (stats : Stats) (bandwidthUsage availableBandwidth : ℚ) :
    Except Err (Stats × ℚ × ℚ) :=
  let start : Stats × ℚ × ℚ :=
    if hasBandwidthLimit then (stats, bandwidthUsage, availableBandwidth)
    else
      let r := normalizeComponents stats
      (r.1, r.2 / BANDWIDTH_LIMIT_SAFETY, 0)
  match twoTurns start.2.2
      (fun shutdown s u => conformLowerTiers fuel start.2.2 shutdown (levels.drop i).reverse s u)
      start.1 start.2.1 with
  | .error e => .error e
  | .ok (stats1, usage1) =>
    if usage1 > start.2.2 then
      match twoTurns start.2.2
          (fun shutdown s u =>
            conformComponentGroup fuel s ((levels[i - 1]?).getD []) u start.2.2 shutdown)
          stats1 usage1 with
      | .error e => .error e
      | .ok (stats2, usage2) => .ok (stats2, usage2, start.2.2)
    else .ok (stats1, usage1, start.2.2)

/-- Source: `for (var i = 1; i < levels.length && (!hasBandwidthLimit || bandwidthUsage >
availableBandwidth); i++) { ... }`, with `rounds` the number of indices `i`
still to come. -/
def escalationLoop (fuel : Nat) (levels : List (List InstanceId)) (hasBandwidthLimit : Bool) :
    Nat → Nat → Stats → ℚ → ℚ → Except Err (Stats × ℚ × ℚ)
  | 0, _, stats, bandwidthUsage, availableBandwidth =>
    .ok (stats, bandwidthUsage, availableBandwidth)
  | rounds + 1, i, stats, bandwidthUsage, availableBandwidth =>
    if hasBandwidthLimit = false ∨ bandwidthUsage > availableBandwidth then
      match escalationRound fuel levels hasBandwidthLimit i stats bandwidthUsage
          availableBandwidth with
      | .error e => .error e
      | .ok (stats1, usage1, available1) =>
        escalationLoop fuel levels hasBandwidthLimit rounds (i + 1) stats1 usage1 available1
    else .ok (stats, bandwidthUsage, availableBandwidth)

/-- Source: the whole degradation loop of `evaluateDMApp`, entered with `i = 1`. -/
def degradationLoop (fuel : Nat) (levels : List (List InstanceId)) (hasBandwidthLimit : Bool)
    (stats : Stats) (bandwidthUsage availableBandwidth : ℚ) : Except Err (Stats × ℚ × ℚ) :=
  escalationLoop fuel levels hasBandwidthLimit levels.length 1 stats bandwidthUsage
    availableBandwidth

/-! ## Definitions used to state the results -/

/-- A record as `getMetrics` builds it for a component that carries video
only: no audio bandwidth, audio ladder `[0]`. -/
def videoOnlyStat (videoBandwidth playingVideoBitrate : ℚ) (video : List ℚ) : Stat :=
  { videoBandwidth := videoBandwidth
    audioBandwidth := 0
    bandwidth := videoBandwidth + 0
    bitrates := ⟨video, [0]⟩
    playingVideoBitrate := playingVideoBitrate
    maxBitrate := video.getLastD 0 + 0 }

/-- The ids of the entries of `keys` whose computed level is `k + 1`, in order. -/
def bucket (data : DMAppData) (keys : List (InstanceId × Component)) (k : Nat) :
    List InstanceId :=
  (keys.filter (fun c => decide (levelOf data c.2.priority = (k : Int) + 1))).map Prod.fst

/-- No quotient handed to `parseInt` lies strictly between `0` and `10⁻⁶`,
the range in which the number prints in exponent notation. -/
def PlainQuotients (data : DMAppData) : Prop :=
  ∀ c ∈ data.components,
    levelQuotient data c.2.priority = 0 ∨ (1 : ℚ) / 10 ^ 6 ≤ levelQuotient data c.2.priority

/-- Spec: a component of priority `p` goes to tier
`levels − floor((p − min)/width)` with `width = (max − min + 1)/levels`, `min`
and `max` the smallest and the largest priority among the components. -/
def specLevel (data : DMAppData) (priority : Int) : Int :=
  let ps := data.components.map (fun c => c.2.priority)
  let min := ps.foldl (fun a b => if b < a then b else a) (ps.headD 0)
  let max := ps.foldl (fun a b => if b > a then b else a) (ps.headD 0)
  let width : ℚ := (((max - min + 1 : Int)) : ℚ) / (levelCount data : ℚ)
  (levelCount data : Int) - ⌊(((priority - min : Int)) : ℚ) / width⌋

/-- Spec: `rung` is the highest rung of the ladder that is at most the current
`videoBandwidth`. -/
def HighestRungAtMost (video : List ℚ) (videoBandwidth rung : ℚ) : Prop :=
  rung ∈ video ∧ rung ≤ videoBandwidth ∧ ∀ r ∈ video, r ≤ videoBandwidth → r ≤ rung

/-- A component the degradation can only lower: it is turned off, or its
ladder is ascending with a non-negative lowest rung that its `videoBandwidth`
has reached. -/
def LadderOk (stat : Stat) : Prop :=
  stat.videoBandwidth = TURNEDOFF ∨
    ∃ lowest rest, stat.bitrates.video = lowest :: rest ∧
      List.Sorted (fun a b => a ≤ b) (lowest :: rest) ∧ 0 ≤ lowest ∧
      lowest ≤ stat.videoBandwidth

/-- One entry before and after degradation: same key, same ladders, a
`videoBandwidth` that did not grow, and still `LadderOk`. -/
def Lowered (e e1 : InstanceId × Stat) : Prop :=
  e1.1 = e.1 ∧ e1.2.bitrates = e.2.bitrates ∧
    e1.2.videoBandwidth ≤ e.2.videoBandwidth ∧ LadderOk e1.2

/-! ## The tick (`evaluateDMApp`) -/

/-- Source: `const BACKGROUND_TASK_GRACE_COUNT = 3`. -/
def BACKGROUND_TASK_GRACE_COUNT : Nat := 3

/-- Source: `const DEAD_INACTIVITY_PERIOD = 1000 * 60 * 10` (milliseconds). -/
def DEAD_INACTIVITY_PERIOD : Int := 1000 * 60 * 10

/-- Source: `const NEVER_STARTED_PERIOD = 1000 * 60 * 60 * 24` (milliseconds). -/
def NEVER_STARTED_PERIOD : Int := 1000 * 60 * 60 * 24

/-- Source: `ACTIONS.DOWNGRADE`. -/
def ACTIONS_DOWNGRADE : String := "downgrade"

/-- Source: `ACTIONS.UPGRADE`. -/
def ACTIONS_UPGRADE : String := "upgrade"

/-- Source: `ACTIONS.PRESERVE`. -/
def ACTIONS_PRESERVE : String := "preserve"

/-- Source: `ACTIONS.DISABLE`. -/
def ACTIONS_DISABLE : String := "disable"

/-- Source: the record `{"action": ..., "videoBitrate": ...}` of `createActionList`. -/
structure Action where
  action : String
  videoBitrate : ℚ
  deriving DecidableEq

/-- Source: the body of the loop of `createActionList` for one component. -/
def actionFor (stat : Stat) : Action :=
  let action : Action := { action := "nothing", videoBitrate := stat.videoBandwidth }
  if stat.videoBandwidth = TURNEDOFF then { action with action := ACTIONS_DISABLE }
  else if stat.videoBandwidth < stat.playingVideoBitrate then
    { action with action := ACTIONS_DOWNGRADE }
  else action

/-- Source: `createActionList(stats)`; the returned object as the list of its
entries. -/
def createActionList (stats : Stats) : List (InstanceId × Action) :=
  stats.map (fun e => (e.1, actionFor e.2))

/-- Source: `getBandwidthUsage(stats, max, supposed)` for `supposed = false`,
which is what both call sites pass: the sum of `maxBitrate` when `max` is set,
of `bandwidth` otherwise. -/
def getBandwidthUsage (stats : Stats) (max : Bool) : ℚ :=
  stats.foldl (fun usage e => if max then usage + e.2.maxBitrate else usage + e.2.bandwidth) 0

/-- Source: `attrs.options`, the scheduling options of a session. -/
structure Options where
  grace : Nat
  startedRunning : Bool
  lastActive : Int
  deriving DecidableEq

/-- Source: `attrs.data`, the session as registered; `availableBandwidth` and
`priorityLevels` may be absent. -/
structure JobData where
  DMAppId : String
  contextId : String
  availableBandwidth : Option ℚ
  priorityLevels : Option Nat
  deriving DecidableEq

/-- What a tick did: the options it left, how many times it called
`stopDMApp`, the action list it handed to `notifyActions` (if any) and whether
the promise was resolved. -/
structure TickOutcome where
  options : Options
  stopCalls : Nat
  notified : Option (List (InstanceId × Action))
  resolved : Bool
  deriving DecidableEq

/-- Source: both `catch` handlers of `evaluateDMApp`:
`if (Date.now() - options.lastActive >= DEAD_INACTIVITY_PERIOD) stopDMApp(data); resolve();`. -/
def pruneOnError (now : Int) (options : Options) : TickOutcome :=
  { options := options
    stopCalls := if now - options.lastActive ≥ DEAD_INACTIVITY_PERIOD then 1 else 0
    notified := none
    resolved := true }

/-- Source: the branch `Object.keys(stats).length == 0` of `evaluateDMApp`. -/
def pruneOnEmpty (now : Int) (options : Options) : TickOutcome :=
  let dead : Nat :=
    if options.startedRunning = true ∧ now - options.lastActive ≥ DEAD_INACTIVITY_PERIOD
    then 1 else 0
  let never : Nat :=
    if options.startedRunning = false ∧ now - options.lastActive ≥ NEVER_STARTED_PERIOD
    then 1 else 0
  { options := options, stopCalls := dead + never, notified := none, resolved := true }

/-- Source: `evaluateDMApp` from `var hasBandwidthLimit = ...` to the end of
the `then` handler: budget resolution, the two fast paths, the degradation
loop and the emission of the action list. `options` are the options after
activation. -/
def budgetCheck (fuel : Nat) (data : JobData) (options : Options)
    (levels : List (List InstanceId)) (stats : Stats) : Except Err TickOutcome :=
  let hasBandwidthLimit : Bool := data.availableBandwidth.isSome
  let availableBandwidth : ℚ :=
    match data.availableBandwidth with
    | some b => b * BANDWIDTH_LIMIT_SAFETY
    | none => -1
  let bandwidthUsage := getBandwidthUsage stats false
  let maxBandwidth := getBandwidthUsage stats true
  let normalized : Stats × ℚ :=
    if hasBandwidthLimit then
      let r := normalizeComponents stats
      (r.1, bandwidthUsage + r.2)
    else (stats, bandwidthUsage)
  if hasBandwidthLimit = true ∧ normalized.2 ≤ availableBandwidth then
    .ok { options := options, stopCalls := 0, notified := none, resolved := true }
  else if hasBandwidthLimit = false ∧ normalized.2 / BANDWIDTH_LIMIT_SAFETY ≥ maxBandwidth then
    .ok { options := options, stopCalls := 0, notified := none, resolved := true }
  else
    match degradationLoop fuel levels hasBandwidthLimit normalized.1 normalized.2
        availableBandwidth with
    | .error e => .error e
    | .ok (stats1, _, _) =>
      .ok { options := options, stopCalls := 0, notified := some (createActionList stats1),
            resolved := true }

/-- Source: the handler `.then(stats => { ... })` of `evaluateDMApp`. -/
def evaluateStats (fuel : Nat) (now : Int) (data : JobData) (options : Options)
    (levels : List (List InstanceId)) (stats : Stats) : Except Err TickOutcome :=
  if stats.length = 0 then .ok (pruneOnEmpty now options)
  else
    let started : Options := { options with startedRunning := true, lastActive := now }
    if started.grace > 0 then
      .ok { options := { started with grace := started.grace - 1 }, stopCalls := 0,
            notified := none, resolved := true }
    else budgetCheck fuel data started levels stats

/-- Source: `evaluateDMApp(attrs)` with `attrs = {data, options}`. `now` is
the value of `Date.now()` during the tick; `layout` is what
`layoutDB.getComponents` delivers and `metrics` what `getDMAppMetrics`
delivers, `none` standing for a rejected promise. A `TypeError` thrown by
`prepDMAppData` inside the layout handler is caught by the same `catch` as a
failed layout fetch. -/
def evaluateDMApp (fuel : Nat) (now : Int) (data : JobData) (options : Options)
    (layout : Option (List (InstanceId × Component))) (metrics : Option Stats) :
    Except Err TickOutcome :=
  match layout with
  | none => .ok (pruneOnError now options)
  | some components =>
    match prepDMAppData { priorityLevels := data.priorityLevels, components := components } with
    | none => .ok (pruneOnError now options)
    | some levels =>
      match metrics with
      | none => .ok (pruneOnError now options)
      | some stats => evaluateStats fuel now data options levels stats

/-- What one scheduler tick receives from the stores. -/
structure Tick where
  now : Int
  layout : Option (List (InstanceId × Component))
  metrics : Option Stats

/-- Successive ticks of one session. The scheduler saves the job after each
tick (`job.save()` in `defineJob`), so a tick starts from the options the
previous one left. Returns the final options and the outcome of every tick. -/
def runTicks (fuel : Nat) (data : JobData) :
    List Tick → Options → Except Err (Options × List TickOutcome)
  | [], options => .ok (options, [])
  | tick :: ticks, options =>
    match evaluateDMApp fuel tick.now data options tick.layout tick.metrics with
    | .error e => .error e
    | .ok outcome =>
      match runTicks fuel data ticks outcome.options with
      | .error e => .error e
      | .ok (final, outcomes) => .ok (final, outcome :: outcomes)

/-! ## Further definitions used to state the results -/

/-- The session of the worked example: budget 5000, default level count. -/
def exampleData : JobData :=
  { DMAppId := "dmapp", contextId := "context", availableBandwidth := some 5000,
    priorityLevels := none }

/-- The layout of the worked example: A has priority 10, B priority 1. -/
def exampleLayout : List (InstanceId × Component) := [("A", ⟨10⟩), ("B", ⟨1⟩)]

/-- The snapshot of the worked example: A and B measured at 4000, playing
4000, ladder [1000, 2000, 4000], no audio. -/
def exampleStats : Stats :=
  [("A", videoOnlyStat 4000 4000 [1000, 2000, 4000]),
    ("B", videoOnlyStat 4000 4000 [1000, 2000, 4000])]

/-- The tick receives a non-empty metrics snapshot: the layout fetch
succeeded, the tiers were built and the metrics fetch delivered at least one
component. -/
def receivesMetrics (data : JobData) (tick : Tick) : Bool :=
  match tick.layout with
  | none => false
  | some components =>
    match prepDMAppData { priorityLevels := data.priorityLevels, components := components } with
    | none => false
    | some _ =>
      match tick.metrics with
      | none => false
      | some stats => decide (stats.length ≠ 0)

/-- Every video ladder of the snapshot is non-empty and ascending. -/
def AscendingLadders (stats : Stats) : Prop :=
  ∀ e ∈ stats, ∃ lowest rest, e.2.bitrates.video = lowest :: rest ∧
    List.Sorted (fun a b => a ≤ b) (lowest :: rest)

/-- The component `id`, if present in the snapshot, is turned off or at the
lowest rung of its ladder. -/
def Exhausted (stats : Stats) (id : InstanceId) : Prop :=
  ∀ stat, getStat stats id = some stat →
    stat.videoBandwidth = TURNEDOFF ∨
      ∃ lowest rest, stat.bitrates.video = lowest :: rest ∧ stat.videoBandwidth = lowest

/-- From snapshot `s` to snapshot `t` no turned-off component was given
another value and, where the ladders of `s` are non-empty and ascending, so
are those of `t` and every component exhausted in `s` is exhausted in `t`. -/
def Keeps (s t : Stats) : Prop :=
  (∀ id, videoBandwidthOf s id = some TURNEDOFF → videoBandwidthOf t id = some TURNEDOFF) ∧
    (AscendingLadders s →
      AscendingLadders t ∧ ∀ id, Exhausted s id → Exhausted t id)

/-- Entry `e` of a later snapshot against entry `e0` of the snapshot
fetched at the start of the tick: same key, ladders and playing bitrate, and a
`videoBandwidth` that is the measured one, `TURNEDOFF`, a rung of the ladder
or the playing bitrate. -/
def TraceableEntry (e0 e : InstanceId × Stat) : Prop :=
  e.1 = e0.1 ∧ e.2.bitrates = e0.2.bitrates ∧
    e.2.playingVideoBitrate = e0.2.playingVideoBitrate ∧
    (e.2.videoBandwidth = e0.2.videoBandwidth ∨ e.2.videoBandwidth = TURNEDOFF ∨
      e.2.videoBandwidth ∈ e0.2.bitrates.video ∨
      e.2.videoBandwidth = e0.2.playingVideoBitrate)

/-- Entrywise `TraceableEntry`. -/
def Traceable (s0 s : Stats) : Prop := List.Forall₂ TraceableEntry s0 s

/-- Five ticks of the worked example's session: three deliver the example
snapshot, one delivers an empty snapshot and one fails to fetch the metrics. -/
def exampleTicks : List Tick :=
  [⟨10, some exampleLayout, some exampleStats⟩, ⟨20, some exampleLayout, some []⟩,
    ⟨30, some exampleLayout, none⟩, ⟨40, some exampleLayout, some exampleStats⟩,
    ⟨50, some exampleLayout, some exampleStats⟩]

/-- A session without a declared budget. -/
def noBudgetData : JobData :=
  { DMAppId := "dmapp", contextId := "context", availableBandwidth := none,
    priorityLevels := none }

/-- The layout of the budget-less example: hi has priority 10, lo priority 1. -/
def noBudgetLayout : List (InstanceId × Component) := [("hi", ⟨10⟩), ("lo", ⟨1⟩)]

/-- The snapshot of the budget-less example: hi is measured at 100 while
playing 4000 on the ladder [1000, 2000, 4000]; lo is measured at 1000, playing
1000 on the ladder [1000]. -/
def noBudgetStats : Stats :=
  [("hi", videoOnlyStat 100 4000 [1000, 2000, 4000]), ("lo", videoOnlyStat 1000 1000 [1000])]

/-- The snapshot of the normalisation example: A is measured at 3000 while
playing 3500, which is not a rung of its ladder [1000, 2000, 4000]; B is
measured at 4000, playing 4000. -/
def offLadderStats : Stats :=
  [("A", videoOnlyStat 3000 3500 [1000, 2000, 4000]),
    ("B", videoOnlyStat 4000 4000 [1000, 2000, 4000])]


/-! ## Definitions used to state the results on emission, termination and accounting -/

/-- The tick takes one of the two fast paths of `evaluateDMApp`: with a
budget, the measured usage plus the normalisation deficit is within the
effective budget; without one, the measured usage over the safety factor
reaches the sum of the `maxBitrate`s. -/
def fastPath (data : JobData) (stats : Stats) : Prop :=
  match data.availableBandwidth with
  | some b =>
    getBandwidthUsage stats false + (normalizeComponents stats).2 ≤ b * BANDWIDTH_LIMIT_SAFETY
  | none =>
    getBandwidthUsage stats false / BANDWIDTH_LIMIT_SAFETY ≥ getBandwidthUsage stats true

/-- A layout with the single component A. -/
def steadyLayout : List (InstanceId × Component) := [("A", ⟨10⟩)]

/-- A snapshot in which A is measured at 4000 and plays 4000 on the ladder
[1000, 2000, 4000, 8000]. -/
def steadyStats : Stats := [("A", videoOnlyStat 4000 4000 [1000, 2000, 4000, 8000])]

/-- The number of rungs of the ladder strictly below the `videoBandwidth`. -/
def rungsBelow (stat : Stat) : Nat :=
  stat.bitrates.video.countP (fun r => decide (r < stat.videoBandwidth))

/-- How many visits can still lower the component: none when it is turned
off, else one for each rung below its `videoBandwidth` and one for the
shutdown. -/
def stepsLeft (stat : Stat) : Nat :=
  if stat.videoBandwidth = TURNEDOFF then 0 else rungsBelow stat + 1

/-- The sum of `stepsLeft` over the snapshot. -/
def totalSteps (stats : Stats) : Nat := (stats.map (fun e => stepsLeft e.2)).sum

/-- The number of components plus the number of video rungs of the snapshot:
a bound on `totalSteps` that no step of the tick changes. -/
def ladderBound (stats : Stats) : Nat :=
  (stats.map (fun e => e.2.bitrates.video.length + 1)).sum

/-- A session with budget 1. -/
def cyclingData : JobData :=
  { DMAppId := "dmapp", contextId := "context", availableBandwidth := some 1,
    priorityLevels := none }

/-- A layout that puts X and Y in one tier. -/
def cyclingLayout : List (InstanceId × Component) := [("X", ⟨1⟩), ("Y", ⟨1⟩)]

/-- A snapshot whose video ladders [3, 1, 4] are not ascending: X is at 3 and
Y at 1. -/
def cyclingStats : Stats :=
  [("X", videoOnlyStat 3 3 [3, 1, 4]), ("Y", videoOnlyStat 1 1 [3, 1, 4])]

/-- The snapshot `cyclingStats` after one pass: X is at 1 and Y at 3. -/
def cyclingStatsSwapped : Stats :=
  [("X", { videoOnlyStat 3 3 [3, 1, 4] with videoBandwidth := 1 }),
    ("Y", { videoOnlyStat 1 1 [3, 1, 4] with videoBandwidth := 3 })]

/-- The bandwidth a `videoBandwidth` stands for: 0 for a turned-off component. -/
def effectiveBandwidth (videoBandwidth : ℚ) : ℚ :=
  if videoBandwidth = TURNEDOFF then 0 else videoBandwidth

/-- The effective video bandwidth of `id` in the snapshot, 0 when absent. -/
def effectiveOf (stats : Stats) (id : InstanceId) : ℚ :=
  match getStat stats id with
  | some stat => effectiveBandwidth stat.videoBandwidth
  | none => 0

/-- The sum of the effective video bandwidths of the members of a tier. -/
def tierBandwidth (stats : Stats) (group : List InstanceId) : ℚ :=
  (group.map (effectiveOf stats)).sum

/-- The total of the snapshot's bandwidths: effective video plus audio. -/
def snapshotDemand (stats : Stats) : ℚ :=
  (stats.map (fun e => effectiveBandwidth e.2.videoBandwidth + e.2.audioBandwidth)).sum

/-- No rung of a video ladder has the value that marks a turned-off
component. -/
def NoSentinelRung (stats : Stats) : Prop :=
  ∀ e ∈ stats, TURNEDOFF ∉ e.2.bitrates.video

/-- The snapshot is as `getMetrics` builds it from non-negative samples:
`bandwidth` is the sum of the video and audio bandwidths and the measured
`videoBandwidth` is not negative. -/
def Measured (stats : Stats) : Prop :=
  ∀ e ∈ stats, e.2.bandwidth = e.2.videoBandwidth + e.2.audioBandwidth ∧
    0 ≤ e.2.videoBandwidth

/-- No component of the snapshot is turned off. -/
def AllLive (stats : Stats) : Prop :=
  ∀ e ∈ stats, e.2.videoBandwidth ≠ TURNEDOFF

/-- Every rung is positive, every playing bitrate is non-negative, and a
component has `videoBandwidth` zero only if its playing bitrate is zero: the
property under which `normalizeComponents` leaves every component at or above
its playing bitrate. -/
def Restorable (stats : Stats) : Prop :=
  ∀ e ∈ stats, (∀ r ∈ e.2.bitrates.video, 0 < r) ∧ 0 ≤ e.2.playingVideoBitrate ∧
    (e.2.videoBandwidth = 0 → e.2.playingVideoBitrate ≤ 0)

/-! ## Lemmas: the sort -/

theorem sortInsert_perm {α : Type} (comparefn : α → α → Option ℚ) (a : α) (l : List α) :
    (sortInsert comparefn a l).Perm (a :: l) := by
  induction l with
  | nil => exact List.Perm.refl _
  | cons b l ih =>
    unfold sortInsert
    cases hc : comparefn a b with
    | none => exact List.Perm.refl _
    | some v =>
      by_cases hv : v > 0
      · simp only [hv, if_true]
        exact ((List.Perm.cons b ih).trans (List.Perm.swap a b l))
      · simp only [hv, if_false]
        exact List.Perm.refl _

theorem sortJS_perm {α : Type} (comparefn : α → α → Option ℚ) (l : List α) :
    (sortJS comparefn l).Perm l := by
  induction l with
  | nil => exact List.Perm.refl _
  | cons a l ih =>
    unfold sortJS
    exact (sortInsert_perm comparefn a _).trans (List.Perm.cons a ih)

theorem sortJS_groupComparator (group : List InstanceId) :
    sortJS groupComparator group = group := by
  induction group with
  | nil => rfl
  | cons a l ih =>
    unfold sortJS
    rw [ih]
    cases l <;> rfl

/-! ## Lemmas: `parseInt` -/

theorem parseInt_zero : parseInt 0 = 0 := by
  simp [parseInt]

theorem parseInt_eq_floor (x : ℚ) (hx : (1 : ℚ) / 10 ^ 6 ≤ x) : parseInt x = ⌊x⌋ := by
  have hpos : 0 < x := lt_of_lt_of_le (by norm_num) hx
  have hnum : 0 < x.num := Rat.num_pos.mpr hpos
  have hden : (0 : ℚ) < (x.den : ℚ) := by exact_mod_cast x.den_pos
  have habs : ((x.num.natAbs : ℕ) : ℤ) = x.num := Int.natAbs_of_nonneg hnum.le
  have hxe : x = (x.num.natAbs : ℚ) / (x.den : ℚ) := by
    have h1 : ((x.num.natAbs : ℕ) : ℚ) = ((x.num : ℤ) : ℚ) := by
      rw [← Int.cast_natCast, habs]
    rw [h1]
    exact (Rat.num_div_den x).symm
  have hge : x.den ≤ x.num.natAbs * 10 ^ 6 := by
    have h2 : (1 : ℚ) / 10 ^ 6 ≤ (x.num.natAbs : ℚ) / (x.den : ℚ) := by rw [← hxe]; exact hx
    rw [div_le_div_iff₀ (by norm_num) hden] at h2
    have h3 : ((x.den : ℕ) : ℚ) ≤ ((x.num.natAbs * 10 ^ 6 : ℕ) : ℚ) := by
      push_cast
      linarith
    exact_mod_cast h3
  have ha : x.num.natAbs ≠ 0 := by
    intro h0
    rw [h0] at habs
    omega
  unfold parseInt
  simp only [ha, if_false, not_lt.mpr hge, not_lt.mpr hnum.le]
  rw [Rat.floor_def]
  rw [Int.natCast_div, habs]

/-! ## Lemmas: the priority range -/

theorem foldl_rangeStep_spec (cs : List (InstanceId × Component)) (m M : Int) :
    ∃ m1 M1, cs.foldl rangeStep (some m, M) = (some m1, M1) ∧
      m1 ≤ m ∧ M ≤ M1 ∧
      (∀ c ∈ cs, m1 ≤ c.2.priority ∧ c.2.priority ≤ M1) ∧
      (m1 = m ∨ ∃ c ∈ cs, c.2.priority = m1) ∧
      (M1 = M ∨ ∃ c ∈ cs, c.2.priority = M1) := by
  induction cs generalizing m M with
  | nil => exact ⟨m, M, rfl, le_refl _, le_refl _, by simp, Or.inl rfl, Or.inl rfl⟩
  | cons c cs ih =>
    have hstep : rangeStep (some m, M) c =
        (some (if c.2.priority < m then c.2.priority else m),
          if c.2.priority > M then c.2.priority else M) := by
      unfold rangeStep
      by_cases h : c.2.priority < m <;> simp [h]
    obtain ⟨m1, M1, he, hm, hM, hall, hmin, hmax⟩ :=
      ih (if c.2.priority < m then c.2.priority else m)
        (if c.2.priority > M then c.2.priority else M)
    refine ⟨m1, M1, ?_, ?_, ?_, ?_, ?_, ?_⟩
    · rw [List.foldl_cons, hstep, he]
    · split_ifs at hm <;> omega
    · split_ifs at hM <;> omega
    · intro d hd
      rcases List.mem_cons.mp hd with rfl | hd
      · constructor
        · split_ifs at hm <;> omega
        · split_ifs at hM <;> omega
      · exact hall d hd
    · rcases hmin with h | ⟨d, hd, hp⟩
      · by_cases hlt : c.2.priority < m
        · rw [if_pos hlt] at h
          exact Or.inr ⟨c, List.mem_cons_self _ _, h.symm⟩
        · rw [if_neg hlt] at h
          exact Or.inl h
      · exact Or.inr ⟨d, List.mem_cons_of_mem _ hd, hp⟩
    · rcases hmax with h | ⟨d, hd, hp⟩
      · by_cases hgt : c.2.priority > M
        · rw [if_pos hgt] at h
          exact Or.inr ⟨c, List.mem_cons_self _ _, h.symm⟩
        · rw [if_neg hgt] at h
          exact Or.inl h
      · exact Or.inr ⟨d, List.mem_cons_of_mem _ hd, hp⟩

/-- The range found for a non-empty map: `min` is the smallest priority, `max`
is the larger of `0` and the largest priority. -/
theorem priorityRange_spec (cs : List (InstanceId × Component)) (hne : cs ≠ []) :
    ∃ m M, priorityRange cs = (some m, M) ∧
      (∀ c ∈ cs, m ≤ c.2.priority ∧ c.2.priority ≤ M) ∧
      (∃ c ∈ cs, c.2.priority = m) ∧ 0 ≤ M ∧
      (M = 0 ∨ ∃ c ∈ cs, c.2.priority = M) := by
  cases cs with
  | nil => exact absurd rfl hne
  | cons c cs =>
    have hstep : rangeStep (none, 0) c =
        (some c.2.priority, if c.2.priority > 0 then c.2.priority else 0) := by
      unfold rangeStep
      simp
    obtain ⟨m1, M1, he, hm, hM, hall, hmin, hmax⟩ :=
      foldl_rangeStep_spec cs c.2.priority (if c.2.priority > 0 then c.2.priority else 0)
    refine ⟨m1, M1, ?_, ?_, ?_, ?_, ?_⟩
    · unfold priorityRange
      rw [List.foldl_cons, hstep, he]
    · intro d hd
      rcases List.mem_cons.mp hd with rfl | hd
      · constructor
        · exact hm
        · split_ifs at hM <;> omega
      · exact hall d hd
    · rcases hmin with h | ⟨d, hd, hp⟩
      · exact ⟨c, List.mem_cons_self _ _, h.symm⟩
      · exact ⟨d, List.mem_cons_of_mem _ hd, hp⟩
    · split_ifs at hM <;> omega
    · rcases hmax with h | ⟨d, hd, hp⟩
      · by_cases hgt : c.2.priority > 0
        · rw [if_pos hgt] at h
          exact Or.inr ⟨c, List.mem_cons_self _ _, h.symm⟩
        · rw [if_neg hgt] at h
          exact Or.inl h
      · exact Or.inr ⟨d, List.mem_cons_of_mem _ hd, hp⟩


/-! ## Lemmas: tier assignment -/

theorem pushTier_length (key : InstanceId) (n : Nat) (rs : List (List InstanceId)) :
    (pushTier key n rs).length = rs.length := by
  induction rs generalizing n with
  | nil => cases n <;> rfl
  | cons t ts ih =>
    cases n with
    | zero => rfl
    | succ n => simp [pushTier, ih]

theorem pushTier_getElem? (key : InstanceId) (n k : Nat) (rs : List (List InstanceId)) :
    (pushTier key n rs)[k]? = if k = n then rs[k]?.map (fun t => t ++ [key]) else rs[k]? := by
  induction rs generalizing n k with
  | nil => cases n <;> simp [pushTier]
  | cons t ts ih =>
    cases n with
    | zero =>
      cases k with
      | zero => simp [pushTier]
      | succ k => simp [pushTier]
    | succ n =>
      cases k with
      | zero => simp [pushTier]
      | succ k => simp [pushTier, ih]

theorem assignLevels_some (data : DMAppData) (keys : List (InstanceId × Component))
    (rs out : List (List InstanceId)) (h : assignLevels data keys rs = some out) :
    (∀ c ∈ keys, 1 ≤ levelOf data c.2.priority ∧
        levelOf data c.2.priority ≤ (levelCount data : Int)) ∧
      out.length = rs.length ∧
      ∀ k, out[k]? = rs[k]?.map (fun t => t ++ bucket data keys k) := by
  induction keys generalizing rs with
  | nil =>
    simp only [assignLevels, Option.some.injEq] at h
    subst h
    refine ⟨by simp, rfl, fun k => ?_⟩
    cases hk : rs[k]? <;> simp [bucket]
  | cons key keys ih =>
    unfold assignLevels at h
    by_cases hv : 1 ≤ levelOf data key.2.priority ∧
        levelOf data key.2.priority ≤ (levelCount data : Int)
    · simp only [hv, and_self, if_true] at h
      obtain ⟨hall, hlen, hget⟩ := ih _ h
      refine ⟨?_, ?_, fun k => ?_⟩
      · intro c hc
        rcases List.mem_cons.mp hc with rfl | hc
        · exact hv
        · exact hall c hc
      · rw [hlen, pushTier_length]
      · rw [hget k, pushTier_getElem?]
        by_cases hk : k = (levelOf data key.2.priority).toNat - 1
        · have hlev : levelOf data key.2.priority = (k : Int) + 1 := by omega
          rw [if_pos hk]
          cases hr : rs[k]? with
          | none => rfl
          | some t => simp [bucket, List.filter_cons, hlev]
        · have hlev : ¬ levelOf data key.2.priority = (k : Int) + 1 := by omega
          rw [if_neg hk]
          cases hr : rs[k]? with
          | none => rfl
          | some t => simp [bucket, List.filter_cons, hlev]
    · rw [if_neg hv] at h
      exact absurd h (by simp)

theorem assignLevels_of_valid (data : DMAppData) (keys : List (InstanceId × Component))
    (rs : List (List InstanceId))
    (hv : ∀ c ∈ keys, 1 ≤ levelOf data c.2.priority ∧
        levelOf data c.2.priority ≤ (levelCount data : Int)) :
    ∃ out, assignLevels data keys rs = some out := by
  induction keys generalizing rs with
  | nil => exact ⟨rs, rfl⟩
  | cons key keys ih =>
    unfold assignLevels
    rw [if_pos (hv key (List.mem_cons_self _ _))]
    exact ih _ (fun c hc => hv c (List.mem_cons_of_mem _ hc))

/-- Closed form of a successful `prepDMAppData`: tier `k + 1` is the bucket
of level `k + 1` of the sorted keys. -/
theorem prepDMAppData_some (data : DMAppData) (tiers : List (List InstanceId))
    (h : prepDMAppData data = some tiers) :
    (∀ c ∈ data.components, 1 ≤ levelOf data c.2.priority ∧
        levelOf data c.2.priority ≤ (levelCount data : Int)) ∧
      tiers.length = levelCount data ∧
      ∀ k, k < levelCount data → tiers[k]? = some (bucket data (sortedKeys data) k) := by
  obtain ⟨hall, hlen, hget⟩ := assignLevels_some data _ _ _ h
  refine ⟨?_, ?_, ?_⟩
  · intro c hc
    exact hall c ((sortJS_perm priorityComparator data.components).mem_iff.mpr hc)
  · rw [hlen, List.length_replicate]
  · intro k hk
    rw [hget k, List.getElem?_replicate, if_pos hk]
    simp


/-! ## Lemmas: the level formula -/

theorem levelCount_pos (data : DMAppData) (hne : data.components ≠ [])
    (hlv : data.priorityLevels ≠ some 0) : 0 < levelCount data := by
  have hlen : 0 < data.components.length := List.length_pos.mpr hne
  unfold levelCount
  cases hp : data.priorityLevels with
  | none =>
    simp only [Option.getD_none, PRIORITY_LEVELS]
    split_ifs <;> omega
  | some n =>
    have hn : n ≠ 0 := fun h0 => hlv (by rw [hp, h0])
    simp only [Option.getD_some]
    split_ifs <;> omega

theorem levelCount_le_length (data : DMAppData) :
    levelCount data ≤ data.components.length := by
  unfold levelCount
  simp only
  split_ifs <;> omega

theorem levelCount_eq_min (data : DMAppData) :
    levelCount data = min (data.priorityLevels.getD 3) data.components.length := by
  unfold levelCount PRIORITY_LEVELS
  simp only
  split_ifs <;> omega

theorem levelQuotient_eq (data : DMAppData) (m M : Int)
    (hr : priorityRange data.components = (some m, M)) (hL : 0 < levelCount data)
    (hD : 0 < M - m + 1) (p : Int) :
    levelQuotient data p =
      ((((p - m) * (levelCount data : Int) : Int)) : ℚ) / (((M - m + 1 : Int)) : ℚ) := by
  have hLq : ((levelCount data : ℕ) : ℚ) ≠ 0 := by
    have : (0 : ℚ) < ((levelCount data : ℕ) : ℚ) := by exact_mod_cast hL
    exact ne_of_gt this
  have hDq : (((M - m + 1 : Int)) : ℚ) ≠ 0 := by
    have : (0 : ℚ) < (((M - m + 1 : Int)) : ℚ) := by exact_mod_cast hD
    exact ne_of_gt this
  unfold levelQuotient levelWidth
  rw [hr]
  simp only [Option.getD_some]
  rw [div_div_eq_mul_div]
  push_cast
  rfl

theorem levelQuotient_min (data : DMAppData) (m M : Int)
    (hr : priorityRange data.components = (some m, M)) : levelQuotient data m = 0 := by
  unfold levelQuotient
  rw [hr]
  simp

theorem levelOf_min (data : DMAppData) (m M : Int)
    (hr : priorityRange data.components = (some m, M)) :
    levelOf data m = (levelCount data : Int) := by
  unfold levelOf
  rw [levelQuotient_min data m M hr, parseInt_zero]
  simp

theorem floor_levelQuotient (data : DMAppData) (m M : Int)
    (hr : priorityRange data.components = (some m, M)) (hL : 0 < levelCount data)
    (hD : 0 < M - m + 1) (p : Int) :
    ⌊levelQuotient data p⌋ = ((p - m) * (levelCount data : Int)) / (M - m + 1) := by
  rw [levelQuotient_eq data m M hr hL hD p]
  have hcast : (((M - m + 1 : Int)) : ℚ) = (((M - m + 1).toNat : ℕ) : ℚ) := by
    have h1 : (((M - m + 1).toNat : ℕ) : Int) = M - m + 1 := Int.toNat_of_nonneg hD.le
    rw [← Int.cast_natCast, h1]
  rw [hcast, Rat.floor_intCast_div_natCast, Int.toNat_of_nonneg hD.le]

/-- Where `parseInt` reads the integer part, the level is
`levels - ⌊(priority - min) * levels / (max - min + 1)⌋`. -/
theorem levelOf_eq (data : DMAppData) (m M : Int)
    (hr : priorityRange data.components = (some m, M)) (hL : 0 < levelCount data)
    (hD : 0 < M - m + 1) (p : Int)
    (hq : levelQuotient data p = 0 ∨ (1 : ℚ) / 10 ^ 6 ≤ levelQuotient data p) :
    levelOf data p =
      (levelCount data : Int) - ((p - m) * (levelCount data : Int)) / (M - m + 1) := by
  unfold levelOf
  rcases hq with h0 | hge
  · have hf := floor_levelQuotient data m M hr hL hD p
    rw [h0] at hf
    rw [h0, parseInt_zero, ← hf]
    simp
  · rw [parseInt_eq_floor _ hge, floor_levelQuotient data m M hr hL hD p]

theorem levelOf_bounds (data : DMAppData) (m M : Int)
    (hr : priorityRange data.components = (some m, M)) (hL : 0 < levelCount data)
    (p : Int) (hmp : m ≤ p) (hpM : p ≤ M)
    (hq : levelQuotient data p = 0 ∨ (1 : ℚ) / 10 ^ 6 ≤ levelQuotient data p) :
    1 ≤ levelOf data p ∧ levelOf data p ≤ (levelCount data : Int) := by
  have hD : 0 < M - m + 1 := by omega
  rw [levelOf_eq data m M hr hL hD p hq]
  have hLz : (0 : Int) < (levelCount data : Int) := by exact_mod_cast hL
  have h0 : 0 ≤ ((p - m) * (levelCount data : Int)) / (M - m + 1) :=
    Int.ediv_nonneg (mul_nonneg (by omega) hLz.le) hD.le
  have h1 : ((p - m) * (levelCount data : Int)) / (M - m + 1) < (levelCount data : Int) := by
    apply Int.ediv_lt_of_lt_mul hD
    have : (p - m) * (levelCount data : Int) < (M - m + 1) * (levelCount data : Int) :=
      mul_lt_mul_of_pos_right (by omega) hLz
    linarith
  omega

/-- With a positive level count and quotients that `parseInt` reads as their
integer part, every placement succeeds and `prepDMAppData` returns. -/
theorem prepDMAppData_returns (data : DMAppData) (hne : data.components ≠ [])
    (hlv : data.priorityLevels ≠ some 0) (hplain : PlainQuotients data) :
    ∃ tiers, prepDMAppData data = some tiers := by
  obtain ⟨m, M, hr, hall, -, -, -⟩ := priorityRange_spec data.components hne
  have hL := levelCount_pos data hne hlv
  apply assignLevels_of_valid
  intro c hc
  have hc1 : c ∈ data.components := (sortJS_perm priorityComparator data.components).mem_iff.mp hc
  exact levelOf_bounds data m M hr hL c.2.priority (hall c hc1).1 (hall c hc1).2 (hplain c hc1)


/-! ## Lemmas: the tiers as a partition -/

theorem sum_range_indicator (L n a : Nat) (hn : n < L) :
    ((List.range L).map (fun k => if k = n then a else 0)).sum = a := by
  induction L with
  | zero => omega
  | succ L ih =>
    rw [List.range_succ, List.map_append, List.sum_append]
    by_cases h : n = L
    · subst h
      have hz : ((List.range n).map (fun k => if k = n then a else 0)).sum = 0 := by
        apply List.sum_eq_zero
        intro x hx
        obtain ⟨k, hk, rfl⟩ := List.mem_map.mp hx
        have : k < n := List.mem_range.mp hk
        rw [if_neg (by omega)]
      simp [hz]
    · have hlt : n < L := by omega
      rw [ih hlt]
      simp only [List.map_cons, List.map_nil, List.sum_cons, List.sum_nil]
      rw [if_neg (fun h2 => h h2.symm)]
      omega

theorem bucket_count_sum (data : DMAppData) (id : InstanceId)
    (keys : List (InstanceId × Component))
    (hv : ∀ c ∈ keys, 1 ≤ levelOf data c.2.priority ∧
        levelOf data c.2.priority ≤ (levelCount data : Int)) :
    ((List.range (levelCount data)).map (fun k => (bucket data keys k).count id)).sum =
      (keys.map Prod.fst).count id := by
  induction keys with
  | nil => simp [bucket]
  | cons c keys ih =>
    have hc := hv c (List.mem_cons_self _ _)
    have hstep : ∀ k, (bucket data (c :: keys) k).count id =
        (bucket data keys k).count id +
          (if k = (levelOf data c.2.priority).toNat - 1 then (if c.1 = id then 1 else 0)
            else 0) := by
      intro k
      by_cases hk : k = (levelOf data c.2.priority).toNat - 1
      · have hlev : levelOf data c.2.priority = (k : Int) + 1 := by omega
        rw [if_pos hk]
        simp only [bucket, List.filter_cons, hlev, decide_True, if_true, List.map_cons,
          List.count_cons]
        simp
      · have hlev : ¬ levelOf data c.2.priority = (k : Int) + 1 := by omega
        rw [if_neg hk]
        simp [bucket, List.filter_cons, hlev]
    have hfun : (fun k => (bucket data (c :: keys) k).count id) =
        (fun k => (bucket data keys k).count id +
          (if k = (levelOf data c.2.priority).toNat - 1 then (if c.1 = id then 1 else 0)
            else 0)) := funext hstep
    rw [hfun, List.sum_map_add, ih (fun d hd => hv d (List.mem_cons_of_mem _ hd)),
      sum_range_indicator _ _ _ (by omega)]
    simp [List.count_cons]

theorem tiers_eq_buckets (data : DMAppData) (tiers : List (List InstanceId))
    (h : prepDMAppData data = some tiers) :
    tiers = (List.range (levelCount data)).map (bucket data (sortedKeys data)) := by
  obtain ⟨-, hlen, hget⟩ := prepDMAppData_some data tiers h
  apply List.ext_getElem?
  intro k
  by_cases hk : k < levelCount data
  · rw [hget k hk]
    simp [List.getElem?_map, List.getElem?_range hk]
  · have h1 : tiers[k]? = none := List.getElem?_eq_none (by omega)
    rw [h1]
    symm
    apply List.getElem?_eq_none
    simp
    omega

/-- Every id occurs in the returned tiers exactly as often as among the keys
of the component map. -/
theorem prepDMAppData_count (data : DMAppData) (tiers : List (List InstanceId))
    (h : prepDMAppData data = some tiers) (id : InstanceId) :
    (tiers.map (List.count id)).sum = (data.components.map Prod.fst).count id := by
  obtain ⟨hall, -, -⟩ := prepDMAppData_some data tiers h
  have hperm := sortJS_perm priorityComparator data.components
  have hv : ∀ c ∈ sortedKeys data, 1 ≤ levelOf data c.2.priority ∧
      levelOf data c.2.priority ≤ (levelCount data : Int) :=
    fun c hc => hall c (hperm.mem_iff.mp hc)
  rw [tiers_eq_buckets data tiers h, List.map_map]
  have := bucket_count_sum data id (sortedKeys data) hv
  rw [show (List.count id ∘ bucket data (sortedKeys data)) =
    (fun k => (bucket data (sortedKeys data) k).count id) from rfl, this]
  exact (hperm.map Prod.fst).count_eq id


/-! ## Lemmas: the two end tiers -/

theorem dedup_length_le_range (ps : List Int) (m M : Int)
    (h : ∀ p ∈ ps, m ≤ p ∧ p ≤ M) : ((ps.dedup).length : Int) ≤ max (M - m + 1) 0 := by
  have hsub : ps.dedup.toFinset ⊆ Finset.Icc m M := by
    intro p hp
    rw [List.mem_toFinset, List.mem_dedup] at hp
    exact Finset.mem_Icc.mpr (h p hp)
  have hcard := Finset.card_le_card hsub
  rw [List.toFinset_card_of_nodup (List.nodup_dedup ps), Int.card_Icc] at hcard
  have : ((M + 1 - m).toNat : Int) = max (M + 1 - m) 0 := Int.toNat_eq_max _
  have h2 : ((ps.dedup.length : ℕ) : Int) ≤ ((M + 1 - m).toNat : Int) := by exact_mod_cast hcard
  rw [this] at h2
  have h3 : M + 1 - m = M - m + 1 := by ring
  rw [h3] at h2
  exact h2

theorem mem_bucket_of_level (data : DMAppData) (keys : List (InstanceId × Component))
    (c : InstanceId × Component) (hc : c ∈ keys) (k : Nat)
    (hlev : levelOf data c.2.priority = (k : Int) + 1) : c.1 ∈ bucket data keys k := by
  unfold bucket
  apply List.mem_map.mpr
  exact ⟨c, List.mem_filter.mpr ⟨hc, by simp [hlev]⟩, rfl⟩

theorem levelOf_top (data : DMAppData) (m M : Int)
    (hr : priorityRange data.components = (some m, M)) (hL : 0 < levelCount data)
    (hmM : m ≤ M) (hspread : (levelCount data : Int) ≤ M - m + 1) :
    levelOf data M = 1 := by
  have hD : 0 < M - m + 1 := by omega
  have hLz : (0 : Int) < (levelCount data : Int) := by exact_mod_cast hL
  rcases eq_or_lt_of_le hmM with heq | hlt
  · subst heq
    rw [levelOf_min data m m hr]
    omega
  · have hN : M - m + 1 ≤ 2 * ((M - m) * (levelCount data : Int)) := by nlinarith
    have hq : (1 : ℚ) / 10 ^ 6 ≤ levelQuotient data M := by
      rw [levelQuotient_eq data m M hr hL hD M]
      have hDq : (0 : ℚ) < (((M - m + 1 : Int)) : ℚ) := by exact_mod_cast hD
      rw [le_div_iff₀ hDq]
      have hNq : (((M - m + 1 : Int)) : ℚ) ≤
          ((2 * ((M - m) * (levelCount data : Int)) : Int) : ℚ) := by exact_mod_cast hN
      have hNq2 : (0 : ℚ) ≤ (((M - m) * (levelCount data : Int) : Int) : ℚ) := by
        have : (0 : Int) ≤ (M - m) * (levelCount data : Int) := by nlinarith
        exact_mod_cast this
      push_cast at hNq hNq2 ⊢
      linarith
    rw [levelOf_eq data m M hr hL hD M (Or.inr hq)]
    have h1 : (levelCount data : Int) - 1 ≤ ((M - m) * (levelCount data : Int)) / (M - m + 1) := by
      apply Int.le_ediv_of_mul_le hD
      nlinarith
    have h2 : ((M - m) * (levelCount data : Int)) / (M - m + 1) < (levelCount data : Int) := by
      apply Int.ediv_lt_of_lt_mul hD
      nlinarith
    omega


/-! ## Priority tiers: results -/

/-- Where no quotient prints in exponent notation and the level count is
positive, `prepDMAppData` returns `min(requested, number of components)` tiers
and every id occurs in them exactly as often as among the keys of the
component map (once, the keys of an object being distinct). -/
theorem prepDMAppData_partition (data : DMAppData) (hne : data.components ≠ [])
    (hlv : data.priorityLevels ≠ some 0) (hplain : PlainQuotients data) :
    ∃ tiers, prepDMAppData data = some tiers ∧
      tiers.length = min (data.priorityLevels.getD 3) data.components.length ∧
      ∀ id, (tiers.map (List.count id)).sum = (data.components.map Prod.fst).count id := by
  obtain ⟨tiers, h⟩ := prepDMAppData_returns data hne hlv hplain
  refine ⟨tiers, h, ?_, prepDMAppData_count data tiers h⟩
  rw [(prepDMAppData_some data tiers h).2.1, levelCount_eq_min]

/-- C1 (code defect): `prepDMAppData` on the components a (priority 0),
b (priority 5), c (priority 29999999) with the default three levels. The width
is 10⁷, the quotient of b is 5·10⁻⁷, `parseInt` reads its leading digit 5 from
the exponent form, the level is 3 − 5 = −2, and the placement throws: no tiers
are returned. -/
theorem prepDMAppData_throws_on_wide_range :
    levelQuotient ⟨none, [("a", ⟨0⟩), ("b", ⟨5⟩), ("c", ⟨29999999⟩)]⟩ 5 = 5 / 10 ^ 7 ∧
      parseInt (5 / 10 ^ 7) = 5 ∧
      levelOf ⟨none, [("a", ⟨0⟩), ("b", ⟨5⟩), ("c", ⟨29999999⟩)]⟩ 5 = -2 ∧
      prepDMAppData ⟨none, [("a", ⟨0⟩), ("b", ⟨5⟩), ("c", ⟨29999999⟩)]⟩ = none := by
  decide!

/-- Where no quotient prints in exponent notation, a component placed in a
tier of smaller index has strictly higher priority than one placed in a tier of
larger index. -/
theorem prepDMAppData_tier_order (data : DMAppData) (tiers : List (List InstanceId))
    (h : prepDMAppData data = some tiers) (hplain : PlainQuotients data)
    (hnd : (data.components.map Prod.fst).Nodup)
    (a b : Nat) (hab : a < b) (ta tb : List InstanceId)
    (ha : tiers[a]? = some ta) (hb : tiers[b]? = some tb)
    (ca cb : InstanceId × Component) (hca : ca ∈ data.components) (hcb : cb ∈ data.components)
    (hma : ca.1 ∈ ta) (hmb : cb.1 ∈ tb) : cb.2.priority < ca.2.priority := by
  have hne : data.components ≠ [] := List.ne_nil_of_mem hca
  obtain ⟨m, M, hr, hall, -, -, -⟩ := priorityRange_spec data.components hne
  obtain ⟨hvalid, hlen, hget⟩ := prepDMAppData_some data tiers h
  have hL : 0 < levelCount data := by
    have := (hvalid ca hca)
    omega
  have hD : 0 < M - m + 1 := by
    have := hall ca hca
    omega
  have hperm := sortJS_perm priorityComparator data.components
  have hkey : ∀ (c : InstanceId × Component) (k : Nat) (t : List InstanceId),
      c ∈ data.components → tiers[k]? = some t → c.1 ∈ t →
      levelOf data c.2.priority = (k : Int) + 1 := by
    intro c k t hc hk hmem
    have hkL : k < levelCount data := by
      have := (List.getElem?_eq_some_iff.mp hk).1
      omega
    rw [hget k hkL, Option.some.injEq] at hk
    rw [← hk] at hmem
    unfold bucket at hmem
    obtain ⟨c1, hc1, hfst⟩ := List.mem_map.mp hmem
    obtain ⟨hc1m, hc1l⟩ := List.mem_filter.mp hc1
    have hc1c : c1 ∈ data.components := hperm.mem_iff.mp hc1m
    have heq : c1 = c := by
      have hinj := List.inj_on_of_nodup_map hnd
      exact hinj hc1c hc hfst
    rw [heq] at hc1l
    simpa using hc1l
  have hla := hkey ca a ta hca ha hma
  have hlb := hkey cb b tb hcb hb hmb
  rw [levelOf_eq data m M hr hL hD _ (hplain ca hca)] at hla
  rw [levelOf_eq data m M hr hL hD _ (hplain cb hcb)] at hlb
  by_contra hcon
  have hle : ca.2.priority ≤ cb.2.priority := not_lt.mp hcon
  have hLz : (0 : Int) ≤ (levelCount data : Int) := by omega
  have hmono : ((ca.2.priority - m) * (levelCount data : Int)) / (M - m + 1) ≤
      ((cb.2.priority - m) * (levelCount data : Int)) / (M - m + 1) :=
    Int.ediv_le_ediv hD (mul_le_mul_of_nonneg_right (by omega) hLz)
  omega

/-- C2 (code defect): `prepDMAppData` on a (priority 0), b (priority 1),
c (priority 20), d (priority 29999999) with the default three levels returns
the tiers [d], [b], [c, a]: b, of priority 1, is in tier 2, above c, of
priority 20, in tier 3 (the quotient of b is 10⁻⁷, read by `parseInt` as 1). -/
theorem prepDMAppData_tier_inversion :
    prepDMAppData ⟨none, [("a", ⟨0⟩), ("b", ⟨1⟩), ("c", ⟨20⟩), ("d", ⟨29999999⟩)]⟩ =
      some [["d"], ["b"], ["c", "a"]] := by
  decide!

/-- C3 (counterexample): the components a (priority 0), b (priority 1),
c (priority 100) carry three distinct priorities and are binned into three
tiers, yet tier 2 is empty. -/
theorem prepDMAppData_middle_tier_empty :
    prepDMAppData ⟨some 3, [("a", ⟨0⟩), ("b", ⟨1⟩), ("c", ⟨100⟩)]⟩ =
        some [["c"], [], ["b", "a"]] ∧
      levelCount ⟨some 3, [("a", ⟨0⟩), ("b", ⟨1⟩), ("c", ⟨100⟩)]⟩ = 3 ∧
      (([("a", ⟨0⟩), ("b", ⟨1⟩), ("c", ⟨100⟩)] : List (InstanceId × Component)).map
        (fun c => c.2.priority)).dedup.length = 3 := by
  decide!

/-- C3 (amended): whenever `prepDMAppData` returns tiers for a non-empty
component map, the lowest-priority tier (index `levels`) is not empty; and if
the components carry at least `levels` distinct priorities, one of them
non-negative, tier 1 is not empty either. -/
theorem prepDMAppData_end_tiers_nonempty (data : DMAppData) (tiers : List (List InstanceId))
    (h : prepDMAppData data = some tiers) (hne : data.components ≠ []) :
    (∃ t, tiers[levelCount data - 1]? = some t ∧ t ≠ []) ∧
      (levelCount data ≤ ((data.components.map (fun c => c.2.priority)).dedup).length →
        (∃ c ∈ data.components, 0 ≤ c.2.priority) →
        ∃ t, tiers[0]? = some t ∧ t ≠ []) := by
  obtain ⟨m, M, hr, hall, ⟨cm, hcm, hcmp⟩, hM0, hMatt⟩ := priorityRange_spec data.components hne
  obtain ⟨hvalid, hlen, hget⟩ := prepDMAppData_some data tiers h
  have hL : 0 < levelCount data := by
    have := (hvalid cm hcm)
    omega
  have hperm := sortJS_perm priorityComparator data.components
  constructor
  · refine ⟨_, hget (levelCount data - 1) (by omega), ?_⟩
    apply List.ne_nil_of_mem
    apply mem_bucket_of_level data _ cm (hperm.mem_iff.mpr hcm)
    rw [hcmp, levelOf_min data m M hr]
    omega
  · intro hdistinct ⟨c0, hc0, hc0p⟩
    have hMc : ∃ c ∈ data.components, c.2.priority = M := by
      rcases hMatt with h0 | hatt
      · refine ⟨c0, hc0, ?_⟩
        have := (hall c0 hc0).2
        omega
      · exact hatt
    obtain ⟨cM, hcM, hcMp⟩ := hMc
    have hmM : m ≤ M := by
      have := hall cM hcM
      omega
    have hcount := dedup_length_le_range (data.components.map (fun c => c.2.priority)) m M
      (by
        intro p hp
        obtain ⟨c, hc, rfl⟩ := List.mem_map.mp hp
        exact hall c hc)
    have hspread : (levelCount data : Int) ≤ M - m + 1 := by
      have h1 : (levelCount data : Int) ≤
          (((data.components.map (fun c => c.2.priority)).dedup).length : Int) := by
        exact_mod_cast hdistinct
      have h2 : max (M - m + 1) 0 = M - m + 1 := max_eq_left (by omega)
      rw [h2] at hcount
      omega
    refine ⟨_, hget 0 hL, ?_⟩
    apply List.ne_nil_of_mem
    apply mem_bucket_of_level data _ cM (hperm.mem_iff.mpr hcM)
    rw [hcMp, levelOf_top data m M hr hL hmM hspread]
    simp

theorem prepDMAppData_end_tiers_nonempty_witness :
    (∃ t, ([["c"], [], ["b", "a"]] : List (List InstanceId))[2]? = some t ∧ t ≠ []) ∧
      (∃ t, ([["c"], [], ["b", "a"]] : List (List InstanceId))[0]? = some t ∧ t ≠ []) :=
  have hw := prepDMAppData_end_tiers_nonempty
    ⟨some 3, [("a", ⟨0⟩), ("b", ⟨1⟩), ("c", ⟨100⟩)]⟩ [["c"], [], ["b", "a"]]
    (by decide!) (by decide!)
  ⟨hw.1, hw.2 (by decide!) ⟨("a", ⟨0⟩), by decide!, by decide!⟩⟩


/-! ## The level formula of the specification -/

theorem foldl_min_spec (ps : List Int) (a : Int) :
    ps.foldl (fun a b => if b < a then b else a) a ≤ a ∧
      (∀ p ∈ ps, ps.foldl (fun a b => if b < a then b else a) a ≤ p) ∧
      (ps.foldl (fun a b => if b < a then b else a) a = a ∨
        ps.foldl (fun a b => if b < a then b else a) a ∈ ps) := by
  induction ps generalizing a with
  | nil => simp
  | cons b ps ih =>
    obtain ⟨h1, h2, h3⟩ := ih (if b < a then b else a)
    simp only [List.foldl_cons]
    by_cases hb : b < a
    · simp only [hb, if_true] at h1 h2 h3 ⊢
      refine ⟨by omega, ?_, ?_⟩
      · intro p hp
        rcases List.mem_cons.mp hp with rfl | hp
        · omega
        · exact h2 p hp
      · rcases h3 with h | h
        · rw [h]
          exact Or.inr (List.mem_cons_self _ _)
        · exact Or.inr (List.mem_cons_of_mem _ h)
    · simp only [hb, if_false] at h1 h2 h3 ⊢
      refine ⟨by omega, ?_, ?_⟩
      · intro p hp
        rcases List.mem_cons.mp hp with rfl | hp
        · omega
        · exact h2 p hp
      · rcases h3 with h | h
        · exact Or.inl h
        · exact Or.inr (List.mem_cons_of_mem _ h)

theorem foldl_max_spec (ps : List Int) (a : Int) :
    a ≤ ps.foldl (fun a b => if b > a then b else a) a ∧
      (∀ p ∈ ps, p ≤ ps.foldl (fun a b => if b > a then b else a) a) ∧
      (ps.foldl (fun a b => if b > a then b else a) a = a ∨
        ps.foldl (fun a b => if b > a then b else a) a ∈ ps) := by
  induction ps generalizing a with
  | nil => simp
  | cons b ps ih =>
    obtain ⟨h1, h2, h3⟩ := ih (if b > a then b else a)
    simp only [List.foldl_cons]
    by_cases hb : b > a
    · simp only [hb, if_true] at h1 h2 h3 ⊢
      refine ⟨by omega, ?_, ?_⟩
      · intro p hp
        rcases List.mem_cons.mp hp with rfl | hp
        · omega
        · exact h2 p hp
      · rcases h3 with h | h
        · rw [h]
          exact Or.inr (List.mem_cons_self _ _)
        · exact Or.inr (List.mem_cons_of_mem _ h)
    · simp only [hb, if_false] at h1 h2 h3 ⊢
      refine ⟨by omega, ?_, ?_⟩
      · intro p hp
        rcases List.mem_cons.mp hp with rfl | hp
        · omega
        · exact h2 p hp
      · rcases h3 with h | h
        · exact Or.inl h
        · exact Or.inr (List.mem_cons_of_mem _ h)

/-- Where some priority is non-negative and no quotient prints in exponent
notation, the level computed by the code is the level of the specification. -/
theorem levelOf_eq_specLevel (data : DMAppData)
    (hnonneg : ∃ c ∈ data.components, 0 ≤ c.2.priority)
    (c : InstanceId × Component) (hc : c ∈ data.components)
    (hq : levelQuotient data c.2.priority = 0 ∨
      (1 : ℚ) / 10 ^ 6 ≤ levelQuotient data c.2.priority) :
    levelOf data c.2.priority = specLevel data c.2.priority := by
  have hne : data.components ≠ [] := List.ne_nil_of_mem hc
  obtain ⟨m, M, hr, hall, ⟨cm, hcm, hcmp⟩, hM0, hMatt⟩ := priorityRange_spec data.components hne
  obtain ⟨c0, hc0, hc0p⟩ := hnonneg
  have hMc : ∃ d ∈ data.components, d.2.priority = M := by
    rcases hMatt with h0 | hatt
    · refine ⟨c0, hc0, ?_⟩
      have := (hall c0 hc0).2
      omega
    · exact hatt
  obtain ⟨cM, hcM, hcMp⟩ := hMc
  have hpsne : data.components.map (fun c => c.2.priority) ≠ [] := by
    simpa using hne
  have hhead : (data.components.map (fun c => c.2.priority)).headD 0 ∈
      data.components.map (fun c => c.2.priority) := by
    cases hps : data.components.map (fun c => c.2.priority) with
    | nil => exact absurd hps hpsne
    | cons a l => simp
  have hmem : ∀ p ∈ data.components.map (fun c => c.2.priority), m ≤ p ∧ p ≤ M := by
    intro p hp
    obtain ⟨d, hd, rfl⟩ := List.mem_map.mp hp
    exact hall d hd
  have hmin : (data.components.map (fun c => c.2.priority)).foldl
      (fun a b => if b < a then b else a)
      ((data.components.map (fun c => c.2.priority)).headD 0) = m := by
    obtain ⟨h1, h2, h3⟩ := foldl_min_spec (data.components.map (fun c => c.2.priority))
      ((data.components.map (fun c => c.2.priority)).headD 0)
    have hle := h2 m (List.mem_map.mpr ⟨cm, hcm, hcmp⟩)
    have hge : m ≤ (data.components.map (fun c => c.2.priority)).foldl
        (fun a b => if b < a then b else a)
        ((data.components.map (fun c => c.2.priority)).headD 0) := by
      rcases h3 with h | h
      · rw [h]
        exact (hmem _ hhead).1
      · exact (hmem _ h).1
    omega
  have hmax : (data.components.map (fun c => c.2.priority)).foldl
      (fun a b => if b > a then b else a)
      ((data.components.map (fun c => c.2.priority)).headD 0) = M := by
    obtain ⟨h1, h2, h3⟩ := foldl_max_spec (data.components.map (fun c => c.2.priority))
      ((data.components.map (fun c => c.2.priority)).headD 0)
    have hge := h2 M (List.mem_map.mpr ⟨cM, hcM, hcMp⟩)
    have hle : (data.components.map (fun c => c.2.priority)).foldl
        (fun a b => if b > a then b else a)
        ((data.components.map (fun c => c.2.priority)).headD 0) ≤ M := by
      rcases h3 with h | h
      · rw [h]
        exact (hmem _ hhead).2
      · exact (hmem _ h).2
    omega
  have hspec : specLevel data c.2.priority =
      (levelCount data : Int) - ⌊levelQuotient data c.2.priority⌋ := by
    unfold specLevel levelQuotient levelWidth
    simp only [hmin, hmax, hr, Option.getD_some]
  rw [hspec]
  unfold levelOf
  rcases hq with h0 | hge
  · rw [h0, parseInt_zero]
    simp
  · rw [parseInt_eq_floor _ hge]

/-- C4 (code defect): for the components a (priority −1), b (priority −3),
c (priority −10) and three levels the code takes `max = 0` (its initial value)
instead of −1, so the width is 11/3 and b is placed in tier 2, while the
formula of the specification, with `max = −1` and width 10/3, gives tier 1. -/
theorem prepDMAppData_level_differs_from_spec :
    priorityRange [("a", ⟨-1⟩), ("b", ⟨-3⟩), ("c", ⟨-10⟩)] = (some (-10), 0) ∧
      levelOf ⟨some 3, [("a", ⟨-1⟩), ("b", ⟨-3⟩), ("c", ⟨-10⟩)]⟩ (-3) = 2 ∧
      specLevel ⟨some 3, [("a", ⟨-1⟩), ("b", ⟨-3⟩), ("c", ⟨-10⟩)]⟩ (-3) = 1 ∧
      prepDMAppData ⟨some 3, [("a", ⟨-1⟩), ("b", ⟨-3⟩), ("c", ⟨-10⟩)]⟩ =
        some [["a"], ["b"], ["c"]] := by
  decide!


/-! ## Demand normalisation: results -/

theorem normalizeLoop_eq (stats : Stats) (totalDiff : ℚ) :
    normalizeLoop stats totalDiff =
      (stats.map (fun e =>
          if e.2.videoBandwidth = 0 then e
          else (e.1, { e.2 with
            videoBandwidth := max e.2.videoBandwidth e.2.playingVideoBitrate })),
        totalDiff + ((stats.filter (fun e => decide (e.2.videoBandwidth ≠ 0))).map
          (fun e => max (e.2.playingVideoBitrate - e.2.videoBandwidth) 0)).sum) := by
  induction stats generalizing totalDiff with
  | nil => simp [normalizeLoop]
  | cons e stats ih =>
    obtain ⟨id, stat⟩ := e
    unfold normalizeLoop
    by_cases h0 : stat.videoBandwidth = 0
    · simp only [h0, if_true]
      rw [ih]
      simp [h0]
    · by_cases hd : stat.playingVideoBitrate - stat.videoBandwidth > 0
      · have hmax : max stat.videoBandwidth stat.playingVideoBitrate =
            stat.playingVideoBitrate := max_eq_right (by linarith)
        have hmax2 : max (stat.playingVideoBitrate - stat.videoBandwidth) 0 =
            stat.playingVideoBitrate - stat.videoBandwidth := max_eq_left hd.le
        simp only [h0, if_false, hd, if_true]
        rw [ih]
        simp [h0, hmax, hmax2, add_assoc]
      · have hle : stat.playingVideoBitrate ≤ stat.videoBandwidth := by linarith
        have hmax : max stat.videoBandwidth stat.playingVideoBitrate =
            stat.videoBandwidth := max_eq_left hle
        have hmax2 : max (stat.playingVideoBitrate - stat.videoBandwidth) 0 = 0 :=
          max_eq_right (by linarith)
        simp only [h0, if_false, hd]
        rw [ih]
        simp [h0, hmax, hmax2]

/-- C5: `normalizeComponents` returns the sum, over the components whose
`videoBandwidth` is nonzero, of `max(playingVideoBitrate − videoBandwidth, 0)`;
in the snapshot it leaves, each such component has as `videoBandwidth` the
larger of its previous `videoBandwidth` and its `playingVideoBitrate`, and the
components with zero `videoBandwidth` are unchanged. -/
theorem normalizeComponents_spec (stats : Stats) :
    (normalizeComponents stats).2 =
        ((stats.filter (fun e => decide (e.2.videoBandwidth ≠ 0))).map
          (fun e => max (e.2.playingVideoBitrate - e.2.videoBandwidth) 0)).sum ∧
      (normalizeComponents stats).1 =
        stats.map (fun e =>
          if e.2.videoBandwidth = 0 then e
          else (e.1, { e.2 with
            videoBandwidth := max e.2.videoBandwidth e.2.playingVideoBitrate })) := by
  unfold normalizeComponents
  rw [normalizeLoop_eq]
  simp


/-! ## Lemmas: the snapshot -/

theorem getStat_setVideoBandwidth_self (stats : Stats) (id : InstanceId) (stat : Stat) (v : ℚ)
    (h : getStat stats id = some stat) :
    getStat (setVideoBandwidth stats id v) id = some { stat with videoBandwidth := v } := by
  induction stats with
  | nil => simp [getStat] at h
  | cons e stats ih =>
    obtain ⟨k, s⟩ := e
    unfold getStat at h
    unfold setVideoBandwidth
    by_cases hk : k = id
    · rw [if_pos hk] at h
      rw [if_pos hk]
      simp only [getStat, hk, if_true]
      rw [Option.some.injEq] at h
      rw [h]
    · rw [if_neg hk] at h
      rw [if_neg hk]
      simp only [getStat, hk, if_false]
      exact ih h

/-! ## Lemmas: the rung search -/

theorem scanRungs_succ (vb : ℚ) (rest : List ℚ) (j : Nat) :
    scanRungs vb rest (j + 1) = scanRungs vb rest j + 1 := by
  induction rest generalizing j with
  | nil => rfl
  | cons r rest ih =>
    unfold scanRungs
    by_cases h : r < vb
    · simp only [h, if_true]
      exact ih (j + 1)
    · simp only [h, if_false]

theorem le_scanRungs (vb : ℚ) (rest : List ℚ) (j : Nat) : j ≤ scanRungs vb rest j := by
  induction rest generalizing j with
  | nil => exact le_refl _
  | cons r rest ih =>
    unfold scanRungs
    by_cases h : r < vb
    · simp only [h, if_true]
      exact le_trans (Nat.le_succ j) (ih (j + 1))
    · simp only [h, if_false]
      exact le_refl _

theorem rung_cons (vb lowest r : ℚ) (rest : List ℚ) :
    (lowest :: r :: rest)[scanRungs vb (r :: rest) 1 - 1]? =
      if r < vb then (r :: rest)[scanRungs vb rest 1 - 1]? else some lowest := by
  by_cases h : r < vb
  · have h1 : scanRungs vb (r :: rest) 1 = scanRungs vb rest 1 + 1 := by
      rw [scanRungs, if_pos h]
      exact scanRungs_succ vb rest 1
    have h2 := le_scanRungs vb rest 1
    have h3 : scanRungs vb rest 1 + 1 - 1 = (scanRungs vb rest 1 - 1) + 1 := by omega
    rw [if_pos h, h1, h3, List.getElem?_cons_succ]
  · have h1 : scanRungs vb (r :: rest) 1 = 1 := by
      rw [scanRungs, if_neg h]
    rw [if_neg h, h1]
    rfl

/-- The rung read after the scan, on an ascending ladder: it belongs to the
ladder, is at least the lowest rung, is the lowest rung or below the
bandwidth, and no rung below the bandwidth exceeds it. -/
theorem rung_spec (vb : ℚ) (rest : List ℚ) (lowest : ℚ)
    (hs : List.Sorted (fun a b => a ≤ b) (lowest :: rest)) :
    ∃ rung, (lowest :: rest)[scanRungs vb rest 1 - 1]? = some rung ∧
      rung ∈ lowest :: rest ∧ lowest ≤ rung ∧ (rung = lowest ∨ rung < vb) ∧
      ∀ r ∈ lowest :: rest, r < vb → r ≤ rung := by
  induction rest generalizing lowest with
  | nil =>
    refine ⟨lowest, rfl, List.mem_singleton.mpr rfl, le_refl _, Or.inl rfl, ?_⟩
    intro r hr _
    rw [List.mem_singleton.mp hr]
  | cons r rest ih =>
    have hs1 : List.Sorted (fun a b => a ≤ b) (r :: rest) := List.Sorted.of_cons hs
    have hlr : lowest ≤ r := List.rel_of_sorted_cons hs r (List.mem_cons_self _ _)
    rw [rung_cons]
    by_cases h : r < vb
    · rw [if_pos h]
      obtain ⟨rung, hget, hmem, hle, hor, hmax⟩ := ih r hs1
      refine ⟨rung, hget, List.mem_cons_of_mem _ hmem, le_trans hlr hle, ?_, ?_⟩
      · rcases hor with h1 | h1
        · exact Or.inr (by rw [h1]; exact h)
        · exact Or.inr h1
      · intro x hx hxv
        rcases List.mem_cons.mp hx with rfl | hx
        · exact le_trans hlr hle
        · exact hmax x hx hxv
    · rw [if_neg h]
      refine ⟨lowest, rfl, List.mem_cons_self _ _, le_refl _, Or.inl rfl, ?_⟩
      intro x hx hxv
      rcases List.mem_cons.mp hx with rfl | hx
      · exact le_refl _
      · have hrx : r ≤ x := by
          rcases List.mem_cons.mp hx with rfl | hx2
          · exact le_refl _
          · exact List.rel_of_sorted_cons hs1 x hx2
        exact absurd (lt_of_le_of_lt hrx hxv) h

theorem selectedRung_eq (stat : Stat) (lowest : ℚ) (rest : List ℚ)
    (hv : stat.bitrates.video = lowest :: rest) :
    selectedRung stat = (lowest :: rest)[scanRungs stat.videoBandwidth rest 1 - 1]? := by
  unfold selectedRung rungIndex
  rw [hv]
  rfl


/-! ## Tier degradation: results -/

/-- C6 (counterexample): with the ladder [1000, 2000, 4000] and a current
`videoBandwidth` of 4000 the rung selected is 2000 and `diff` is 2000, whereas
the highest rung that is at most 4000 is 4000. -/
theorem selectedRung_skips_equal_rung :
    selectedRung (videoOnlyStat 4000 4000 [1000, 2000, 4000]) = some 2000 ∧
      rungDiff (videoOnlyStat 4000 4000 [1000, 2000, 4000]) = some 2000 ∧
      ¬ HighestRungAtMost [1000, 2000, 4000] 4000 2000 := by
  refine ⟨by decide!, by decide!, ?_⟩
  intro h
  have h1 := h.2.2 4000 (by simp) (le_refl _)
  norm_num at h1

/-- C6 (amended): for a member with an ascending, non-empty video ladder the
rung selected belongs to the ladder and `diff` is the current `videoBandwidth`
minus that rung; when the bandwidth is above the lowest rung the rung is the
highest one strictly below the bandwidth; when the bandwidth equals the lowest
rung it is the lowest rung; `diff` is 0 exactly when the bandwidth equals the
lowest rung; and a member above its lowest rung that has metrics and is not
turned off is stepped down to that rung, the usage dropping by `diff`. -/
theorem selectedRung_highest_below (stat : Stat) (lowest : ℚ) (rest : List ℚ)
    (hv : stat.bitrates.video = lowest :: rest)
    (hs : List.Sorted (fun a b => a ≤ b) (lowest :: rest)) :
    ∃ rung, selectedRung stat = some rung ∧
      rungDiff stat = some (stat.videoBandwidth - rung) ∧
      rung ∈ stat.bitrates.video ∧
      (lowest < stat.videoBandwidth →
        rung < stat.videoBandwidth ∧
          ∀ r ∈ stat.bitrates.video, r < stat.videoBandwidth → r ≤ rung) ∧
      (stat.videoBandwidth = lowest → rung = lowest) ∧
      (stat.videoBandwidth - rung = 0 ↔ stat.videoBandwidth = lowest) ∧
      ∀ (stats : Stats) (id : InstanceId) (bandwidthUsage : ℚ) (shutdown changed : Bool),
        getStat stats id = some stat → stat.videoBandwidth ≠ TURNEDOFF →
        lowest < stat.videoBandwidth →
        conformMember stats id bandwidthUsage shutdown changed =
          .ok (setVideoBandwidth stats id rung,
            bandwidthUsage - (stat.videoBandwidth - rung), true) := by
  obtain ⟨rung, hget, hmem, hle, hor, hmax⟩ := rung_spec stat.videoBandwidth rest lowest hs
  have hsel : selectedRung stat = some rung := by
    rw [selectedRung_eq stat lowest rest hv, hget]
  have hlt : lowest < stat.videoBandwidth → rung < stat.videoBandwidth := by
    intro hl
    rcases hor with h | h
    · rw [h]
      exact hl
    · exact h
  refine ⟨rung, hsel, ?_, ?_, ?_, ?_, ?_, ?_⟩
  · unfold rungDiff
    rw [hsel]
    rfl
  · rw [hv]
    exact hmem
  · intro hl
    refine ⟨hlt hl, ?_⟩
    rw [hv]
    exact hmax
  · intro he
    rcases hor with h | h
    · exact h
    · rw [he] at h
      exact absurd h (not_lt.mpr hle)
  · constructor
    · intro h0
      have he : stat.videoBandwidth = rung := by linarith
      rcases hor with h | h
      · rw [he, h]
      · rw [he] at h
        exact absurd h (lt_irrefl _)
    · intro he
      rcases hor with h | h
      · rw [he, h]
        ring
      · rw [he] at h
        exact absurd h (not_lt.mpr hle)
  · intro stats id bandwidthUsage shutdown changed hstat hon hl
    have hd : ¬ stat.videoBandwidth - rung = 0 := by
      have := hlt hl
      intro h0
      linarith
    have hpos : stat.videoBandwidth - rung > 0 := by
      have := hlt hl
      linarith
    unfold conformMember
    simp only [hstat, hon, if_false, hsel, hd, hpos, decide_True, Bool.or_true]

theorem selectedRung_highest_below_witness :
    (videoOnlyStat 4000 4000 [1000, 2000, 4000]).bitrates.video = 1000 :: [2000, 4000] ∧
      List.Sorted (fun a b => a ≤ b) ((1000 : ℚ) :: [2000, 4000]) ∧
      ∃ rung, selectedRung (videoOnlyStat 4000 4000 [1000, 2000, 4000]) = some rung ∧
        rung ∈ (videoOnlyStat 4000 4000 [1000, 2000, 4000]).bitrates.video :=
  ⟨rfl, by decide!,
    (selectedRung_highest_below (videoOnlyStat 4000 4000 [1000, 2000, 4000]) 1000
      [2000, 4000] rfl (by decide!)).imp (fun _ h => ⟨h.1, h.2.2.1⟩)⟩

/-- C7: a member whose `videoBandwidth` equals the lowest rung of its
ascending ladder (and which is not already turned off) is, when visited with
shutdown allowed, set to `TURNEDOFF` while the usage drops by exactly its last
`videoBandwidth`; visited with shutdown not allowed it leaves the snapshot and
the usage as they were. -/
theorem conformMember_at_lowest_rung (stats : Stats) (id : InstanceId) (stat : Stat)
    (lowest : ℚ) (rest : List ℚ) (bandwidthUsage : ℚ) (changed : Bool)
    (hstat : getStat stats id = some stat)
    (hv : stat.bitrates.video = lowest :: rest)
    (hs : List.Sorted (fun a b => a ≤ b) (lowest :: rest))
    (hvb : stat.videoBandwidth = lowest) (hon : stat.videoBandwidth ≠ TURNEDOFF) :
    conformMember stats id bandwidthUsage true changed =
        .ok (setVideoBandwidth stats id TURNEDOFF, bandwidthUsage - stat.videoBandwidth,
          changed || decide (stat.videoBandwidth > 0)) ∧
      videoBandwidthOf (setVideoBandwidth stats id TURNEDOFF) id = some TURNEDOFF ∧
      conformMember stats id bandwidthUsage false changed =
        .ok (stats, bandwidthUsage, changed) := by
  obtain ⟨rung, hget, hmem, hle, hor, hmax⟩ := rung_spec stat.videoBandwidth rest lowest hs
  have hsel : selectedRung stat = some rung := by
    rw [selectedRung_eq stat lowest rest hv, hget]
  have hrung : rung = lowest := by
    rcases hor with h | h
    · exact h
    · rw [hvb] at h
      exact absurd h (not_lt.mpr hle)
  have hd : stat.videoBandwidth - rung = 0 := by
    rw [hrung, hvb]
    ring
  refine ⟨?_, ?_, ?_⟩
  · unfold conformMember
    simp only [hstat, hon, if_false, hsel, hd, if_true]
  · unfold videoBandwidthOf
    rw [getStat_setVideoBandwidth_self stats id stat TURNEDOFF hstat]
    rfl
  · unfold conformMember
    simp only [hstat, hon, if_false, hsel, hd, if_true]
    simp

theorem conformMember_at_lowest_rung_witness :
    getStat [("B", videoOnlyStat 1000 4000 [1000, 2000, 4000])] "B" =
        some (videoOnlyStat 1000 4000 [1000, 2000, 4000]) ∧
      conformMember [("B", videoOnlyStat 1000 4000 [1000, 2000, 4000])] "B" 5000 true false =
        .ok (setVideoBandwidth [("B", videoOnlyStat 1000 4000 [1000, 2000, 4000])] "B" TURNEDOFF,
          5000 - (videoOnlyStat 1000 4000 [1000, 2000, 4000]).videoBandwidth,
          false || decide ((videoOnlyStat 1000 4000 [1000, 2000, 4000]).videoBandwidth > 0)) ∧
      conformMember [("B", videoOnlyStat 1000 4000 [1000, 2000, 4000])] "B" 5000 false false =
        .ok ([("B", videoOnlyStat 1000 4000 [1000, 2000, 4000])], 5000, false) :=
  have hw := conformMember_at_lowest_rung [("B", videoOnlyStat 1000 4000 [1000, 2000, 4000])]
    "B" (videoOnlyStat 1000 4000 [1000, 2000, 4000]) 1000 [2000, 4000] 5000 false
    (by decide!) rfl (by decide!) rfl (by decide!)
  ⟨by decide!, hw.1, hw.2.2⟩

/-- C8 (code defect): the tier [a, b] with a at 1000 (ladder [500, 1000]) and
b at 4000 (ladder [2000, 4000]), usage 5000, budget 4600, no shutdown. The
comparator reads `videoBandwidth` off the ids, so the sort leaves the tier as
it is; a, the member with the smaller bandwidth, is visited first and stepped
down to 500, the usage 4500 fits, and b, the member with the larger
bandwidth, is not touched. -/
theorem conformComponentGroup_ignores_bandwidth_order :
    sortJS groupComparator ["a", "b"] = ["a", "b"] ∧
      conformComponentGroup 4
        [("a", videoOnlyStat 1000 1000 [500, 1000]), ("b", videoOnlyStat 4000 4000 [2000, 4000])]
        ["a", "b"] 5000 4600 false =
      .ok ([("a", { videoOnlyStat 1000 1000 [500, 1000] with videoBandwidth := 500 }),
          ("b", videoOnlyStat 4000 4000 [2000, 4000])], 4500) := by
  decide!

theorem conformLoop_within_budget (sortedGroup : List InstanceId) (availableBandwith : ℚ)
    (shutdown : Bool) (fuel : Nat) (stats : Stats) (bandwidthUsage : ℚ) (changed : Bool)
    (h : bandwidthUsage ≤ availableBandwith) :
    conformLoop sortedGroup availableBandwith shutdown fuel stats bandwidthUsage changed =
      .ok (stats, bandwidthUsage) := by
  cases fuel with
  | zero =>
    unfold conformLoop
    rw [if_neg (fun hc => absurd hc.2 (not_lt.mpr h))]
  | succ n =>
    unfold conformLoop
    rw [if_neg (fun hc => absurd hc.2 (not_lt.mpr h))]

/-- C9: entered with a usage within the budget, `conformComponentGroup`
returns that usage and the snapshot it was given, whatever the fuel, the tier
and the shutdown flag; in particular it does so on the outcome of an earlier
run that ended within budget. -/
theorem conformComponentGroup_within_budget (fuel : Nat) (stats : Stats)
    (group : List InstanceId) (bandwidthUsage availableBandwith : ℚ) (shutdown : Bool)
    (h : bandwidthUsage ≤ availableBandwith) :
    conformComponentGroup fuel stats group bandwidthUsage availableBandwith shutdown =
      .ok (stats, bandwidthUsage) :=
  conformLoop_within_budget _ availableBandwith shutdown fuel stats bandwidthUsage true h

theorem conformComponentGroup_within_budget_witness :
    (4000 : ℚ) ≤ 4750 ∧
      conformComponentGroup 0
        [("A", videoOnlyStat 4000 4000 [1000, 2000, 4000])] ["A"] 4000 4750 true =
      .ok ([("A", videoOnlyStat 4000 4000 [1000, 2000, 4000])], 4000) :=
  ⟨by decide!, conformComponentGroup_within_budget 0 _ _ 4000 4750 true (by decide!)⟩

/-- A run that ended within budget is a fixed point: degrading its outcome
again, with the usage it returned, changes nothing. -/
theorem conformComponentGroup_rerun (fuel fuel1 : Nat) (stats stats1 : Stats)
    (group group1 : List InstanceId) (bandwidthUsage usage1 availableBandwith : ℚ)
    (shutdown shutdown1 : Bool)
    (_hrun : conformComponentGroup fuel stats group bandwidthUsage availableBandwith shutdown =
      .ok (stats1, usage1))
    (hfit : usage1 ≤ availableBandwith) :
    conformComponentGroup fuel1 stats1 group1 usage1 availableBandwith shutdown1 =
      .ok (stats1, usage1) :=
  conformLoop_within_budget _ availableBandwith shutdown1 fuel1 stats1 usage1 true hfit


/-! ## Lemmas: degradation only lowers -/

theorem lowered_refl (stats : Stats) (hok : ∀ e ∈ stats, LadderOk e.2) :
    List.Forall₂ Lowered stats stats := by
  induction stats with
  | nil => exact List.Forall₂.nil
  | cons e stats ih =>
    refine List.Forall₂.cons ⟨rfl, rfl, le_refl _, hok e (List.mem_cons_self _ _)⟩ ?_
    exact ih (fun d hd => hok d (List.mem_cons_of_mem _ hd))

theorem lowered_trans (a b c : Stats) (hab : List.Forall₂ Lowered a b)
    (hbc : List.Forall₂ Lowered b c) : List.Forall₂ Lowered a c := by
  induction hab generalizing c with
  | nil =>
    cases hbc
    exact List.Forall₂.nil
  | cons h _ ih =>
    cases hbc with
    | cons h2 t2 =>
      refine List.Forall₂.cons ⟨?_, ?_, ?_, h2.2.2.2⟩ (ih _ t2)
      · rw [h2.1, h.1]
      · rw [h2.2.1, h.2.1]
      · exact le_trans h2.2.2.1 h.2.2.1

theorem lowered_ok (a b : Stats) (hab : List.Forall₂ Lowered a b) :
    ∀ e ∈ b, LadderOk e.2 := by
  induction hab with
  | nil => simp
  | cons h _ ih =>
    intro e he
    rcases List.mem_cons.mp he with rfl | he
    · exact h.2.2.2
    · exact ih e he

theorem lowered_videoBandwidthOf (a b : Stats) (hab : List.Forall₂ Lowered a b)
    (id : InstanceId) (v : ℚ) (hv : videoBandwidthOf a id = some v) :
    ∃ v1, videoBandwidthOf b id = some v1 ∧ v1 ≤ v := by
  induction hab with
  | nil => simp [videoBandwidthOf, getStat] at hv
  | @cons e e1 l l1 h _ ih =>
    obtain ⟨k, s⟩ := e
    obtain ⟨k1, s1⟩ := e1
    have hk : k1 = k := h.1
    subst hk
    unfold videoBandwidthOf getStat at hv ⊢
    by_cases hkid : k1 = id
    · simp only [hkid, if_true, Option.map_some', Option.some.injEq] at hv ⊢
      exact ⟨s1.videoBandwidth, rfl, by rw [← hv]; exact h.2.2.1⟩
    · simp only [hkid, if_false] at hv ⊢
      exact ih hv

theorem getStat_mem (stats : Stats) (id : InstanceId) (stat : Stat)
    (h : getStat stats id = some stat) : (id, stat) ∈ stats := by
  induction stats with
  | nil => simp [getStat] at h
  | cons e stats ih =>
    obtain ⟨k, s⟩ := e
    unfold getStat at h
    by_cases hk : k = id
    · rw [if_pos hk, Option.some.injEq] at h
      rw [hk, h]
      exact List.mem_cons_self _ _
    · rw [if_neg hk] at h
      exact List.mem_cons_of_mem _ (ih h)

theorem lowered_setVideoBandwidth (stats : Stats) (id : InstanceId) (stat : Stat) (v : ℚ)
    (hget : getStat stats id = some stat) (hok : ∀ e ∈ stats, LadderOk e.2)
    (hle : v ≤ stat.videoBandwidth)
    (hnew : LadderOk { stat with videoBandwidth := v }) :
    List.Forall₂ Lowered stats (setVideoBandwidth stats id v) := by
  induction stats with
  | nil => simp [getStat] at hget
  | cons e stats ih =>
    obtain ⟨k, s⟩ := e
    have hok1 : ∀ d ∈ stats, LadderOk d.2 := fun d hd => hok d (List.mem_cons_of_mem _ hd)
    unfold getStat at hget
    unfold setVideoBandwidth
    by_cases hk : k = id
    · rw [if_pos hk, Option.some.injEq] at hget
      rw [if_pos hk]
      subst hget
      exact List.Forall₂.cons ⟨rfl, rfl, hle, hnew⟩ (lowered_refl stats hok1)
    · rw [if_neg hk] at hget
      rw [if_neg hk]
      exact List.Forall₂.cons ⟨rfl, rfl, le_refl _, hok (k, s) (List.mem_cons_self _ _)⟩
        (ih hget hok1)

theorem conformMember_lowered (stats : Stats) (id : InstanceId) (bandwidthUsage : ℚ)
    (shutdown changed : Bool) (out : Stats × ℚ × Bool)
    (hok : ∀ e ∈ stats, LadderOk e.2)
    (h : conformMember stats id bandwidthUsage shutdown changed = .ok out) :
    List.Forall₂ Lowered stats out.1 := by
  unfold conformMember at h
  cases hget : getStat stats id with
  | none =>
    simp only [hget, Except.ok.injEq] at h
    rw [← h]
    exact lowered_refl stats hok
  | some stat =>
    simp only [hget] at h
    by_cases hoff : stat.videoBandwidth = TURNEDOFF
    · simp only [hoff, if_true, Except.ok.injEq] at h
      rw [← h]
      exact lowered_refl stats hok
    · have hst : LadderOk stat := hok _ (getStat_mem stats id stat hget)
      rcases hst with hst | ⟨lowest, rest, hv, hs, h0, hlow⟩
      · exact absurd hst hoff
      · obtain ⟨rung, hr, hmem, hle, hor, hmax⟩ :=
          rung_spec stat.videoBandwidth rest lowest hs
        have hsel : selectedRung stat = some rung := by
          rw [selectedRung_eq stat lowest rest hv, hr]
        have hrv : rung ≤ stat.videoBandwidth := by
          rcases hor with h1 | h1
          · rw [h1]
            exact hlow
          · exact h1.le
        simp only [hoff, if_false, hsel] at h
        by_cases hd : stat.videoBandwidth - rung = 0
        · cases shutdown with
          | true =>
            simp only [hd, if_true, Except.ok.injEq] at h
            rw [← h]
            apply lowered_setVideoBandwidth stats id stat TURNEDOFF hget hok
            · unfold TURNEDOFF
              linarith
            · exact Or.inl rfl
          | false =>
            simp only [hd, if_true, Except.ok.injEq] at h
            rw [← h]
            exact lowered_refl stats hok
        · simp only [hd, if_false, Except.ok.injEq] at h
          rw [← h]
          apply lowered_setVideoBandwidth stats id stat rung hget hok hrv
          exact Or.inr ⟨lowest, rest, hv, hs, h0, hle⟩

theorem conformPass_lowered (availableBandwith : ℚ) (shutdown : Bool)
    (members : List InstanceId) (stats : Stats) (bandwidthUsage : ℚ) (changed : Bool)
    (out : Stats × ℚ × Bool) (hok : ∀ e ∈ stats, LadderOk e.2)
    (h : conformPass availableBandwith shutdown members stats bandwidthUsage changed = .ok out) :
    List.Forall₂ Lowered stats out.1 := by
  induction members generalizing stats bandwidthUsage changed with
  | nil =>
    simp only [conformPass, Except.ok.injEq] at h
    rw [← h]
    exact lowered_refl stats hok
  | cons id rest ih =>
    unfold conformPass at h
    by_cases hu : bandwidthUsage > availableBandwith
    · rw [if_pos hu] at h
      cases hm : conformMember stats id bandwidthUsage shutdown changed with
      | error e => simp [hm] at h
      | ok r =>
        obtain ⟨s1, u1, c1⟩ := r
        simp only [hm] at h
        have h1 := conformMember_lowered stats id bandwidthUsage shutdown changed _ hok hm
        exact lowered_trans _ _ _ h1 (ih s1 u1 c1 (lowered_ok _ _ h1) h)
    · rw [if_neg hu, Except.ok.injEq] at h
      rw [← h]
      exact lowered_refl stats hok

theorem conformLoop_lowered (sortedGroup : List InstanceId) (availableBandwith : ℚ)
    (shutdown : Bool) (fuel : Nat) (stats : Stats) (bandwidthUsage : ℚ) (changed : Bool)
    (out : Stats × ℚ) (hok : ∀ e ∈ stats, LadderOk e.2)
    (h : conformLoop sortedGroup availableBandwith shutdown fuel stats bandwidthUsage changed =
      .ok out) :
    List.Forall₂ Lowered stats out.1 := by
  induction fuel generalizing stats bandwidthUsage changed with
  | zero =>
    unfold conformLoop at h
    by_cases hc : changed = true ∧ bandwidthUsage > availableBandwith
    · rw [if_pos hc] at h
      simp at h
    · rw [if_neg hc, Except.ok.injEq] at h
      rw [← h]
      exact lowered_refl stats hok
  | succ n ih =>
    unfold conformLoop at h
    by_cases hc : changed = true ∧ bandwidthUsage > availableBandwith
    · rw [if_pos hc] at h
      cases hp : conformPass availableBandwith shutdown sortedGroup stats bandwidthUsage false with
      | error e => simp [hp] at h
      | ok r =>
        obtain ⟨s1, u1, c1⟩ := r
        simp only [hp] at h
        have h1 := conformPass_lowered availableBandwith shutdown sortedGroup stats
          bandwidthUsage false _ hok hp
        exact lowered_trans _ _ _ h1 (ih s1 u1 c1 (lowered_ok _ _ h1) h)
    · rw [if_neg hc, Except.ok.injEq] at h
      rw [← h]
      exact lowered_refl stats hok

theorem conformComponentGroup_lowered (fuel : Nat) (stats : Stats) (group : List InstanceId)
    (bandwidthUsage availableBandwith : ℚ) (shutdown : Bool) (out : Stats × ℚ)
    (hok : ∀ e ∈ stats, LadderOk e.2)
    (h : conformComponentGroup fuel stats group bandwidthUsage availableBandwith shutdown =
      .ok out) :
    List.Forall₂ Lowered stats out.1 :=
  conformLoop_lowered _ availableBandwith shutdown fuel stats bandwidthUsage true out hok h


theorem conformLowerTiers_lowered (fuel : Nat) (availableBandwidth : ℚ) (shutdown : Bool)
    (groups : List (List InstanceId)) (stats : Stats) (bandwidthUsage : ℚ) (out : Stats × ℚ)
    (hok : ∀ e ∈ stats, LadderOk e.2)
    (h : conformLowerTiers fuel availableBandwidth shutdown groups stats bandwidthUsage =
      .ok out) :
    List.Forall₂ Lowered stats out.1 := by
  induction groups generalizing stats bandwidthUsage with
  | nil =>
    simp only [conformLowerTiers, Except.ok.injEq] at h
    rw [← h]
    exact lowered_refl stats hok
  | cons group rest ih =>
    unfold conformLowerTiers at h
    by_cases hu : bandwidthUsage > availableBandwidth
    · rw [if_pos hu] at h
      cases hg : conformComponentGroup fuel stats group bandwidthUsage availableBandwidth
          shutdown with
      | error e => simp [hg] at h
      | ok r =>
        obtain ⟨s1, u1⟩ := r
        simp only [hg] at h
        have h1 := conformComponentGroup_lowered fuel stats group bandwidthUsage
          availableBandwidth shutdown _ hok hg
        exact lowered_trans _ _ _ h1 (ih s1 u1 (lowered_ok _ _ h1) h)
    · rw [if_neg hu, Except.ok.injEq] at h
      rw [← h]
      exact lowered_refl stats hok

theorem twoTurns_lowered (availableBandwidth : ℚ)
    (body : Bool → Stats → ℚ → Except Err (Stats × ℚ))
    (hbody : ∀ (shutdown : Bool) (s : Stats) (u : ℚ) (r : Stats × ℚ),
      (∀ e ∈ s, LadderOk e.2) → body shutdown s u = .ok r → List.Forall₂ Lowered s r.1)
    (stats : Stats) (bandwidthUsage : ℚ) (out : Stats × ℚ)
    (hok : ∀ e ∈ stats, LadderOk e.2)
    (h : twoTurns availableBandwidth body stats bandwidthUsage = .ok out) :
    List.Forall₂ Lowered stats out.1 := by
  unfold twoTurns at h
  by_cases hu : bandwidthUsage > availableBandwidth
  · rw [if_pos hu] at h
    cases hb : body false stats bandwidthUsage with
    | error e => simp [hb] at h
    | ok r =>
      obtain ⟨s1, u1⟩ := r
      simp only [hb] at h
      have h1 := hbody false stats bandwidthUsage _ hok hb
      by_cases hu1 : u1 > availableBandwidth
      · rw [if_pos hu1] at h
        exact lowered_trans _ _ _ h1 (hbody true s1 u1 _ (lowered_ok _ _ h1) h)
      · rw [if_neg hu1, Except.ok.injEq] at h
        rw [← h]
        exact h1
  · rw [if_neg hu, Except.ok.injEq] at h
    rw [← h]
    exact lowered_refl stats hok

theorem escalationRound_lowered (fuel : Nat) (levels : List (List InstanceId)) (i : Nat)
    (stats : Stats) (bandwidthUsage availableBandwidth : ℚ) (out : Stats × ℚ × ℚ)
    (hok : ∀ e ∈ stats, LadderOk e.2)
    (h : escalationRound fuel levels true i stats bandwidthUsage availableBandwidth = .ok out) :
    List.Forall₂ Lowered stats out.1 := by
  unfold escalationRound at h
  simp only [if_true] at h
  cases ht : twoTurns availableBandwidth
      (fun shutdown s u =>
        conformLowerTiers fuel availableBandwidth shutdown (levels.drop i).reverse s u)
      stats bandwidthUsage with
  | error e => simp [ht] at h
  | ok r =>
    obtain ⟨s1, u1⟩ := r
    simp only [ht] at h
    have h1 := twoTurns_lowered availableBandwidth _
      (fun shutdown s u r hs hr =>
        conformLowerTiers_lowered fuel availableBandwidth shutdown _ s u r hs hr)
      stats bandwidthUsage _ hok ht
    by_cases hu : u1 > availableBandwidth
    · rw [if_pos hu] at h
      cases ht2 : twoTurns availableBandwidth
          (fun shutdown s u =>
            conformComponentGroup fuel s ((levels[i - 1]?).getD []) u availableBandwidth
              shutdown)
          s1 u1 with
      | error e => simp [ht2] at h
      | ok r2 =>
        obtain ⟨s2, u2⟩ := r2
        simp only [ht2, Except.ok.injEq] at h
        rw [← h]
        have h2 := twoTurns_lowered availableBandwidth _
          (fun shutdown s u r hs hr =>
            conformComponentGroup_lowered fuel s _ u availableBandwidth shutdown r hs hr)
          s1 u1 _ (lowered_ok _ _ h1) ht2
        exact lowered_trans _ _ _ h1 h2
    · rw [if_neg hu, Except.ok.injEq] at h
      rw [← h]
      exact h1

theorem escalationLoop_lowered (fuel : Nat) (levels : List (List InstanceId))
    (rounds i : Nat) (stats : Stats) (bandwidthUsage availableBandwidth : ℚ)
    (out : Stats × ℚ × ℚ) (hok : ∀ e ∈ stats, LadderOk e.2)
    (h : escalationLoop fuel levels true rounds i stats bandwidthUsage availableBandwidth =
      .ok out) :
    List.Forall₂ Lowered stats out.1 := by
  induction rounds generalizing i stats bandwidthUsage availableBandwidth with
  | zero =>
    simp only [escalationLoop, Except.ok.injEq] at h
    rw [← h]
    exact lowered_refl stats hok
  | succ n ih =>
    unfold escalationLoop at h
    by_cases hc : true = false ∨ bandwidthUsage > availableBandwidth
    · rw [if_pos hc] at h
      cases hr : escalationRound fuel levels true i stats bandwidthUsage availableBandwidth with
      | error e => simp [hr] at h
      | ok r =>
        obtain ⟨s1, u1, a1⟩ := r
        simp only [hr] at h
        have h1 := escalationRound_lowered fuel levels i stats bandwidthUsage
          availableBandwidth _ hok hr
        exact lowered_trans _ _ _ h1 (ih (i + 1) s1 u1 a1 (lowered_ok _ _ h1) h)
    · rw [if_neg hc, Except.ok.injEq] at h
      rw [← h]
      exact lowered_refl stats hok

/-! ## Monotonicity: results -/

/-- C10 (counterexample): a `videoBandwidth` is raised inside the degradation
loop. First, `conformComponentGroup` lifts a component measured at 0, below
the lowest rung 1000 of its ladder, to 1000 (and the usage from 6000 to 7000).
Second, without an explicit budget each round runs `normalizeComponents`: for
the tiers [hi], [lo] with hi measured at 1000 but playing 2000 and lo at 4000,
the loop ends with hi at 2000, above the 1000 it started from. -/
theorem degradation_raises_videoBandwidth :
    conformComponentGroup 4 [("a", videoOnlyStat 0 0 [1000, 2000])] ["a"] 6000 4750 false =
        .ok ([("a", { videoOnlyStat 0 0 [1000, 2000] with videoBandwidth := 1000 })], 7000) ∧
      (degradationLoop 4 [["hi"], ["lo"]] false
          [("hi", videoOnlyStat 1000 2000 [1000, 2000]),
            ("lo", videoOnlyStat 4000 4000 [1000, 2000, 4000])] 5000 (-1)).map
          (fun r => (videoBandwidthOf r.1 "hi", videoBandwidthOf r.1 "lo")) =
        .ok (some 2000, some 1000) := by
  decide!

/-- C10 (amended): on a snapshot in which every component is turned off or has
reached the non-negative lowest rung of an ascending video ladder, no
`conformComponentGroup` invocation raises a `videoBandwidth`, and neither does
the whole escalation loop run with an explicit budget: every component is
still there afterwards with a `videoBandwidth` at most what it was, and the
snapshot is again of that kind, so the same holds for each further step. -/
theorem degradation_never_raises (stats : Stats) (hok : ∀ e ∈ stats, LadderOk e.2) :
    (∀ (fuel : Nat) (group : List InstanceId) (bandwidthUsage availableBandwith : ℚ)
        (shutdown : Bool) (stats1 : Stats) (usage1 : ℚ),
        conformComponentGroup fuel stats group bandwidthUsage availableBandwith shutdown =
          .ok (stats1, usage1) →
        (∀ e ∈ stats1, LadderOk e.2) ∧
          ∀ id v, videoBandwidthOf stats id = some v →
            ∃ v1, videoBandwidthOf stats1 id = some v1 ∧ v1 ≤ v) ∧
      (∀ (fuel : Nat) (levels : List (List InstanceId)) (bandwidthUsage availableBandwidth : ℚ)
        (stats1 : Stats) (usage1 available1 : ℚ),
        degradationLoop fuel levels true stats bandwidthUsage availableBandwidth =
          .ok (stats1, usage1, available1) →
        (∀ e ∈ stats1, LadderOk e.2) ∧
          ∀ id v, videoBandwidthOf stats id = some v →
            ∃ v1, videoBandwidthOf stats1 id = some v1 ∧ v1 ≤ v) := by
  constructor
  · intro fuel group bandwidthUsage availableBandwith shutdown stats1 usage1 h
    have h1 := conformComponentGroup_lowered fuel stats group bandwidthUsage availableBandwith
      shutdown _ hok h
    exact ⟨lowered_ok _ _ h1, lowered_videoBandwidthOf _ _ h1⟩
  · intro fuel levels bandwidthUsage availableBandwidth stats1 usage1 available1 h
    have h1 := escalationLoop_lowered fuel levels levels.length 1 stats bandwidthUsage
      availableBandwidth _ hok h
    exact ⟨lowered_ok _ _ h1, lowered_videoBandwidthOf _ _ h1⟩

theorem degradation_never_raises_witness :
    degradationLoop 4 [["A"], ["B"]] true
        [("A", videoOnlyStat 4000 4000 [1000, 2000, 4000]),
          ("B", videoOnlyStat 4000 4000 [1000, 2000, 4000])] 8000 4750 =
        .ok ([("A", videoOnlyStat 4000 4000 [1000, 2000, 4000]),
          ("B", { videoOnlyStat 4000 4000 [1000, 2000, 4000] with videoBandwidth := -1 })],
          4000, 4750) ∧
      ∃ v1, videoBandwidthOf
        [("A", videoOnlyStat 4000 4000 [1000, 2000, 4000]),
          ("B", { videoOnlyStat 4000 4000 [1000, 2000, 4000] with videoBandwidth := -1 })] "B" =
          some v1 ∧ v1 ≤ 4000 :=
  ⟨by decide!,
    ((degradation_never_raises
      [("A", videoOnlyStat 4000 4000 [1000, 2000, 4000]),
        ("B", videoOnlyStat 4000 4000 [1000, 2000, 4000])]
      (by
        intro e he
        have h4 : LadderOk (videoOnlyStat 4000 4000 [1000, 2000, 4000]) :=
          Or.inr ⟨1000, [2000, 4000], rfl, by decide!, by decide!, by decide!⟩
        simp only [List.mem_cons, List.mem_singleton, List.not_mem_nil, or_false] at he
        rcases he with rfl | rfl <;> exact h4)).2
      4 [["A"], ["B"]] 8000 4750 _ 4000 4750 (by decide!)).2 "B" 4000 (by decide!)⟩


/-! ## The action list: results -/

/-- C14: `createActionList` returns, in the order of the snapshot, exactly
one action per component under the same key; its `videoBitrate` is the
component's current `videoBandwidth` and its action is `disable` when that is
`TURNEDOFF`, otherwise `downgrade` when it is below `playingVideoBitrate`,
otherwise `nothing`; no action is `upgrade` or `preserve`. -/
theorem createActionList_spec (stats : Stats) :
    createActionList stats =
        stats.map (fun e =>
          (e.1, ({ action :=
                    if e.2.videoBandwidth = TURNEDOFF then "disable"
                    else if e.2.videoBandwidth < e.2.playingVideoBitrate then "downgrade"
                    else "nothing"
                   videoBitrate := e.2.videoBandwidth } : Action))) ∧
      (createActionList stats).map Prod.fst = stats.map Prod.fst ∧
      ∀ a ∈ createActionList stats, a.2.action ≠ "upgrade" ∧ a.2.action ≠ "preserve" := by
  have hform : ∀ stat : Stat, actionFor stat =
      ({ action :=
          if stat.videoBandwidth = TURNEDOFF then "disable"
          else if stat.videoBandwidth < stat.playingVideoBitrate then "downgrade"
          else "nothing"
         videoBitrate := stat.videoBandwidth } : Action) := by
    intro stat
    unfold actionFor ACTIONS_DISABLE ACTIONS_DOWNGRADE
    by_cases h1 : stat.videoBandwidth = TURNEDOFF
    · simp [h1]
    · by_cases h2 : stat.videoBandwidth < stat.playingVideoBitrate
      · simp [h1, h2]
      · simp [h1, h2]
  refine ⟨?_, ?_, ?_⟩
  · unfold createActionList
    apply List.map_congr_left
    intro e _
    rw [hform]
  · unfold createActionList
    rw [List.map_map]
    rfl
  · intro a ha
    unfold createActionList at ha
    obtain ⟨e, _, rfl⟩ := List.mem_map.mp ha
    simp only [hform]
    split_ifs <;> exact ⟨by decide, by decide⟩


/-! ## The worked example: results -/

/-- C15: the worked example. B is alone in the lowest-priority tier; the
downgrade passes take B from 4000 to 2000 (usage 6000) and to 1000 (usage
5000); the shutdown pass turns B off (usage 4000, within 4750); the loop ends
with A still at 4000 and B turned off. -/
theorem worked_example_final_state :
    prepDMAppData ⟨exampleData.priorityLevels, exampleLayout⟩ = some [["A"], ["B"]] ∧
      getBandwidthUsage exampleStats false = 8000 ∧
      normalizeComponents exampleStats = (exampleStats, 0) ∧
      (5000 : ℚ) * BANDWIDTH_LIMIT_SAFETY = 4750 ∧
      conformPass 4750 false ["B"] exampleStats 8000 false =
        .ok ([("A", videoOnlyStat 4000 4000 [1000, 2000, 4000]),
          ("B", { videoOnlyStat 4000 4000 [1000, 2000, 4000] with videoBandwidth := 2000 })],
          6000, true) ∧
      conformComponentGroup 3 exampleStats ["B"] 8000 4750 false =
        .ok ([("A", videoOnlyStat 4000 4000 [1000, 2000, 4000]),
          ("B", { videoOnlyStat 4000 4000 [1000, 2000, 4000] with videoBandwidth := 1000 })],
          5000) ∧
      conformComponentGroup 3
          [("A", videoOnlyStat 4000 4000 [1000, 2000, 4000]),
            ("B", { videoOnlyStat 4000 4000 [1000, 2000, 4000] with videoBandwidth := 1000 })]
          ["B"] 5000 4750 true =
        .ok ([("A", videoOnlyStat 4000 4000 [1000, 2000, 4000]),
          ("B", { videoOnlyStat 4000 4000 [1000, 2000, 4000] with
            videoBandwidth := TURNEDOFF })], 4000) ∧
      degradationLoop 3 [["A"], ["B"]] true exampleStats 8000 4750 =
        .ok ([("A", videoOnlyStat 4000 4000 [1000, 2000, 4000]),
          ("B", { videoOnlyStat 4000 4000 [1000, 2000, 4000] with
            videoBandwidth := TURNEDOFF })], 4000, 4750) := by
  decide!

/-- C16 (counterexample): in the worked example the action list handed to
`notifyActions` is not {A: nothing with 4000, B: disable with 1000}. -/
theorem worked_example_actions_not_as_stated :
    (evaluateDMApp 3 1000 exampleData ⟨0, true, 0⟩ (some exampleLayout)
        (some exampleStats)).map (fun o => o.notified) ≠
      .ok (some [("A", ⟨"nothing", 4000⟩), ("B", ⟨"disable", 1000⟩)]) := by
  decide!

/-- C16 (amended): in the worked example the action list handed to
`notifyActions` is {A: nothing with target bitrate 4000, B: disable with
target bitrate −1}, the target of B being its current `videoBandwidth`, the
`TURNEDOFF` value; the tick calls no stop and leaves grace at 0. -/
theorem worked_example_actions :
    evaluateDMApp 3 1000 exampleData ⟨0, true, 0⟩ (some exampleLayout) (some exampleStats) =
      .ok { options := ⟨0, true, 1000⟩, stopCalls := 0,
            notified := some [("A", ⟨"nothing", 4000⟩), ("B", ⟨"disable", -1⟩)],
            resolved := true } := by
  decide!

/-! ## Pruning: results -/

/-- C18: a tick whose metrics snapshot is empty calls stop once if the
session had started and was inactive for at least 10 minutes, or had never
started and was inactive for at least 24 hours, and not at all otherwise; it
emits no action list and leaves the options as they were. -/
theorem evaluateDMApp_empty_snapshot (fuel : Nat) (now : Int) (data : JobData)
    (options : Options) (components : List (InstanceId × Component))
    (levels : List (List InstanceId))
    (hlevels : prepDMAppData ⟨data.priorityLevels, components⟩ = some levels) :
    evaluateDMApp fuel now data options (some components) (some []) =
      .ok { options := options
            stopCalls :=
              if (options.startedRunning = true ∧ now - options.lastActive ≥ 10 * 60 * 1000) ∨
                (options.startedRunning = false ∧
                  now - options.lastActive ≥ 24 * 60 * 60 * 1000)
              then 1 else 0
            notified := none
            resolved := true } := by
  unfold evaluateDMApp
  simp only [hlevels]
  unfold evaluateStats pruneOnEmpty DEAD_INACTIVITY_PERIOD NEVER_STARTED_PERIOD
  simp only [List.length_nil, if_true]
  cases hs : options.startedRunning <;>
    by_cases h1 : now - options.lastActive ≥ 10 * 60 * 1000 <;>
    by_cases h2 : now - options.lastActive ≥ 24 * 60 * 60 * 1000 <;>
    simp [h1, h2]

theorem evaluateDMApp_empty_snapshot_witness :
    prepDMAppData ⟨exampleData.priorityLevels, exampleLayout⟩ = some [["A"], ["B"]] ∧
      evaluateDMApp 0 700000 exampleData ⟨3, true, 0⟩ (some exampleLayout) (some []) =
        .ok { options := ⟨3, true, 0⟩, stopCalls := 1, notified := none, resolved := true } :=
  ⟨by decide!,
    (evaluateDMApp_empty_snapshot 0 700000 exampleData ⟨3, true, 0⟩ exampleLayout
      [["A"], ["B"]] (by decide!)).trans (by decide!)⟩

/-- C19: a tick in which the layout fetch fails, or the metrics fetch fails,
calls stop exactly when `now − lastActive` is at least 10 minutes, whatever
`startedRunning`; it emits no action list and leaves the options as they
were. -/
theorem evaluateDMApp_fetch_error (fuel : Nat) (now : Int) (data : JobData)
    (options : Options) :
    (∀ metrics, evaluateDMApp fuel now data options none metrics =
        .ok { options := options
              stopCalls := if now - options.lastActive ≥ 10 * 60 * 1000 then 1 else 0
              notified := none
              resolved := true }) ∧
      (∀ components, evaluateDMApp fuel now data options (some components) none =
        .ok { options := options
              stopCalls := if now - options.lastActive ≥ 10 * 60 * 1000 then 1 else 0
              notified := none
              resolved := true }) := by
  constructor
  · intro metrics
    rfl
  · intro components
    unfold evaluateDMApp
    cases hp : prepDMAppData ⟨data.priorityLevels, components⟩ with
    | none =>
      simp only [hp]
      rfl
    | some levels =>
      simp only [hp]
      rfl


/-! ## The budget fast path: results -/

theorem foldl_bandwidth (stats : Stats) (usage : ℚ) :
    stats.foldl (fun usage e => usage + e.2.bandwidth) usage =
      usage + (stats.map (fun e => e.2.bandwidth)).sum := by
  induction stats generalizing usage with
  | nil => simp
  | cons e stats ih =>
    simp only [List.foldl_cons, List.map_cons, List.sum_cons]
    rw [ih]
    ring

theorem getBandwidthUsage_measured (stats : Stats)
    (hfetched : ∀ e ∈ stats, e.2.bandwidth = e.2.videoBandwidth + e.2.audioBandwidth) :
    getBandwidthUsage stats false =
      (stats.map (fun e => e.2.videoBandwidth + e.2.audioBandwidth)).sum := by
  unfold getBandwidthUsage
  have h1 : (fun (usage : ℚ) (e : InstanceId × Stat) =>
      if false = true then usage + e.2.maxBitrate else usage + e.2.bandwidth) =
      (fun usage e => usage + e.2.bandwidth) := by
    funext usage e
    simp
  rw [h1, foldl_bandwidth, zero_add]
  congr 1
  apply List.map_congr_left
  intro e he
  exact hfetched e he

theorem evaluateDMApp_past_grace (fuel : Nat) (now : Int) (data : JobData) (options : Options)
    (components : List (InstanceId × Component)) (levels : List (List InstanceId))
    (stats : Stats)
    (hlevels : prepDMAppData ⟨data.priorityLevels, components⟩ = some levels)
    (hne : stats ≠ []) (hgrace : options.grace = 0) :
    evaluateDMApp fuel now data options (some components) (some stats) =
      budgetCheck fuel data { options with startedRunning := true, lastActive := now }
        levels stats := by
  have hlen : ¬ stats.length = 0 := by
    intro h0
    exact hne (List.length_eq_zero.mp h0)
  unfold evaluateDMApp
  simp only [hlevels]
  unfold evaluateStats
  simp only [hlen, if_false, hgrace, gt_iff_lt, lt_self_iff_false]

/-- C20: a tick past grace of a session that declares `availableBandwidth = B`
compares, against the effective budget `0.95 × B`, the sum of the measured
video and audio bandwidths plus the total returned by `normalizeComponents`;
when that usage is within the budget the tick ends at once, without
degradation and without an action list, and otherwise it runs the degradation
loop on the normalised snapshot with that usage and that budget. -/
theorem evaluateDMApp_budget_fast_path (fuel : Nat) (now : Int) (data : JobData)
    (options : Options) (components : List (InstanceId × Component))
    (levels : List (List InstanceId)) (stats : Stats) (B : ℚ)
    (hlevels : prepDMAppData ⟨data.priorityLevels, components⟩ = some levels)
    (hne : stats ≠ []) (hgrace : options.grace = 0)
    (hB : data.availableBandwidth = some B)
    (hfetched : ∀ e ∈ stats, e.2.bandwidth = e.2.videoBandwidth + e.2.audioBandwidth) :
    evaluateDMApp fuel now data options (some components) (some stats) =
      if (stats.map (fun e => e.2.videoBandwidth + e.2.audioBandwidth)).sum +
          (normalizeComponents stats).2 ≤ B * (95 / 100) then
        .ok { options := { options with startedRunning := true, lastActive := now },
              stopCalls := 0, notified := none, resolved := true }
      else
        match degradationLoop fuel levels true (normalizeComponents stats).1
            ((stats.map (fun e => e.2.videoBandwidth + e.2.audioBandwidth)).sum +
              (normalizeComponents stats).2) (B * (95 / 100)) with
        | .error e => .error e
        | .ok (stats1, _, _) =>
          .ok { options := { options with startedRunning := true, lastActive := now },
                stopCalls := 0, notified := some (createActionList stats1), resolved := true } := by
  rw [evaluateDMApp_past_grace fuel now data options components levels stats hlevels hne hgrace]
  unfold budgetCheck
  simp only [hB, Option.isSome_some, if_true, true_and, Bool.true_eq_false, false_and,
    if_false, getBandwidthUsage_measured stats hfetched, BANDWIDTH_LIMIT_SAFETY]

theorem evaluateDMApp_budget_fast_path_witness :
    prepDMAppData ⟨exampleData.priorityLevels, exampleLayout⟩ = some [["A"], ["B"]] ∧
      evaluateDMApp 3 1000 { exampleData with availableBandwidth := some 10000 } ⟨0, true, 0⟩
          (some exampleLayout) (some exampleStats) =
        .ok { options := ⟨0, true, 1000⟩, stopCalls := 0, notified := none, resolved := true } :=
  ⟨by decide!,
    (evaluateDMApp_budget_fast_path 3 1000 { exampleData with availableBandwidth := some 10000 }
      ⟨0, true, 0⟩ exampleLayout [["A"], ["B"]] exampleStats 10000 (by decide!) (by decide!)
      rfl rfl (by decide!)).trans (by decide!)⟩


/-! ## Grace: results -/

theorem evaluateDMApp_in_grace (fuel : Nat) (data : JobData) (options : Options) (tick : Tick)
    (g : Nat) (hrec : receivesMetrics data tick = true) (hgrace : options.grace = g + 1) :
    evaluateDMApp fuel tick.now data options tick.layout tick.metrics =
      .ok { options := ⟨g, true, tick.now⟩, stopCalls := 0, notified := none,
            resolved := true } := by
  unfold receivesMetrics at hrec
  unfold evaluateDMApp
  cases hl : tick.layout with
  | none => simp [hl] at hrec
  | some components =>
    simp only [hl] at hrec ⊢
    cases hp : prepDMAppData ⟨data.priorityLevels, components⟩ with
    | none => simp [hp] at hrec
    | some levels =>
      simp only [hp] at hrec ⊢
      cases hm : tick.metrics with
      | none => simp [hm] at hrec
      | some stats =>
        simp only [hm, decide_eq_true_eq] at hrec ⊢
        unfold evaluateStats
        simp [hrec, hgrace]

theorem evaluateDMApp_not_received (fuel : Nat) (data : JobData) (options : Options)
    (tick : Tick) (hrec : receivesMetrics data tick = false) :
    ∃ outcome, evaluateDMApp fuel tick.now data options tick.layout tick.metrics = .ok outcome ∧
      outcome.options = options ∧ outcome.notified = none := by
  unfold receivesMetrics at hrec
  unfold evaluateDMApp
  cases hl : tick.layout with
  | none => exact ⟨_, rfl, rfl, rfl⟩
  | some components =>
    simp only [hl] at hrec ⊢
    cases hp : prepDMAppData ⟨data.priorityLevels, components⟩ with
    | none => exact ⟨_, rfl, rfl, rfl⟩
    | some levels =>
      simp only [hp] at hrec ⊢
      cases hm : tick.metrics with
      | none => exact ⟨_, rfl, rfl, rfl⟩
      | some stats =>
        simp only [hm, decide_eq_false_iff_not, not_not] at hrec ⊢
        unfold evaluateStats
        rw [if_pos hrec]
        exact ⟨_, rfl, rfl, rfl⟩

theorem budgetCheck_options (fuel : Nat) (data : JobData) (options : Options)
    (levels : List (List InstanceId)) (stats : Stats) (outcome : TickOutcome)
    (h : budgetCheck fuel data options levels stats = .ok outcome) :
    outcome.options = options := by
  unfold budgetCheck at h
  simp only at h
  split_ifs at h
  all_goals
    first
      | (cases h; rfl)
      | (split at h <;> first | (cases h; rfl) | cases h)

/-- C17: as long as a run of ticks contains no more ticks with a non-empty
metrics snapshot than the session has grace, every tick of the run resolves
without an action list, and the grace left is the initial grace minus the
number of such ticks: each of them takes exactly one, the ticks with an empty
snapshot or a failed fetch take none. Once that number equals the initial
grace the grace is 0, and the next tick with a non-empty snapshot is the budget
check on the activated options and leaves grace at 0. -/
theorem grace_damping (fuel : Nat) (data : JobData) (ticks : List Tick) (options : Options)
    (hcount : (ticks.filter (receivesMetrics data)).length ≤ options.grace) :
    ∃ final outcomes, runTicks fuel data ticks options = .ok (final, outcomes) ∧
      final.grace = options.grace - (ticks.filter (receivesMetrics data)).length ∧
      outcomes.length = ticks.length ∧
      (∀ o ∈ outcomes, o.notified = none) ∧
      ((ticks.filter (receivesMetrics data)).length = options.grace →
        ∀ (now : Int) (components : List (InstanceId × Component))
          (levels : List (List InstanceId)) (stats : Stats),
          prepDMAppData ⟨data.priorityLevels, components⟩ = some levels → stats ≠ [] →
          evaluateDMApp fuel now data final (some components) (some stats) =
              budgetCheck fuel data { final with startedRunning := true, lastActive := now }
                levels stats ∧
            ∀ o, evaluateDMApp fuel now data final (some components) (some stats) = .ok o →
              o.options.grace = 0) := by
  induction ticks generalizing options with
  | nil =>
    refine ⟨options, [], rfl, by simp, rfl, by simp, ?_⟩
    intro h0 now components levels stats hlevels hne
    have hg : options.grace = 0 := by
      simp at h0
      omega
    have heq := evaluateDMApp_past_grace fuel now data options components levels stats
      hlevels hne hg
    refine ⟨heq, ?_⟩
    intro o ho
    rw [heq] at ho
    rw [budgetCheck_options fuel data _ levels stats o ho]
    exact hg
  | cons tick ticks ih =>
    cases hrec : receivesMetrics data tick with
    | true =>
      simp only [List.filter_cons, hrec, if_true, List.length_cons] at hcount ⊢
      obtain ⟨g, hg⟩ : ∃ g, options.grace = g + 1 := ⟨options.grace - 1, by omega⟩
      have hstep := evaluateDMApp_in_grace fuel data options tick g hrec hg
      obtain ⟨final, outcomes, hrun, hfinal, hlen, hnone, hnext⟩ :=
        ih ⟨g, true, tick.now⟩ (by simp only; omega)
      refine ⟨final, (⟨⟨g, true, tick.now⟩, 0, none, true⟩ : TickOutcome) :: outcomes,
        ?_, ?_, ?_, ?_, ?_⟩
      · unfold runTicks
        simp only [hstep, hrun]
      · rw [hfinal]
        simp only
        omega
      · simp [hlen]
      · intro o ho
        rcases List.mem_cons.mp ho with rfl | ho
        · rfl
        · exact hnone o ho
      · intro heq
        apply hnext
        simp only
        omega
    | false =>
      simp only [List.filter_cons, hrec, Bool.false_eq_true, if_false] at hcount ⊢
      obtain ⟨outcome, hstep, hopt, hnot⟩ :=
        evaluateDMApp_not_received fuel data options tick hrec
      obtain ⟨final, outcomes, hrun, hfinal, hlen, hnone, hnext⟩ := ih options hcount
      refine ⟨final, outcome :: outcomes, ?_, hfinal, ?_, ?_, hnext⟩
      · unfold runTicks
        simp only [hstep, hopt, hrun]
      · simp [hlen]
      · intro o ho
        rcases List.mem_cons.mp ho with rfl | ho
        · exact hnot
        · exact hnone o ho

theorem grace_damping_witness :
    (exampleTicks.filter (receivesMetrics exampleData)).length ≤
        (⟨BACKGROUND_TASK_GRACE_COUNT, false, 0⟩ : Options).grace ∧
      ∃ final outcomes,
        runTicks 0 exampleData exampleTicks ⟨BACKGROUND_TASK_GRACE_COUNT, false, 0⟩ =
          .ok (final, outcomes) ∧
        final.grace = 3 - 3 :=
  ⟨by decide!,
    (grace_damping 0 exampleData exampleTicks ⟨BACKGROUND_TASK_GRACE_COUNT, false, 0⟩
      (by decide!)).imp fun _ h => h.imp fun _ h2 => ⟨h2.1, h2.2.1.trans (by decide!)⟩⟩


/-! ## Lemmas: relations kept by every loop of the degradation -/

theorem conformPass_rel (R : Stats → Stats → Prop) (hrefl : ∀ s, R s s)
    (htrans : ∀ a b c, R a b → R b c → R a c)
    (hmem : ∀ s id u sd c out, conformMember s id u sd c = .ok out → R s out.1)
    (availableBandwith : ℚ) (shutdown : Bool) (members : List InstanceId) (stats : Stats)
    (bandwidthUsage : ℚ) (changed : Bool) (out : Stats × ℚ × Bool)
    (h : conformPass availableBandwith shutdown members stats bandwidthUsage changed = .ok out) :
    R stats out.1 := by
  induction members generalizing stats bandwidthUsage changed with
  | nil =>
    simp only [conformPass, Except.ok.injEq] at h
    rw [← h]
    exact hrefl stats
  | cons id rest ih =>
    unfold conformPass at h
    by_cases hu : bandwidthUsage > availableBandwith
    · rw [if_pos hu] at h
      cases hm : conformMember stats id bandwidthUsage shutdown changed with
      | error e => simp [hm] at h
      | ok r =>
        obtain ⟨s1, u1, c1⟩ := r
        simp only [hm] at h
        exact htrans _ _ _ (hmem _ _ _ _ _ _ hm) (ih s1 u1 c1 h)
    · rw [if_neg hu, Except.ok.injEq] at h
      rw [← h]
      exact hrefl stats

theorem conformLoop_rel (R : Stats → Stats → Prop) (hrefl : ∀ s, R s s)
    (htrans : ∀ a b c, R a b → R b c → R a c)
    (hmem : ∀ s id u sd c out, conformMember s id u sd c = .ok out → R s out.1)
    (sortedGroup : List InstanceId) (availableBandwith : ℚ) (shutdown : Bool) (fuel : Nat)
    (stats : Stats) (bandwidthUsage : ℚ) (changed : Bool) (out : Stats × ℚ)
    (h : conformLoop sortedGroup availableBandwith shutdown fuel stats bandwidthUsage changed =
      .ok out) :
    R stats out.1 := by
  induction fuel generalizing stats bandwidthUsage changed with
  | zero =>
    unfold conformLoop at h
    by_cases hc : changed = true ∧ bandwidthUsage > availableBandwith
    · rw [if_pos hc] at h
      simp at h
    · rw [if_neg hc, Except.ok.injEq] at h
      rw [← h]
      exact hrefl stats
  | succ n ih =>
    unfold conformLoop at h
    by_cases hc : changed = true ∧ bandwidthUsage > availableBandwith
    · rw [if_pos hc] at h
      cases hp : conformPass availableBandwith shutdown sortedGroup stats bandwidthUsage false with
      | error e => simp [hp] at h
      | ok r =>
        obtain ⟨s1, u1, c1⟩ := r
        simp only [hp] at h
        exact htrans _ _ _
          (conformPass_rel R hrefl htrans hmem availableBandwith shutdown sortedGroup stats
            bandwidthUsage false _ hp)
          (ih s1 u1 c1 h)
    · rw [if_neg hc, Except.ok.injEq] at h
      rw [← h]
      exact hrefl stats

theorem conformComponentGroup_rel (R : Stats → Stats → Prop) (hrefl : ∀ s, R s s)
    (htrans : ∀ a b c, R a b → R b c → R a c)
    (hmem : ∀ s id u sd c out, conformMember s id u sd c = .ok out → R s out.1)
    (fuel : Nat) (stats : Stats) (group : List InstanceId)
    (bandwidthUsage availableBandwith : ℚ) (shutdown : Bool) (out : Stats × ℚ)
    (h : conformComponentGroup fuel stats group bandwidthUsage availableBandwith shutdown =
      .ok out) :
    R stats out.1 :=
  conformLoop_rel R hrefl htrans hmem _ availableBandwith shutdown fuel stats bandwidthUsage
    true out h

theorem conformLowerTiers_rel (R : Stats → Stats → Prop) (hrefl : ∀ s, R s s)
    (htrans : ∀ a b c, R a b → R b c → R a c)
    (hmem : ∀ s id u sd c out, conformMember s id u sd c = .ok out → R s out.1)
    (fuel : Nat) (availableBandwidth : ℚ) (shutdown : Bool) (groups : List (List InstanceId))
    (stats : Stats) (bandwidthUsage : ℚ) (out : Stats × ℚ)
    (h : conformLowerTiers fuel availableBandwidth shutdown groups stats bandwidthUsage =
      .ok out) :
    R stats out.1 := by
  induction groups generalizing stats bandwidthUsage with
  | nil =>
    simp only [conformLowerTiers, Except.ok.injEq] at h
    rw [← h]
    exact hrefl stats
  | cons group rest ih =>
    unfold conformLowerTiers at h
    by_cases hu : bandwidthUsage > availableBandwidth
    · rw [if_pos hu] at h
      cases hg : conformComponentGroup fuel stats group bandwidthUsage availableBandwidth
          shutdown with
      | error e => simp [hg] at h
      | ok r =>
        obtain ⟨s1, u1⟩ := r
        simp only [hg] at h
        exact htrans _ _ _
          (conformComponentGroup_rel R hrefl htrans hmem fuel stats group bandwidthUsage
            availableBandwidth shutdown _ hg)
          (ih s1 u1 h)
    · rw [if_neg hu, Except.ok.injEq] at h
      rw [← h]
      exact hrefl stats

theorem twoTurns_rel (R : Stats → Stats → Prop) (hrefl : ∀ s, R s s)
    (htrans : ∀ a b c, R a b → R b c → R a c) (availableBandwidth : ℚ)
    (body : Bool → Stats → ℚ → Except Err (Stats × ℚ))
    (hbody : ∀ (shutdown : Bool) (s : Stats) (u : ℚ) (r : Stats × ℚ),
      body shutdown s u = .ok r → R s r.1)
    (stats : Stats) (bandwidthUsage : ℚ) (out : Stats × ℚ)
    (h : twoTurns availableBandwidth body stats bandwidthUsage = .ok out) :
    R stats out.1 := by
  unfold twoTurns at h
  by_cases hu : bandwidthUsage > availableBandwidth
  · rw [if_pos hu] at h
    cases hb : body false stats bandwidthUsage with
    | error e => simp [hb] at h
    | ok r =>
      obtain ⟨s1, u1⟩ := r
      simp only [hb] at h
      have h1 := hbody false stats bandwidthUsage _ hb
      by_cases hu1 : u1 > availableBandwidth
      · rw [if_pos hu1] at h
        exact htrans _ _ _ h1 (hbody true s1 u1 _ h)
      · rw [if_neg hu1, Except.ok.injEq] at h
        rw [← h]
        exact h1
  · rw [if_neg hu, Except.ok.injEq] at h
    rw [← h]
    exact hrefl stats

theorem escalationRound_rel (R : Stats → Stats → Prop) (hrefl : ∀ s, R s s)
    (htrans : ∀ a b c, R a b → R b c → R a c)
    (hmem : ∀ s id u sd c out, conformMember s id u sd c = .ok out → R s out.1)
    (hasBandwidthLimit : Bool)
    (hnorm : hasBandwidthLimit = false → ∀ s, R s (normalizeComponents s).1)
    (fuel : Nat) (levels : List (List InstanceId)) (i : Nat)
    (stats : Stats) (bandwidthUsage availableBandwidth : ℚ) (out : Stats × ℚ × ℚ)
    (h : escalationRound fuel levels hasBandwidthLimit i stats bandwidthUsage
      availableBandwidth = .ok out) :
    R stats out.1 := by
  unfold escalationRound at h
  simp only at h
  generalize hstart : (if hasBandwidthLimit = true then
      (stats, bandwidthUsage, availableBandwidth)
    else ((normalizeComponents stats).1,
      (normalizeComponents stats).2 / BANDWIDTH_LIMIT_SAFETY, (0 : ℚ))) = start at h
  have hs : R stats start.1 := by
    cases hl : hasBandwidthLimit with
    | true =>
      simp only [hl, if_true] at hstart
      rw [← hstart]
      exact hrefl stats
    | false =>
      simp only [hl, Bool.false_eq_true, if_false] at hstart
      rw [← hstart]
      exact hnorm hl stats
  cases ht : twoTurns start.2.2
      (fun shutdown s u =>
        conformLowerTiers fuel start.2.2 shutdown (levels.drop i).reverse s u)
      start.1 start.2.1 with
  | error e => simp [ht] at h
  | ok r =>
    obtain ⟨s1, u1⟩ := r
    simp only [ht] at h
    have h1 := twoTurns_rel R hrefl htrans start.2.2 _
      (fun shutdown s u r hr =>
        conformLowerTiers_rel R hrefl htrans hmem fuel start.2.2 shutdown _ s u r hr)
      start.1 start.2.1 _ ht
    by_cases hu : u1 > start.2.2
    · rw [if_pos hu] at h
      cases ht2 : twoTurns start.2.2
          (fun shutdown s u =>
            conformComponentGroup fuel s ((levels[i - 1]?).getD []) u start.2.2 shutdown)
          s1 u1 with
      | error e => simp [ht2] at h
      | ok r2 =>
        obtain ⟨s2, u2⟩ := r2
        simp only [ht2, Except.ok.injEq] at h
        rw [← h]
        have h2 := twoTurns_rel R hrefl htrans start.2.2 _
          (fun shutdown s u r hr =>
            conformComponentGroup_rel R hrefl htrans hmem fuel s _ u start.2.2 shutdown r hr)
          s1 u1 _ ht2
        exact htrans _ _ _ hs (htrans _ _ _ h1 h2)
    · rw [if_neg hu, Except.ok.injEq] at h
      rw [← h]
      exact htrans _ _ _ hs h1

theorem escalationLoop_rel (R : Stats → Stats → Prop) (hrefl : ∀ s, R s s)
    (htrans : ∀ a b c, R a b → R b c → R a c)
    (hmem : ∀ s id u sd c out, conformMember s id u sd c = .ok out → R s out.1)
    (hasBandwidthLimit : Bool)
    (hnorm : hasBandwidthLimit = false → ∀ s, R s (normalizeComponents s).1)
    (fuel : Nat) (levels : List (List InstanceId)) (rounds i : Nat)
    (stats : Stats) (bandwidthUsage availableBandwidth : ℚ) (out : Stats × ℚ × ℚ)
    (h : escalationLoop fuel levels hasBandwidthLimit rounds i stats bandwidthUsage
      availableBandwidth = .ok out) :
    R stats out.1 := by
  induction rounds generalizing i stats bandwidthUsage availableBandwidth with
  | zero =>
    simp only [escalationLoop, Except.ok.injEq] at h
    rw [← h]
    exact hrefl stats
  | succ n ih =>
    unfold escalationLoop at h
    by_cases hc : hasBandwidthLimit = false ∨ bandwidthUsage > availableBandwidth
    · rw [if_pos hc] at h
      cases hr : escalationRound fuel levels hasBandwidthLimit i stats bandwidthUsage
          availableBandwidth with
      | error e => simp [hr] at h
      | ok r =>
        obtain ⟨s1, u1, a1⟩ := r
        simp only [hr] at h
        exact htrans _ _ _
          (escalationRound_rel R hrefl htrans hmem hasBandwidthLimit hnorm fuel levels i stats
            bandwidthUsage availableBandwidth _ hr)
          (ih (i + 1) s1 u1 a1 h)
    · rw [if_neg hc, Except.ok.injEq] at h
      rw [← h]
      exact hrefl stats


/-! ## Lemmas: one visit of a member -/

theorem getStat_setVideoBandwidth_ne (stats : Stats) (id id0 : InstanceId) (v : ℚ)
    (hne : id0 ≠ id) : getStat (setVideoBandwidth stats id v) id0 = getStat stats id0 := by
  induction stats with
  | nil => rfl
  | cons e stats ih =>
    obtain ⟨k, s⟩ := e
    unfold setVideoBandwidth
    by_cases hk : k = id
    · rw [if_pos hk]
      have hk0 : ¬ k = id0 := fun h => hne (h.symm.trans hk)
      simp only [getStat, hk0, if_false]
    · rw [if_neg hk]
      by_cases hk0 : k = id0
      · simp only [getStat, hk0, if_true]
      · simp only [getStat, hk0, if_false]
        exact ih

theorem setVideoBandwidth_bitrates (stats : Stats) (id : InstanceId) (v : ℚ) :
    ∀ e1 ∈ setVideoBandwidth stats id v, ∃ e ∈ stats, e1.2.bitrates = e.2.bitrates := by
  induction stats with
  | nil =>
    intro e1 he1
    simp [setVideoBandwidth] at he1
  | cons e stats ih =>
    obtain ⟨k, s⟩ := e
    intro e1 he1
    unfold setVideoBandwidth at he1
    by_cases hk : k = id
    · rw [if_pos hk] at he1
      rcases List.mem_cons.mp he1 with rfl | he1
      · exact ⟨(k, s), List.mem_cons_self _ _, rfl⟩
      · exact ⟨e1, List.mem_cons_of_mem _ he1, rfl⟩
    · rw [if_neg hk] at he1
      rcases List.mem_cons.mp he1 with rfl | he1
      · exact ⟨(k, s), List.mem_cons_self _ _, rfl⟩
      · obtain ⟨e, he, hb⟩ := ih e1 he1
        exact ⟨e, List.mem_cons_of_mem _ he, hb⟩

/-- What a visit that returns did: nothing (no metrics, or turned off), or,
for a live member with selected rung `rung`, a shutdown, nothing (lowest rung,
no shutdown) or a step to `rung`. -/
theorem conformMember_ok (stats : Stats) (id : InstanceId) (bandwidthUsage : ℚ)
    (shutdown changed : Bool) (out : Stats × ℚ × Bool)
    (h : conformMember stats id bandwidthUsage shutdown changed = .ok out) :
    (getStat stats id = none ∧ out = (stats, bandwidthUsage, changed)) ∨
      (∃ stat, getStat stats id = some stat ∧ stat.videoBandwidth = TURNEDOFF ∧
        out = (stats, bandwidthUsage, changed)) ∨
      ∃ stat rung, getStat stats id = some stat ∧ stat.videoBandwidth ≠ TURNEDOFF ∧
        selectedRung stat = some rung ∧
        ((stat.videoBandwidth - rung = 0 ∧ shutdown = true ∧
            out = (setVideoBandwidth stats id TURNEDOFF, bandwidthUsage - stat.videoBandwidth,
              changed || decide (stat.videoBandwidth > 0))) ∨
          (stat.videoBandwidth - rung = 0 ∧ shutdown = false ∧
            out = (stats, bandwidthUsage - (stat.videoBandwidth - rung),
              changed || decide (stat.videoBandwidth - rung > 0))) ∨
          (stat.videoBandwidth - rung ≠ 0 ∧
            out = (setVideoBandwidth stats id rung,
              bandwidthUsage - (stat.videoBandwidth - rung),
              changed || decide (stat.videoBandwidth - rung > 0)))) := by
  unfold conformMember at h
  cases hget : getStat stats id with
  | none =>
    simp only [hget, Except.ok.injEq] at h
    exact Or.inl ⟨rfl, h.symm⟩
  | some stat =>
    simp only [hget] at h
    by_cases hoff : stat.videoBandwidth = TURNEDOFF
    · simp only [hoff, if_true, Except.ok.injEq] at h
      exact Or.inr (Or.inl ⟨stat, rfl, hoff, h.symm⟩)
    · simp only [hoff, if_false] at h
      cases hsel : selectedRung stat with
      | none => simp [hsel] at h
      | some rung =>
        simp only [hsel] at h
        refine Or.inr (Or.inr ⟨stat, rung, rfl, hoff, hsel, ?_⟩)
        by_cases hd : stat.videoBandwidth - rung = 0
        · cases shutdown with
          | true =>
            simp only [hd, if_true, Except.ok.injEq] at h
            exact Or.inl ⟨hd, rfl, h.symm⟩
          | false =>
            simp only [hd, if_true, Bool.false_eq_true, if_false, Except.ok.injEq] at h
            refine Or.inr (Or.inl ⟨hd, rfl, ?_⟩)
            rw [hd]
            exact h.symm
        · simp only [hd, if_false, Except.ok.injEq] at h
          exact Or.inr (Or.inr ⟨hd, h.symm⟩)

theorem conformMember_changed (stats : Stats) (id : InstanceId) (bandwidthUsage : ℚ)
    (shutdown changed : Bool) (out : Stats × ℚ × Bool)
    (h : conformMember stats id bandwidthUsage shutdown changed = .ok out)
    (hc : out.2.2 = false) : changed = false := by
  rcases conformMember_ok stats id bandwidthUsage shutdown changed out h with
    ⟨_, rfl⟩ | ⟨_, _, _, rfl⟩ | ⟨stat, rung, _, _, _, ⟨_, _, rfl⟩ | ⟨_, _, rfl⟩ | ⟨_, rfl⟩⟩
  · exact hc
  · exact hc
  · simp only [Bool.or_eq_false_iff] at hc
    exact hc.1
  · simp only [Bool.or_eq_false_iff] at hc
    exact hc.1
  · simp only [Bool.or_eq_false_iff] at hc
    exact hc.1

/-! ## Lemmas: what every visit keeps -/

theorem keeps_refl (s : Stats) : Keeps s s :=
  ⟨fun _ h => h, fun h => ⟨h, fun _ h1 => h1⟩⟩

theorem keeps_trans (a b c : Stats) (hab : Keeps a b) (hbc : Keeps b c) : Keeps a c :=
  ⟨fun id h => hbc.1 id (hab.1 id h),
    fun ha => ⟨(hbc.2 (hab.2 ha).1).1, fun id h => (hbc.2 (hab.2 ha).1).2 id ((hab.2 ha).2 id h)⟩⟩

theorem keeps_setVideoBandwidth (stats : Stats) (id : InstanceId) (stat : Stat) (v : ℚ)
    (hget : getStat stats id = some stat) (hon : stat.videoBandwidth ≠ TURNEDOFF)
    (hv : v = TURNEDOFF ∨
      ∀ lowest rest, stat.bitrates.video = lowest :: rest → stat.videoBandwidth = lowest →
        v = lowest) :
    Keeps stats (setVideoBandwidth stats id v) := by
  constructor
  · intro id0 h0
    by_cases hid : id0 = id
    · subst hid
      unfold videoBandwidthOf at h0
      rw [hget] at h0
      simp only [Option.map_some', Option.some.injEq] at h0
      exact absurd h0 hon
    · unfold videoBandwidthOf at h0 ⊢
      rw [getStat_setVideoBandwidth_ne stats id id0 v hid]
      exact h0
  · intro hasc
    constructor
    · intro e1 he1
      obtain ⟨e, he, hb⟩ := setVideoBandwidth_bitrates stats id v e1 he1
      rw [hb]
      exact hasc e he
    · intro id0 hex stat1 hget1
      by_cases hid : id0 = id
      · subst hid
        rw [getStat_setVideoBandwidth_self stats id0 stat v hget, Option.some.injEq] at hget1
        rw [← hget1]
        rcases hv with hv | hv
        · exact Or.inl hv
        · rcases hex stat hget with hoff | ⟨lowest, rest, hl, hvb⟩
          · exact absurd hoff hon
          · exact Or.inr ⟨lowest, rest, hl, hv lowest rest hl hvb⟩
      · rw [getStat_setVideoBandwidth_ne stats id id0 v hid] at hget1
        exact hex stat1 hget1

theorem conformMember_keeps (stats : Stats) (id : InstanceId) (bandwidthUsage : ℚ)
    (shutdown changed : Bool) (out : Stats × ℚ × Bool)
    (h : conformMember stats id bandwidthUsage shutdown changed = .ok out) :
    Keeps stats out.1 := by
  rcases conformMember_ok stats id bandwidthUsage shutdown changed out h with
    ⟨_, rfl⟩ | ⟨_, _, _, rfl⟩ |
    ⟨stat, rung, hget, hon, hsel, ⟨_, _, rfl⟩ | ⟨_, _, rfl⟩ | ⟨hd, rfl⟩⟩
  · exact keeps_refl stats
  · exact keeps_refl stats
  · exact keeps_setVideoBandwidth stats id stat TURNEDOFF hget hon (Or.inl rfl)
  · exact keeps_refl stats
  · by_cases hasc : AscendingLadders stats
    · obtain ⟨lowest, rest, hv, hs⟩ := hasc _ (getStat_mem stats id stat hget)
      obtain ⟨r, hr, _, hle, hor, _⟩ := rung_spec stat.videoBandwidth rest lowest hs
      have hrr : r = rung := by
        have := selectedRung_eq stat lowest rest hv
        rw [hsel, hr, Option.some.injEq] at this
        exact this.symm
      subst hrr
      apply keeps_setVideoBandwidth stats id stat r hget hon
      right
      intro lowest1 rest1 hv1 hvb
      rw [hv, List.cons.injEq] at hv1
      rcases hor with h1 | h1
      · rw [h1]
        exact hv1.1
      · rw [hvb, ← hv1.1] at h1
        exact absurd h1 (not_lt.mpr hle)
    · constructor
      · intro id0 h0
        by_cases hid : id0 = id
        · subst hid
          unfold videoBandwidthOf at h0
          rw [hget] at h0
          simp only [Option.map_some', Option.some.injEq] at h0
          exact absurd h0 hon
        · unfold videoBandwidthOf at h0 ⊢
          rw [getStat_setVideoBandwidth_ne stats id id0 rung hid]
          exact h0
      · intro h1
        exact absurd h1 hasc


/-! ## Lemmas: a call that ends over budget has exhausted its tier -/

theorem conformMember_exhausts (stats : Stats) (id : InstanceId) (bandwidthUsage : ℚ)
    (shutdown changed : Bool) (out : Stats × ℚ × Bool) (hasc : AscendingLadders stats)
    (h : conformMember stats id bandwidthUsage shutdown changed = .ok out)
    (hc : out.2.2 = false) : Exhausted out.1 id := by
  rcases conformMember_ok stats id bandwidthUsage shutdown changed out h with
    ⟨hnone, rfl⟩ | ⟨stat, hget, hoff, rfl⟩ |
    ⟨stat, rung, hget, hon, hsel, ⟨_, _, rfl⟩ | ⟨hd, _, rfl⟩ | ⟨hd, rfl⟩⟩
  · intro stat1 h1
    simp only at h1
    rw [hnone] at h1
    exact absurd h1 (by simp)
  · intro stat1 h1
    simp only at h1
    rw [hget, Option.some.injEq] at h1
    rw [← h1]
    exact Or.inl hoff
  · intro stat1 h1
    simp only at h1
    rw [getStat_setVideoBandwidth_self stats id stat TURNEDOFF hget, Option.some.injEq] at h1
    rw [← h1]
    exact Or.inl rfl
  · obtain ⟨lowest, rest, hv, hs⟩ := hasc _ (getStat_mem stats id stat hget)
    obtain ⟨r, hr, _, hle, hor, _⟩ := rung_spec stat.videoBandwidth rest lowest hs
    have hrr : r = rung := by
      have := selectedRung_eq stat lowest rest hv
      rw [hsel, hr, Option.some.injEq] at this
      exact this.symm
    subst hrr
    intro stat1 h1
    simp only at h1
    rw [hget, Option.some.injEq] at h1
    rw [← h1]
    have he : stat.videoBandwidth = r := by linarith
    refine Or.inr ⟨lowest, rest, hv, ?_⟩
    rcases hor with h2 | h2
    · rw [he, h2]
    · rw [he] at h2
      exact absurd h2 (lt_irrefl _)
  · obtain ⟨lowest, rest, hv, hs⟩ := hasc _ (getStat_mem stats id stat hget)
    obtain ⟨r, hr, _, hle, hor, _⟩ := rung_spec stat.videoBandwidth rest lowest hs
    have hrr : r = rung := by
      have := selectedRung_eq stat lowest rest hv
      rw [hsel, hr, Option.some.injEq] at this
      exact this.symm
    subst hrr
    simp only [Bool.or_eq_false_iff, decide_eq_false_iff_not, not_lt] at hc
    have hneg : stat.videoBandwidth < r := by
      rcases lt_or_eq_of_le hc.2 with h3 | h3
      · linarith
      · exact absurd h3 hd
    have hrl : r = lowest := by
      rcases hor with h2 | h2
      · exact h2
      · exact absurd h2 (not_lt.mpr hneg.le)
    intro stat1 h1
    simp only at h1
    rw [getStat_setVideoBandwidth_self stats id stat r hget, Option.some.injEq] at h1
    rw [← h1]
    exact Or.inr ⟨lowest, rest, hv, hrl⟩

theorem conformPass_exhausts (availableBandwith : ℚ) (shutdown : Bool)
    (members : List InstanceId) (stats : Stats) (bandwidthUsage : ℚ) (changed : Bool)
    (out : Stats × ℚ × Bool) (hasc : AscendingLadders stats)
    (h : conformPass availableBandwith shutdown members stats bandwidthUsage changed = .ok out)
    (hover : out.2.1 > availableBandwith) (hc : out.2.2 = false) :
    changed = false ∧ ∀ id ∈ members, Exhausted out.1 id := by
  induction members generalizing stats bandwidthUsage changed with
  | nil =>
    simp only [conformPass, Except.ok.injEq] at h
    rw [← h] at hc
    exact ⟨hc, by simp⟩
  | cons id rest ih =>
    unfold conformPass at h
    by_cases hu : bandwidthUsage > availableBandwith
    · rw [if_pos hu] at h
      cases hm : conformMember stats id bandwidthUsage shutdown changed with
      | error e => simp [hm] at h
      | ok r =>
        obtain ⟨s1, u1, c1⟩ := r
        simp only [hm] at h
        have hk1 := conformMember_keeps stats id bandwidthUsage shutdown changed _ hm
        have hasc1 : AscendingLadders s1 := (hk1.2 hasc).1
        obtain ⟨hc1, hrest⟩ := ih s1 u1 c1 hasc1 h
        have hk2 := conformPass_rel Keeps keeps_refl keeps_trans
          (fun s id u sd c out hh => conformMember_keeps s id u sd c out hh)
          availableBandwith shutdown rest s1 u1 c1 out h
        have hex1 : Exhausted s1 id :=
          conformMember_exhausts stats id bandwidthUsage shutdown changed _ hasc hm hc1
        refine ⟨conformMember_changed stats id bandwidthUsage shutdown changed _ hm hc1, ?_⟩
        intro id0 hid0
        rcases List.mem_cons.mp hid0 with rfl | hid0
        · exact (hk2.2 hasc1).2 _ hex1
        · exact hrest id0 hid0
    · rw [if_neg hu, Except.ok.injEq] at h
      rw [← h] at hover
      exact absurd hover hu

theorem conformLoop_exhausts (sortedGroup : List InstanceId) (availableBandwith : ℚ)
    (shutdown : Bool) (fuel : Nat) (stats : Stats) (bandwidthUsage : ℚ) (changed : Bool)
    (out : Stats × ℚ) (hasc : AscendingLadders stats)
    (hinv : changed = false → bandwidthUsage > availableBandwith →
      ∀ id ∈ sortedGroup, Exhausted stats id)
    (h : conformLoop sortedGroup availableBandwith shutdown fuel stats bandwidthUsage changed =
      .ok out)
    (hover : out.2 > availableBandwith) : ∀ id ∈ sortedGroup, Exhausted out.1 id := by
  induction fuel generalizing stats bandwidthUsage changed with
  | zero =>
    unfold conformLoop at h
    by_cases hc : changed = true ∧ bandwidthUsage > availableBandwith
    · rw [if_pos hc] at h
      simp at h
    · rw [if_neg hc, Except.ok.injEq] at h
      rw [← h] at hover ⊢
      have hch : changed = false := by
        cases changed with
        | false => rfl
        | true => exact absurd ⟨rfl, hover⟩ hc
      exact hinv hch hover
  | succ n ih =>
    unfold conformLoop at h
    by_cases hc : changed = true ∧ bandwidthUsage > availableBandwith
    · rw [if_pos hc] at h
      cases hp : conformPass availableBandwith shutdown sortedGroup stats bandwidthUsage false with
      | error e => simp [hp] at h
      | ok r =>
        obtain ⟨s1, u1, c1⟩ := r
        simp only [hp] at h
        have hk1 := conformPass_rel Keeps keeps_refl keeps_trans
          (fun s id u sd c out hh => conformMember_keeps s id u sd c out hh)
          availableBandwith shutdown sortedGroup stats bandwidthUsage false _ hp
        apply ih s1 u1 c1 (hk1.2 hasc).1 _ h
        intro hc1 hu1
        exact (conformPass_exhausts availableBandwith shutdown sortedGroup stats bandwidthUsage
          false _ hasc hp hu1 hc1).2
    · rw [if_neg hc, Except.ok.injEq] at h
      rw [← h] at hover ⊢
      have hch : changed = false := by
        cases changed with
        | false => rfl
        | true => exact absurd ⟨rfl, hover⟩ hc
      exact hinv hch hover

theorem conformComponentGroup_exhausts (fuel : Nat) (stats : Stats) (group : List InstanceId)
    (bandwidthUsage availableBandwith : ℚ) (shutdown : Bool) (out : Stats × ℚ)
    (hasc : AscendingLadders stats)
    (h : conformComponentGroup fuel stats group bandwidthUsage availableBandwith shutdown =
      .ok out)
    (hover : out.2 > availableBandwith) : ∀ id ∈ group, Exhausted out.1 id := by
  unfold conformComponentGroup at h
  rw [sortJS_groupComparator] at h
  exact conformLoop_exhausts group availableBandwith shutdown fuel stats bandwidthUsage true out
    hasc (fun hc => absurd hc (by simp)) h hover

theorem conformLowerTiers_exhausts (fuel : Nat) (availableBandwidth : ℚ) (shutdown : Bool)
    (groups : List (List InstanceId)) (stats : Stats) (bandwidthUsage : ℚ) (out : Stats × ℚ)
    (hasc : AscendingLadders stats)
    (h : conformLowerTiers fuel availableBandwidth shutdown groups stats bandwidthUsage =
      .ok out)
    (hover : out.2 > availableBandwidth) :
    bandwidthUsage > availableBandwidth ∧
      ∀ group ∈ groups, ∀ id ∈ group, Exhausted out.1 id := by
  induction groups generalizing stats bandwidthUsage with
  | nil =>
    simp only [conformLowerTiers, Except.ok.injEq] at h
    rw [← h] at hover
    exact ⟨hover, by simp⟩
  | cons group rest ih =>
    unfold conformLowerTiers at h
    by_cases hu : bandwidthUsage > availableBandwidth
    · rw [if_pos hu] at h
      cases hg : conformComponentGroup fuel stats group bandwidthUsage availableBandwidth
          shutdown with
      | error e => simp [hg] at h
      | ok r =>
        obtain ⟨s1, u1⟩ := r
        simp only [hg] at h
        have hk1 := conformComponentGroup_rel Keeps keeps_refl keeps_trans
          (fun s id u sd c out hh => conformMember_keeps s id u sd c out hh)
          fuel stats group bandwidthUsage availableBandwidth shutdown _ hg
        have hasc1 : AscendingLadders s1 := (hk1.2 hasc).1
        obtain ⟨hu1, hrest⟩ := ih s1 u1 hasc1 h
        have hk2 := conformLowerTiers_rel Keeps keeps_refl keeps_trans
          (fun s id u sd c out hh => conformMember_keeps s id u sd c out hh)
          fuel availableBandwidth shutdown rest s1 u1 out h
        have hex1 := conformComponentGroup_exhausts fuel stats group bandwidthUsage
          availableBandwidth shutdown _ hasc hg hu1
        refine ⟨hu, ?_⟩
        intro g hg0 id hid
        rcases List.mem_cons.mp hg0 with rfl | hg0
        · exact (hk2.2 hasc1).2 id (hex1 id hid)
        · exact hrest g hg0 id hid
    · rw [if_neg hu, Except.ok.injEq] at h
      rw [← h] at hover
      exact absurd hover hu

/-- A `twoTurns` that ends over budget ran both turns, each ending over
budget. -/
theorem twoTurns_over (availableBandwidth : ℚ)
    (body : Bool → Stats → ℚ → Except Err (Stats × ℚ))
    (stats : Stats) (bandwidthUsage : ℚ) (out : Stats × ℚ)
    (h : twoTurns availableBandwidth body stats bandwidthUsage = .ok out)
    (hover : out.2 > availableBandwidth) :
    bandwidthUsage > availableBandwidth ∧
      ∃ s1 u1, body false stats bandwidthUsage = .ok (s1, u1) ∧ u1 > availableBandwidth ∧
        body true s1 u1 = .ok out := by
  unfold twoTurns at h
  by_cases hu : bandwidthUsage > availableBandwidth
  · rw [if_pos hu] at h
    cases hb : body false stats bandwidthUsage with
    | error e => simp [hb] at h
    | ok r =>
      obtain ⟨s1, u1⟩ := r
      simp only [hb] at h
      by_cases hu1 : u1 > availableBandwidth
      · rw [if_pos hu1] at h
        exact ⟨hu, s1, u1, rfl, hu1, h⟩
      · rw [if_neg hu1, Except.ok.injEq] at h
        rw [← h] at hover
        exact absurd hover hu1
  · rw [if_neg hu, Except.ok.injEq] at h
    rw [← h] at hover
    exact absurd hover hu


theorem escalationRound_exhausts (fuel : Nat) (levels : List (List InstanceId)) (i : Nat)
    (stats : Stats) (bandwidthUsage availableBandwidth : ℚ) (out : Stats × ℚ × ℚ)
    (hasc : AscendingLadders stats)
    (h : escalationRound fuel levels true i stats bandwidthUsage availableBandwidth = .ok out) :
    out.2.2 = availableBandwidth ∧
      (out.2.1 > availableBandwidth →
        (∀ group ∈ levels.drop i, ∀ id ∈ group, Exhausted out.1 id) ∧
          ∀ id ∈ (levels[i - 1]?).getD [], Exhausted out.1 id) := by
  have hmem : ∀ s id u sd c o, conformMember s id u sd c = .ok o → Keeps s o.1 :=
    fun s id u sd c o hh => conformMember_keeps s id u sd c o hh
  unfold escalationRound at h
  simp only [if_true] at h
  cases ht : twoTurns availableBandwidth
      (fun shutdown s u =>
        conformLowerTiers fuel availableBandwidth shutdown (levels.drop i).reverse s u)
      stats bandwidthUsage with
  | error e => simp [ht] at h
  | ok r =>
    obtain ⟨s1, u1⟩ := r
    simp only [ht] at h
    have hk1 := twoTurns_rel Keeps keeps_refl keeps_trans availableBandwidth _
      (fun shutdown s u r hr =>
        conformLowerTiers_rel Keeps keeps_refl keeps_trans hmem fuel availableBandwidth
          shutdown _ s u r hr)
      stats bandwidthUsage _ ht
    have hasc1 : AscendingLadders s1 := (hk1.2 hasc).1
    by_cases hu : u1 > availableBandwidth
    · rw [if_pos hu] at h
      cases ht2 : twoTurns availableBandwidth
          (fun shutdown s u =>
            conformComponentGroup fuel s ((levels[i - 1]?).getD []) u availableBandwidth
              shutdown)
          s1 u1 with
      | error e => simp [ht2] at h
      | ok r2 =>
        obtain ⟨s2, u2⟩ := r2
        simp only [ht2, Except.ok.injEq] at h
        rw [← h]
        refine ⟨rfl, ?_⟩
        intro hover
        simp only at hover
        have hk2 := twoTurns_rel Keeps keeps_refl keeps_trans availableBandwidth _
          (fun shutdown s u r hr =>
            conformComponentGroup_rel Keeps keeps_refl keeps_trans hmem fuel s _ u
              availableBandwidth shutdown r hr)
          s1 u1 _ ht2
        obtain ⟨_, sa, ua, hfa, hua, hta⟩ := twoTurns_over availableBandwidth _ stats
          bandwidthUsage _ ht hu
        have hka := conformLowerTiers_rel Keeps keeps_refl keeps_trans hmem fuel
          availableBandwidth false _ stats bandwidthUsage _ hfa
        have hlow := (conformLowerTiers_exhausts fuel availableBandwidth true _ sa ua _
          (hka.2 hasc).1 hta hu).2
        obtain ⟨_, sb, ub, hfb, hub, htb⟩ := twoTurns_over availableBandwidth _ s1 u1 _ ht2
          hover
        have hkb := conformComponentGroup_rel Keeps keeps_refl keeps_trans hmem fuel s1 _ u1
          availableBandwidth false _ hfb
        have hown := conformComponentGroup_exhausts fuel sb _ ub availableBandwidth true _
          (hkb.2 hasc1).1 htb hover
        constructor
        · intro group hg id hid
          exact (hk2.2 hasc1).2 id (hlow group (List.mem_reverse.mpr hg) id hid)
        · exact hown
    · rw [if_neg hu, Except.ok.injEq] at h
      rw [← h]
      refine ⟨rfl, ?_⟩
      intro hover
      exact absurd hover hu

theorem escalationLoop_over (fuel : Nat) (levels : List (List InstanceId)) (rounds i : Nat)
    (stats : Stats) (bandwidthUsage availableBandwidth : ℚ) (out : Stats × ℚ × ℚ)
    (hasc : AscendingLadders stats)
    (h : escalationLoop fuel levels true rounds i stats bandwidthUsage availableBandwidth =
      .ok out) :
    out.2.2 = availableBandwidth ∧
      (out.2.1 > availableBandwidth → bandwidthUsage > availableBandwidth) := by
  induction rounds generalizing i stats bandwidthUsage availableBandwidth with
  | zero =>
    simp only [escalationLoop, Except.ok.injEq] at h
    rw [← h]
    exact ⟨rfl, fun hh => hh⟩
  | succ n ih =>
    unfold escalationLoop at h
    by_cases hc : true = false ∨ bandwidthUsage > availableBandwidth
    · rw [if_pos hc] at h
      have hu : bandwidthUsage > availableBandwidth := by
        rcases hc with hc | hc
        · exact absurd hc (by simp)
        · exact hc
      cases hr : escalationRound fuel levels true i stats bandwidthUsage availableBandwidth with
      | error e => simp [hr] at h
      | ok r =>
        obtain ⟨s1, u1, a1⟩ := r
        simp only [hr] at h
        have ha1 := (escalationRound_exhausts fuel levels i stats bandwidthUsage
          availableBandwidth _ hasc hr).1
        simp only at ha1
        have hk := escalationRound_rel Keeps keeps_refl keeps_trans
          (fun s id u sd c o hh => conformMember_keeps s id u sd c o hh) true
          (fun hf => absurd hf (by simp)) fuel levels i stats bandwidthUsage
          availableBandwidth _ hr
        have := (ih (i + 1) s1 u1 a1 (hk.2 hasc).1 h).1
        rw [ha1] at this
        exact ⟨this, fun _ => hu⟩
    · rw [if_neg hc, Except.ok.injEq] at h
      rw [← h]
      exact ⟨rfl, fun hh => hh⟩

/-! ## Safety margin: results -/

/-- C11: when the degradation loop run with an explicit budget finishes on a
snapshot whose video ladders are non-empty and ascending, the budget is the
one it was given and either the tracked usage is within it, or every
component that belongs to a tier and is present in the final snapshot is
turned off or at the lowest rung of its ladder. -/
theorem degradationLoop_safety_margin (fuel : Nat) (levels : List (List InstanceId))
    (stats : Stats) (bandwidthUsage availableBandwidth : ℚ)
    (stats1 : Stats) (usage1 available1 : ℚ) (hasc : AscendingLadders stats)
    (h : degradationLoop fuel levels true stats bandwidthUsage availableBandwidth =
      .ok (stats1, usage1, available1)) :
    available1 = availableBandwidth ∧
      (usage1 ≤ availableBandwidth ∨
        ∀ tier ∈ levels, ∀ id ∈ tier, Exhausted stats1 id) := by
  have hmem : ∀ s id u sd c o, conformMember s id u sd c = .ok o → Keeps s o.1 :=
    fun s id u sd c o hh => conformMember_keeps s id u sd c o hh
  unfold degradationLoop at h
  have hav := (escalationLoop_over fuel levels levels.length 1 stats bandwidthUsage
    availableBandwidth _ hasc h).1
  refine ⟨hav, ?_⟩
  by_cases hover : usage1 > availableBandwidth
  · right
    cases levels with
    | nil => simp
    | cons t ts =>
      simp only [List.length_cons] at h
      unfold escalationLoop at h
      by_cases hc : true = false ∨ bandwidthUsage > availableBandwidth
      · rw [if_pos hc] at h
        cases hr : escalationRound fuel (t :: ts) true 1 stats bandwidthUsage
            availableBandwidth with
        | error e => simp [hr] at h
        | ok r =>
          obtain ⟨s1, u1, a1⟩ := r
          simp only [hr] at h
          obtain ⟨ha1, hex⟩ := escalationRound_exhausts fuel (t :: ts) 1 stats bandwidthUsage
            availableBandwidth _ hasc hr
          simp only at ha1 hex
          have hk := escalationRound_rel Keeps keeps_refl keeps_trans hmem true
            (fun hf => absurd hf (by simp)) fuel (t :: ts) 1 stats bandwidthUsage
            availableBandwidth _ hr
          have hasc1 : AscendingLadders s1 := (hk.2 hasc).1
          obtain ⟨hav2, hent⟩ := escalationLoop_over fuel (t :: ts) ts.length 2 s1 u1 a1 _
            hasc1 h
          simp only at hav2 hent
          have hu1 : u1 > availableBandwidth := by
            have := hent (by rw [ha1]; exact hover)
            rw [ha1] at this
            exact this
          obtain ⟨hlow, hown⟩ := hex hu1
          have hk2 := escalationLoop_rel Keeps keeps_refl keeps_trans hmem true
            (fun hf => absurd hf (by simp)) fuel (t :: ts) ts.length 2 s1 u1 a1 _ h
          intro tier htier id hid
          apply (hk2.2 hasc1).2 id
          rcases List.mem_cons.mp htier with rfl | htier
          · exact hown id (by simpa using hid)
          · exact hlow tier (by simpa using htier) id hid
      · rw [if_neg hc, Except.ok.injEq] at h
        have hu : usage1 = bandwidthUsage := by
          have := congrArg (fun x => x.2.1) h
          exact this.symm
        rw [hu] at hover
        exact absurd (Or.inr hover) hc
  · exact Or.inl (not_lt.mp hover)


theorem degradationLoop_safety_margin_witness :
    degradationLoop 4 [["A"], ["B"]] true exampleStats 9000 500 =
        .ok ([("A", { videoOnlyStat 4000 4000 [1000, 2000, 4000] with
            videoBandwidth := TURNEDOFF }),
          ("B", { videoOnlyStat 4000 4000 [1000, 2000, 4000] with
            videoBandwidth := TURNEDOFF })], 1000, 500) ∧
      ((1000 : ℚ) ≤ 500 ∨
        Exhausted [("A", { videoOnlyStat 4000 4000 [1000, 2000, 4000] with
            videoBandwidth := TURNEDOFF }),
          ("B", { videoOnlyStat 4000 4000 [1000, 2000, 4000] with
            videoBandwidth := TURNEDOFF })] "A") :=
  ⟨by decide!,
    (degradationLoop_safety_margin 4 [["A"], ["B"]] exampleStats 9000 500 _ 1000 500
      (by
        intro e he
        have h4 : ∃ lowest rest,
            (videoOnlyStat 4000 4000 [1000, 2000, 4000]).bitrates.video = lowest :: rest ∧
              List.Sorted (fun a b => a ≤ b) (lowest :: rest) :=
          ⟨1000, [2000, 4000], rfl, by decide!⟩
        simp only [exampleStats, List.mem_cons, List.mem_singleton, List.not_mem_nil,
          or_false] at he
        rcases he with rfl | rfl <;> exact h4)
      (by decide!)).2.imp id (fun hall => hall ["A"] (by simp) "A" (by simp))⟩

/-! ## Turned-off components: results -/

/-- With an explicit budget a component that is turned off stays turned off
through every `conformComponentGroup` call and through the whole escalation
loop. -/
theorem turnedOff_stays_with_budget (stats : Stats) (id : InstanceId)
    (hoff : videoBandwidthOf stats id = some TURNEDOFF) :
    (∀ (fuel : Nat) (group : List InstanceId) (bandwidthUsage availableBandwith : ℚ)
        (shutdown : Bool) (out : Stats × ℚ),
        conformComponentGroup fuel stats group bandwidthUsage availableBandwith shutdown =
          .ok out → videoBandwidthOf out.1 id = some TURNEDOFF) ∧
      (∀ (fuel : Nat) (levels : List (List InstanceId)) (bandwidthUsage availableBandwidth : ℚ)
        (out : Stats × ℚ × ℚ),
        degradationLoop fuel levels true stats bandwidthUsage availableBandwidth = .ok out →
          videoBandwidthOf out.1 id = some TURNEDOFF) := by
  have hmem : ∀ s id u sd c o, conformMember s id u sd c = .ok o → Keeps s o.1 :=
    fun s id u sd c o hh => conformMember_keeps s id u sd c o hh
  constructor
  · intro fuel group bandwidthUsage availableBandwith shutdown out h
    exact (conformComponentGroup_rel Keeps keeps_refl keeps_trans hmem fuel stats group
      bandwidthUsage availableBandwith shutdown out h).1 id hoff
  · intro fuel levels bandwidthUsage availableBandwidth out h
    exact (escalationLoop_rel Keeps keeps_refl keeps_trans hmem true
      (fun hf => absurd hf (by simp)) fuel levels levels.length 1 stats bandwidthUsage
      availableBandwidth out h).1 id hoff

/-- C12 (code defect): without an explicit budget, for the tiers [hi], [lo]
with hi measured at 100 while playing 4000 (ladder [1000, 2000, 4000]) and lo
at 1000 (ladder [1000]), the first escalation round turns hi off; the second
round starts with `normalizeComponents`, which takes the −1 of a turned-off
component for a measured bandwidth and raises it to the playing bitrate: the
loop ends with hi at 4000, and the tick emits `nothing` with 4000 for hi. -/
theorem turnedOff_revived_without_budget :
    (escalationRound 4 [["hi"], ["lo"]] false 1 noBudgetStats 1100 (-1)).map
        (fun r => (videoBandwidthOf r.1 "hi", videoBandwidthOf r.1 "lo")) =
        .ok (some TURNEDOFF, some TURNEDOFF) ∧
      normalizeComponents
          [("hi", { videoOnlyStat 100 4000 [1000, 2000, 4000] with
            videoBandwidth := TURNEDOFF })] =
        ([("hi", { videoOnlyStat 100 4000 [1000, 2000, 4000] with videoBandwidth := 4000 })],
          4001) ∧
      (degradationLoop 4 [["hi"], ["lo"]] false noBudgetStats 1100 (-1)).map
        (fun r => (videoBandwidthOf r.1 "hi", videoBandwidthOf r.1 "lo")) =
        .ok (some 4000, some TURNEDOFF) ∧
      (evaluateDMApp 4 1000 noBudgetData ⟨0, true, 0⟩ (some noBudgetLayout)
        (some noBudgetStats)).map (fun o => o.notified) =
        .ok (some [("hi", ⟨"nothing", 4000⟩), ("lo", ⟨"disable", -1⟩)]) := by
  decide!


/-! ## Lemmas: where a final bandwidth comes from -/

theorem traceable_refl (s : Stats) : Traceable s s := by
  unfold Traceable
  rw [List.forall₂_same]
  intro e _
  exact ⟨rfl, rfl, rfl, Or.inl rfl⟩

theorem traceable_trans (a b c : Stats) (hab : Traceable a b) (hbc : Traceable b c) :
    Traceable a c := by
  unfold Traceable at hab hbc ⊢
  induction hab generalizing c with
  | nil =>
    cases hbc
    exact List.Forall₂.nil
  | cons h _ ih =>
    cases hbc with
    | cons h2 t2 =>
      refine List.Forall₂.cons ⟨?_, ?_, ?_, ?_⟩ (ih _ t2)
      · rw [h2.1, h.1]
      · rw [h2.2.1, h.2.1]
      · rw [h2.2.2.1, h.2.2.1]
      · rcases h2.2.2.2 with h3 | h3 | h3 | h3
        · rw [h3]
          exact h.2.2.2
        · exact Or.inr (Or.inl h3)
        · rw [h.2.1] at h3
          exact Or.inr (Or.inr (Or.inl h3))
        · rw [h.2.2.1] at h3
          exact Or.inr (Or.inr (Or.inr h3))

theorem traceable_setVideoBandwidth (stats : Stats) (id : InstanceId) (stat : Stat) (v : ℚ)
    (hget : getStat stats id = some stat)
    (hv : v = TURNEDOFF ∨ v ∈ stat.bitrates.video) :
    Traceable stats (setVideoBandwidth stats id v) := by
  induction stats with
  | nil => simp [getStat] at hget
  | cons e stats ih =>
    obtain ⟨k, s⟩ := e
    unfold getStat at hget
    unfold setVideoBandwidth
    by_cases hk : k = id
    · rw [if_pos hk, Option.some.injEq] at hget
      rw [if_pos hk]
      subst hget
      refine List.Forall₂.cons ⟨rfl, rfl, rfl, ?_⟩ (traceable_refl stats)
      rcases hv with hv | hv
      · exact Or.inr (Or.inl hv)
      · exact Or.inr (Or.inr (Or.inl hv))
    · rw [if_neg hk] at hget
      rw [if_neg hk]
      exact List.Forall₂.cons ⟨rfl, rfl, rfl, Or.inl rfl⟩ (ih hget)

theorem selectedRung_mem (stat : Stat) (rung : ℚ) (h : selectedRung stat = some rung) :
    rung ∈ stat.bitrates.video := by
  unfold selectedRung at h
  exact List.getElem?_mem h

theorem conformMember_traceable (stats : Stats) (id : InstanceId) (bandwidthUsage : ℚ)
    (shutdown changed : Bool) (out : Stats × ℚ × Bool)
    (h : conformMember stats id bandwidthUsage shutdown changed = .ok out) :
    Traceable stats out.1 := by
  rcases conformMember_ok stats id bandwidthUsage shutdown changed out h with
    ⟨_, rfl⟩ | ⟨_, _, _, rfl⟩ |
    ⟨stat, rung, hget, hon, hsel, ⟨_, _, rfl⟩ | ⟨_, _, rfl⟩ | ⟨hd, rfl⟩⟩
  · exact traceable_refl stats
  · exact traceable_refl stats
  · exact traceable_setVideoBandwidth stats id stat TURNEDOFF hget (Or.inl rfl)
  · exact traceable_refl stats
  · exact traceable_setVideoBandwidth stats id stat rung hget
      (Or.inr (selectedRung_mem stat rung hsel))

theorem normalizeComponents_traceable (stats : Stats) :
    Traceable stats (normalizeComponents stats).1 := by
  unfold normalizeComponents Traceable
  rw [normalizeLoop_eq]
  simp only
  rw [List.forall₂_map_right_iff, List.forall₂_same]
  intro e _
  by_cases h0 : e.2.videoBandwidth = 0
  · rw [if_pos h0]
    exact ⟨rfl, rfl, rfl, Or.inl rfl⟩
  · rw [if_neg h0]
    refine ⟨rfl, rfl, rfl, ?_⟩
    rcases max_cases e.2.videoBandwidth e.2.playingVideoBitrate with hm | hm
    · exact Or.inl hm.1
    · exact Or.inr (Or.inr (Or.inr hm.1))

theorem degradationLoop_traceable (fuel : Nat) (levels : List (List InstanceId))
    (hasBandwidthLimit : Bool) (stats : Stats) (bandwidthUsage availableBandwidth : ℚ)
    (out : Stats × ℚ × ℚ)
    (h : degradationLoop fuel levels hasBandwidthLimit stats bandwidthUsage
      availableBandwidth = .ok out) :
    Traceable stats out.1 :=
  escalationLoop_rel Traceable traceable_refl traceable_trans
    (fun s id u sd c o hh => conformMember_traceable s id u sd c o hh) hasBandwidthLimit
    (fun _ s => normalizeComponents_traceable s) fuel levels levels.length 1 stats
    bandwidthUsage availableBandwidth out h

/-! ## The final snapshot: results -/

/-- C13 (counterexample): with budget 5000, A measured at 3000 while playing
3500 on the ladder [1000, 2000, 4000] and B at 4000, the tick emits for A the
target 3500, A's final `videoBandwidth`: it is no rung of A's ladder, not
`TURNEDOFF` and not the 3000 measured for A. -/
theorem final_videoBandwidth_off_ladder :
    (evaluateDMApp 3 1000 exampleData ⟨0, true, 0⟩ (some exampleLayout)
        (some offLadderStats)).map (fun o => o.notified) =
        .ok (some [("A", ⟨"nothing", 3500⟩), ("B", ⟨"downgrade", 1000⟩)]) ∧
      (degradationLoop 3 [["A"], ["B"]] true (normalizeComponents offLadderStats).1 7500
          4750).map (fun r => videoBandwidthOf r.1 "A") = .ok (some 3500) ∧
      (3500 : ℚ) ∉ ([1000, 2000, 4000] : List ℚ) ∧ (3500 : ℚ) ≠ TURNEDOFF ∧
      (3500 : ℚ) ≠ 3000 := by
  decide!

theorem budgetCheck_traceable (fuel : Nat) (data : JobData) (options : Options)
    (levels : List (List InstanceId)) (stats : Stats) (outcome : TickOutcome)
    (actions : List (InstanceId × Action))
    (h : budgetCheck fuel data options levels stats = .ok outcome)
    (hn : outcome.notified = some actions) :
    ∃ final, actions = createActionList final ∧ Traceable stats final := by
  unfold budgetCheck at h
  cases hB : data.availableBandwidth with
  | none =>
    simp only [hB, Option.isSome_none, Bool.false_eq_true, if_false, false_and, true_and] at h
    split_ifs at h with h1
    · simp only [Except.ok.injEq] at h
      rw [← h] at hn
      simp at hn
    · split at h
      · simp at h
      · rename_i stats1 u1 a1 hloop
        simp only [Except.ok.injEq] at h
        rw [← h] at hn
        simp only [Option.some.injEq] at hn
        exact ⟨stats1, hn.symm, degradationLoop_traceable fuel levels _ _ _ _ _ hloop⟩
  | some b =>
    simp only [hB, Option.isSome_some, if_true, true_and, Bool.true_eq_false, false_and,
      if_false] at h
    split_ifs at h with h1
    · simp only [Except.ok.injEq] at h
      rw [← h] at hn
      simp at hn
    · split at h
      · simp at h
      · rename_i stats1 u1 a1 hloop
        simp only [Except.ok.injEq] at h
        rw [← h] at hn
        simp only [Option.some.injEq] at hn
        exact ⟨stats1, hn.symm,
          traceable_trans _ _ _ (normalizeComponents_traceable stats)
            (degradationLoop_traceable fuel levels _ _ _ _ _ hloop)⟩

/-- C13 (amended): when a tick emits an action list, that list is built from
a final snapshot that has the components of the fetched snapshot, in order,
with their ladders and playing bitrates, and in which every `videoBandwidth` is
the measured value, `TURNEDOFF`, a rung of the component's video ladder, or the
component's `playingVideoBitrate`. -/
theorem final_videoBandwidth_traceable (fuel : Nat) (now : Int) (data : JobData)
    (options : Options) (components : List (InstanceId × Component)) (stats : Stats)
    (outcome : TickOutcome) (actions : List (InstanceId × Action))
    (h : evaluateDMApp fuel now data options (some components) (some stats) = .ok outcome)
    (hn : outcome.notified = some actions) :
    ∃ final, actions = createActionList final ∧ List.Forall₂ TraceableEntry stats final := by
  unfold evaluateDMApp at h
  cases hp : prepDMAppData ⟨data.priorityLevels, components⟩ with
  | none =>
    simp only [hp, Except.ok.injEq] at h
    rw [← h] at hn
    simp [pruneOnError] at hn
  | some levels =>
    simp only [hp] at h
    unfold evaluateStats at h
    by_cases h0 : stats.length = 0
    · simp only [h0, if_true, Except.ok.injEq] at h
      rw [← h] at hn
      simp [pruneOnEmpty] at hn
    · simp only [h0, if_false] at h
      by_cases hg : options.grace > 0
      · simp only [hg, if_true, Except.ok.injEq] at h
        rw [← h] at hn
        simp at hn
      · simp only [hg, if_false] at h
        exact budgetCheck_traceable fuel data _ levels stats outcome actions h hn

theorem final_videoBandwidth_traceable_witness :
    evaluateDMApp 3 1000 exampleData ⟨0, true, 0⟩ (some exampleLayout) (some offLadderStats) =
        .ok ⟨⟨0, true, 1000⟩, 0,
          some [("A", ⟨"nothing", 3500⟩), ("B", ⟨"downgrade", 1000⟩)], true⟩ ∧
      ∃ final, [("A", (⟨"nothing", 3500⟩ : Action)), ("B", ⟨"downgrade", 1000⟩)] =
          createActionList final ∧
        List.Forall₂ TraceableEntry offLadderStats final :=
  ⟨by decide!,
    final_videoBandwidth_traceable 3 1000 exampleData ⟨0, true, 0⟩ exampleLayout offLadderStats
      ⟨⟨0, true, 1000⟩, 0, some [("A", ⟨"nothing", 3500⟩), ("B", ⟨"downgrade", 1000⟩)], true⟩
      [("A", ⟨"nothing", 3500⟩), ("B", ⟨"downgrade", 1000⟩)] (by decide!) rfl⟩


theorem traceable_ascending (s t : Stats) (hst : Traceable s t) (hasc : AscendingLadders s) :
    AscendingLadders t := by
  unfold Traceable at hst
  induction hst with
  | nil =>
    intro e he
    simp at he
  | @cons e0 e l0 l h _ ih =>
    intro e1 he1
    rcases List.mem_cons.mp he1 with rfl | he1
    · rw [h.2.1]
      exact hasc e0 (List.mem_cons_self _ _)
    · exact ih (fun d hd => hasc d (List.mem_cons_of_mem _ hd)) e1 he1

/-- The snapshot handed to the degradation loop after normalisation has
non-empty ascending ladders whenever the fetched one has. -/
theorem normalizeComponents_ascending (stats : Stats) (hasc : AscendingLadders stats) :
    AscendingLadders (normalizeComponents stats).1 :=
  traceable_ascending stats _ (normalizeComponents_traceable stats) hasc


/-! ## Lemmas: invariants of snapshot and usage kept by the loops

`J` is a property of the snapshot together with the tracked usage, `V` says
which members may be visited with which shutdown flag. -/

theorem conformPass_inv (J : Stats → ℚ → Prop) (V : InstanceId → Bool → Prop)
    (hmem : ∀ s id u sd c out, V id sd → J s u → conformMember s id u sd c = .ok out →
      J out.1 out.2.1)
    (availableBandwith : ℚ) (shutdown : Bool) (members : List InstanceId)
    (hV : ∀ id ∈ members, V id shutdown) (stats : Stats)
    (bandwidthUsage : ℚ) (changed : Bool) (out : Stats × ℚ × Bool)
    (hJ : J stats bandwidthUsage)
    (h : conformPass availableBandwith shutdown members stats bandwidthUsage changed = .ok out) :
    J out.1 out.2.1 := by
  induction members generalizing stats bandwidthUsage changed with
  | nil =>
    simp only [conformPass, Except.ok.injEq] at h
    rw [← h]
    exact hJ
  | cons id rest ih =>
    unfold conformPass at h
    by_cases hu : bandwidthUsage > availableBandwith
    · rw [if_pos hu] at h
      cases hm : conformMember stats id bandwidthUsage shutdown changed with
      | error e => simp [hm] at h
      | ok r =>
        obtain ⟨s1, u1, c1⟩ := r
        simp only [hm] at h
        exact ih (fun x hx => hV x (List.mem_cons_of_mem _ hx)) s1 u1 c1
          (hmem _ _ _ _ _ _ (hV id (List.mem_cons_self _ _)) hJ hm) h
    · rw [if_neg hu, Except.ok.injEq] at h
      rw [← h]
      exact hJ

theorem conformLoop_inv (J : Stats → ℚ → Prop) (V : InstanceId → Bool → Prop)
    (hmem : ∀ s id u sd c out, V id sd → J s u → conformMember s id u sd c = .ok out →
      J out.1 out.2.1)
    (sortedGroup : List InstanceId) (availableBandwith : ℚ) (shutdown : Bool)
    (hV : ∀ id ∈ sortedGroup, V id shutdown) (fuel : Nat)
    (stats : Stats) (bandwidthUsage : ℚ) (changed : Bool) (out : Stats × ℚ)
    (hJ : J stats bandwidthUsage)
    (h : conformLoop sortedGroup availableBandwith shutdown fuel stats bandwidthUsage changed =
      .ok out) :
    J out.1 out.2 := by
  induction fuel generalizing stats bandwidthUsage changed with
  | zero =>
    unfold conformLoop at h
    by_cases hc : changed = true ∧ bandwidthUsage > availableBandwith
    · rw [if_pos hc] at h
      simp at h
    · rw [if_neg hc, Except.ok.injEq] at h
      rw [← h]
      exact hJ
  | succ n ih =>
    unfold conformLoop at h
    by_cases hc : changed = true ∧ bandwidthUsage > availableBandwith
    · rw [if_pos hc] at h
      cases hp : conformPass availableBandwith shutdown sortedGroup stats bandwidthUsage false with
      | error e => simp [hp] at h
      | ok r =>
        obtain ⟨s1, u1, c1⟩ := r
        simp only [hp] at h
        exact ih s1 u1 c1
          (conformPass_inv J V hmem availableBandwith shutdown sortedGroup hV stats
            bandwidthUsage false _ hJ hp) h
    · rw [if_neg hc, Except.ok.injEq] at h
      rw [← h]
      exact hJ

theorem conformComponentGroup_inv (J : Stats → ℚ → Prop) (V : InstanceId → Bool → Prop)
    (hmem : ∀ s id u sd c out, V id sd → J s u → conformMember s id u sd c = .ok out →
      J out.1 out.2.1)
    (fuel : Nat) (stats : Stats) (group : List InstanceId)
    (bandwidthUsage availableBandwith : ℚ) (shutdown : Bool)
    (hV : ∀ id ∈ group, V id shutdown) (out : Stats × ℚ)
    (hJ : J stats bandwidthUsage)
    (h : conformComponentGroup fuel stats group bandwidthUsage availableBandwith shutdown =
      .ok out) :
    J out.1 out.2 := by
  unfold conformComponentGroup at h
  rw [sortJS_groupComparator] at h
  exact conformLoop_inv J V hmem group availableBandwith shutdown hV fuel stats bandwidthUsage
    true out hJ h

theorem conformLowerTiers_inv (J : Stats → ℚ → Prop) (V : InstanceId → Bool → Prop)
    (hmem : ∀ s id u sd c out, V id sd → J s u → conformMember s id u sd c = .ok out →
      J out.1 out.2.1)
    (fuel : Nat) (availableBandwidth : ℚ) (shutdown : Bool) (groups : List (List InstanceId))
    (hV : ∀ g ∈ groups, ∀ id ∈ g, V id shutdown)
    (stats : Stats) (bandwidthUsage : ℚ) (out : Stats × ℚ)
    (hJ : J stats bandwidthUsage)
    (h : conformLowerTiers fuel availableBandwidth shutdown groups stats bandwidthUsage =
      .ok out) :
    J out.1 out.2 := by
  induction groups generalizing stats bandwidthUsage with
  | nil =>
    simp only [conformLowerTiers, Except.ok.injEq] at h
    rw [← h]
    exact hJ
  | cons group rest ih =>
    unfold conformLowerTiers at h
    by_cases hu : bandwidthUsage > availableBandwidth
    · rw [if_pos hu] at h
      cases hg : conformComponentGroup fuel stats group bandwidthUsage availableBandwidth
          shutdown with
      | error e => simp [hg] at h
      | ok r =>
        obtain ⟨s1, u1⟩ := r
        simp only [hg] at h
        exact ih (fun g hg1 => hV g (List.mem_cons_of_mem _ hg1)) s1 u1
          (conformComponentGroup_inv J V hmem fuel stats group bandwidthUsage
            availableBandwidth shutdown (hV group (List.mem_cons_self _ _)) _ hJ hg) h
    · rw [if_neg hu, Except.ok.injEq] at h
      rw [← h]
      exact hJ

theorem twoTurns_inv (J : Stats → ℚ → Prop) (availableBandwidth : ℚ)
    (body : Bool → Stats → ℚ → Except Err (Stats × ℚ))
    (hbody : ∀ (shutdown : Bool) (s : Stats) (u : ℚ) (r : Stats × ℚ),
      J s u → body shutdown s u = .ok r → J r.1 r.2)
    (stats : Stats) (bandwidthUsage : ℚ) (out : Stats × ℚ)
    (hJ : J stats bandwidthUsage)
    (h : twoTurns availableBandwidth body stats bandwidthUsage = .ok out) :
    J out.1 out.2 := by
  unfold twoTurns at h
  by_cases hu : bandwidthUsage > availableBandwidth
  · rw [if_pos hu] at h
    cases hb : body false stats bandwidthUsage with
    | error e => simp [hb] at h
    | ok r =>
      obtain ⟨s1, u1⟩ := r
      simp only [hb] at h
      have h1 := hbody false stats bandwidthUsage _ hJ hb
      by_cases hu1 : u1 > availableBandwidth
      · rw [if_pos hu1] at h
        exact hbody true s1 u1 _ h1 h
      · rw [if_neg hu1, Except.ok.injEq] at h
        rw [← h]
        exact h1
  · rw [if_neg hu, Except.ok.injEq] at h
    rw [← h]
    exact hJ

/-- With a budget, a round keeps every invariant of snapshot and usage that
each visit keeps. -/
theorem escalationRound_inv (J : Stats → ℚ → Prop)
    (hmem : ∀ s id u sd c out, J s u → conformMember s id u sd c = .ok out → J out.1 out.2.1)
    (fuel : Nat) (levels : List (List InstanceId)) (i : Nat)
    (stats : Stats) (bandwidthUsage availableBandwidth : ℚ) (out : Stats × ℚ × ℚ)
    (hJ : J stats bandwidthUsage)
    (h : escalationRound fuel levels true i stats bandwidthUsage availableBandwidth = .ok out) :
    J out.1 out.2.1 ∧ out.2.2 = availableBandwidth := by
  have hmemV : ∀ s id u sd c out, (fun (_ : InstanceId) (_ : Bool) => True) id sd → J s u →
      conformMember s id u sd c = .ok out → J out.1 out.2.1 :=
    fun s id u sd c out _ hj hm => hmem s id u sd c out hj hm
  unfold escalationRound at h
  simp only [if_true] at h
  cases ht : twoTurns availableBandwidth
      (fun shutdown s u =>
        conformLowerTiers fuel availableBandwidth shutdown (levels.drop i).reverse s u)
      stats bandwidthUsage with
  | error e => simp [ht] at h
  | ok r =>
    obtain ⟨s1, u1⟩ := r
    simp only [ht] at h
    have h1 := twoTurns_inv J availableBandwidth _
      (fun shutdown s u r hj hr =>
        conformLowerTiers_inv J _ hmemV fuel availableBandwidth shutdown _
          (fun _ _ _ _ => trivial) s u r hj hr)
      stats bandwidthUsage _ hJ ht
    by_cases hu : u1 > availableBandwidth
    · rw [if_pos hu] at h
      cases ht2 : twoTurns availableBandwidth
          (fun shutdown s u =>
            conformComponentGroup fuel s ((levels[i - 1]?).getD []) u availableBandwidth
              shutdown)
          s1 u1 with
      | error e => simp [ht2] at h
      | ok r2 =>
        obtain ⟨s2, u2⟩ := r2
        simp only [ht2, Except.ok.injEq] at h
        rw [← h]
        exact ⟨twoTurns_inv J availableBandwidth _
          (fun shutdown s u r hj hr =>
            conformComponentGroup_inv J _ hmemV fuel s _ u availableBandwidth shutdown
              (fun _ _ => trivial) r hj hr)
          s1 u1 _ h1 ht2, rfl⟩
    · rw [if_neg hu, Except.ok.injEq] at h
      rw [← h]
      exact ⟨h1, rfl⟩

theorem escalationLoop_inv (J : Stats → ℚ → Prop)
    (hmem : ∀ s id u sd c out, J s u → conformMember s id u sd c = .ok out → J out.1 out.2.1)
    (fuel : Nat) (levels : List (List InstanceId)) (rounds i : Nat)
    (stats : Stats) (bandwidthUsage availableBandwidth : ℚ) (out : Stats × ℚ × ℚ)
    (hJ : J stats bandwidthUsage)
    (h : escalationLoop fuel levels true rounds i stats bandwidthUsage availableBandwidth =
      .ok out) :
    J out.1 out.2.1 ∧ out.2.2 = availableBandwidth := by
  induction rounds generalizing i stats bandwidthUsage with
  | zero =>
    simp only [escalationLoop, Except.ok.injEq] at h
    rw [← h]
    exact ⟨hJ, rfl⟩
  | succ n ih =>
    unfold escalationLoop at h
    by_cases hc : true = false ∨ bandwidthUsage > availableBandwidth
    · rw [if_pos hc] at h
      cases hr : escalationRound fuel levels true i stats bandwidthUsage availableBandwidth with
      | error e => simp [hr] at h
      | ok r =>
        obtain ⟨s1, u1, a1⟩ := r
        simp only [hr] at h
        have h1 := escalationRound_inv J hmem fuel levels i stats bandwidthUsage
          availableBandwidth _ hJ hr
        simp only at h1
        rw [h1.2] at h
        exact ih (i + 1) s1 u1 h1.1 h
    · rw [if_neg hc, Except.ok.injEq] at h
      rw [← h]
      exact ⟨hJ, rfl⟩

/-! ## Lemmas: the path of a tick that emits an action list -/

theorem budgetCheck_emits (fuel : Nat) (data : JobData) (options : Options)
    (levels : List (List InstanceId)) (stats : Stats) (outcome : TickOutcome)
    (actions : List (InstanceId × Action))
    (h : budgetCheck fuel data options levels stats = .ok outcome)
    (hn : outcome.notified = some actions) :
    ∃ final u a, actions = createActionList final ∧
      ((∃ b, data.availableBandwidth = some b ∧
          b * BANDWIDTH_LIMIT_SAFETY <
            getBandwidthUsage stats false + (normalizeComponents stats).2 ∧
          degradationLoop fuel levels true (normalizeComponents stats).1
            (getBandwidthUsage stats false + (normalizeComponents stats).2)
            (b * BANDWIDTH_LIMIT_SAFETY) = .ok (final, u, a)) ∨
        (data.availableBandwidth = none ∧
          getBandwidthUsage stats false / BANDWIDTH_LIMIT_SAFETY <
            getBandwidthUsage stats true ∧
          degradationLoop fuel levels false stats (getBandwidthUsage stats false) (-1) =
            .ok (final, u, a))) := by
  unfold budgetCheck at h
  cases hB : data.availableBandwidth with
  | none =>
    simp only [hB, Option.isSome_none, Bool.false_eq_true, if_false, false_and, true_and] at h
    split_ifs at h with h1
    · simp only [Except.ok.injEq] at h
      rw [← h] at hn
      simp at hn
    · split at h
      · simp at h
      · rename_i stats1 u1 a1 hloop
        simp only [Except.ok.injEq] at h
        rw [← h] at hn
        simp only [Option.some.injEq] at hn
        exact ⟨stats1, u1, a1, hn.symm, Or.inr ⟨rfl, not_le.mp h1, hloop⟩⟩
  | some b =>
    simp only [hB, Option.isSome_some, if_true, true_and, Bool.true_eq_false, false_and,
      if_false] at h
    split_ifs at h with h1
    · simp only [Except.ok.injEq] at h
      rw [← h] at hn
      simp at hn
    · split at h
      · simp at h
      · rename_i stats1 u1 a1 hloop
        simp only [Except.ok.injEq] at h
        rw [← h] at hn
        simp only [Option.some.injEq] at hn
        exact ⟨stats1, u1, a1, hn.symm, Or.inl ⟨b, rfl, not_le.mp h1, hloop⟩⟩

theorem evaluateDMApp_emits (fuel : Nat) (now : Int) (data : JobData)
    (options : Options) (components : List (InstanceId × Component)) (stats : Stats)
    (outcome : TickOutcome) (actions : List (InstanceId × Action))
    (h : evaluateDMApp fuel now data options (some components) (some stats) = .ok outcome)
    (hn : outcome.notified = some actions) :
    ∃ levels final u a, prepDMAppData ⟨data.priorityLevels, components⟩ = some levels ∧
      stats.length ≠ 0 ∧ options.grace = 0 ∧ actions = createActionList final ∧
      ((∃ b, data.availableBandwidth = some b ∧
          b * BANDWIDTH_LIMIT_SAFETY <
            getBandwidthUsage stats false + (normalizeComponents stats).2 ∧
          degradationLoop fuel levels true (normalizeComponents stats).1
            (getBandwidthUsage stats false + (normalizeComponents stats).2)
            (b * BANDWIDTH_LIMIT_SAFETY) = .ok (final, u, a)) ∨
        (data.availableBandwidth = none ∧
          getBandwidthUsage stats false / BANDWIDTH_LIMIT_SAFETY <
            getBandwidthUsage stats true ∧
          degradationLoop fuel levels false stats (getBandwidthUsage stats false) (-1) =
            .ok (final, u, a))) := by
  unfold evaluateDMApp at h
  cases hp : prepDMAppData ⟨data.priorityLevels, components⟩ with
  | none =>
    simp only [hp, Except.ok.injEq] at h
    rw [← h] at hn
    simp [pruneOnError] at hn
  | some levels =>
    simp only [hp] at h
    unfold evaluateStats at h
    by_cases h0 : stats.length = 0
    · simp only [h0, if_true, Except.ok.injEq] at h
      rw [← h] at hn
      simp [pruneOnEmpty] at hn
    · simp only [h0, if_false] at h
      by_cases hg : options.grace > 0
      · simp only [hg, if_true, Except.ok.injEq] at h
        rw [← h] at hn
        simp at hn
      · simp only [hg, if_false] at h
        obtain ⟨final, u, a, hact, hpath⟩ :=
          budgetCheck_emits fuel data _ levels stats outcome actions h hn
        exact ⟨levels, final, u, a, rfl, h0, by omega, hact, hpath⟩

theorem forall₂_imp_mem {α β : Type} {R S : α → β → Prop} {l₁ : List α} {l₂ : List β}
    (h : List.Forall₂ R l₁ l₂) (hi : ∀ a ∈ l₁, ∀ b, R a b → S a b) : List.Forall₂ S l₁ l₂ := by
  induction h with
  | nil => exact List.Forall₂.nil
  | cons hab _ ih =>
    exact List.Forall₂.cons (hi _ (List.mem_cons_self _ _) _ hab)
      (ih (fun a ha b hr => hi a (List.mem_cons_of_mem _ ha) b hr))

/-! ## Downgrade targets: results -/

/-- C28: in a tick with an explicit budget whose snapshot has only nonzero
measured `videoBandwidth`s, the emitted action list has one action per
component of the snapshot, in order, and every action of kind `downgrade`
carries as `videoBitrate` a rung of that component's video ladder. -/
theorem downgrade_targets_are_rungs (fuel : Nat) (now : Int) (data : JobData)
    (options : Options) (components : List (InstanceId × Component)) (stats : Stats)
    (outcome : TickOutcome) (actions : List (InstanceId × Action)) (budget : ℚ)
    (hbudget : data.availableBandwidth = some budget)
    (hnonzero : ∀ e ∈ stats, e.2.videoBandwidth ≠ 0)
    (h : evaluateDMApp fuel now data options (some components) (some stats) = .ok outcome)
    (hn : outcome.notified = some actions) :
    List.Forall₂
      (fun e a => a.1 = e.1 ∧
        (a.2.action = ACTIONS_DOWNGRADE → a.2.videoBitrate ∈ e.2.bitrates.video))
      stats actions := by
  obtain ⟨levels, final, u, a, _, _, _, hact, hpath⟩ :=
    evaluateDMApp_emits fuel now data options components stats outcome actions h hn
  rcases hpath with ⟨b, _, _, hloop⟩ | ⟨hnone, _, _⟩
  · have ht := degradationLoop_traceable fuel levels true _ _ _ _ hloop
    rw [(normalizeComponents_spec stats).2] at ht
    unfold Traceable at ht
    rw [List.forall₂_map_left_iff] at ht
    rw [hact]
    unfold createActionList
    rw [List.forall₂_map_right_iff]
    refine forall₂_imp_mem ht ?_
    intro e he x hex
    have h0 := hnonzero e he
    rw [if_neg h0] at hex
    obtain ⟨hk, hb, hpl, hvb⟩ := hex
    simp only at hk hb hpl hvb
    refine ⟨hk, ?_⟩
    intro hdown
    unfold actionFor at hdown ⊢
    by_cases hoff : x.2.videoBandwidth = TURNEDOFF
    · simp only [hoff, if_true] at hdown
      exact absurd hdown (by decide)
    · simp only [hoff, if_false] at hdown ⊢
      by_cases hlt : x.2.videoBandwidth < x.2.playingVideoBitrate
      · simp only [hlt, if_true]
        rw [hpl] at hlt
        rcases hvb with hv | hv | hv | hv
        · rw [hv] at hlt
          exact absurd hlt (not_lt.mpr (le_max_right _ _))
        · exact absurd hv hoff
        · exact hv
        · rw [hv] at hlt
          exact absurd hlt (lt_irrefl _)
      · simp only [hlt, if_false] at hdown
        exact absurd hdown (by decide)
  · rw [hbudget] at hnone
    cases hnone

theorem downgrade_targets_are_rungs_witness :
    List.Forall₂
      (fun (e : InstanceId × Stat) (a : InstanceId × Action) => a.1 = e.1 ∧
        (a.2.action = ACTIONS_DOWNGRADE → a.2.videoBitrate ∈ e.2.bitrates.video))
      offLadderStats [("A", ⟨"nothing", 3500⟩), ("B", ⟨"downgrade", 1000⟩)] :=
  downgrade_targets_are_rungs 3 1000 exampleData ⟨0, true, 0⟩ exampleLayout offLadderStats
    ⟨⟨0, true, 1000⟩, 0, some [("A", ⟨"nothing", 3500⟩), ("B", ⟨"downgrade", 1000⟩)], true⟩
    [("A", ⟨"nothing", 3500⟩), ("B", ⟨"downgrade", 1000⟩)] 5000 rfl (by decide!) (by decide!)
    rfl

/-! ## Emission of the action list: results -/

theorem traceable_keys (s t : Stats) (h : Traceable s t) :
    (createActionList t).map Prod.fst = s.map Prod.fst := by
  unfold createActionList
  rw [List.map_map]
  unfold Traceable at h
  induction h with
  | nil => rfl
  | cons hab _ ih =>
    simp only [List.map_cons, List.cons.injEq]
    exact ⟨hab.1, ih⟩

/-- C23 (counterexample): a tick without a budget in which A is measured at
4000 and plays 4000 on the ladder [1000, 2000, 4000, 8000]. The computed
deficit is zero and the degradation loop returns the snapshot unchanged, yet
the tick hands the list with `nothing` for A to the notification channel. -/
theorem unchanged_tick_emits_action_list :
    prepDMAppData ⟨noBudgetData.priorityLevels, steadyLayout⟩ = some [["A"]] ∧
      normalizeComponents steadyStats = (steadyStats, 0) ∧
      degradationLoop 3 [["A"]] false steadyStats (getBandwidthUsage steadyStats false) (-1) =
        .ok (steadyStats, 0, 0) ∧
      evaluateDMApp 3 1000 noBudgetData ⟨0, true, 0⟩ (some steadyLayout) (some steadyStats) =
        .ok ⟨⟨0, true, 1000⟩, 0, some [("A", ⟨"nothing", 4000⟩)], true⟩ := by
  decide!

/-- C23 (amended): a tick hands at most one action list to the notification
channel, and it hands one exactly when it received a non-empty snapshot, is
past the grace ticks and takes neither fast path, whether or not the
degradation changed any `videoBandwidth`; the list is built from the snapshot
the degradation loop returns and has one action for every component of the
fetched snapshot, in order. -/
theorem action_list_emitted_iff (fuel : Nat) (now : Int) (data : JobData)
    (options : Options) (components : List (InstanceId × Component)) (stats : Stats)
    (outcome : TickOutcome)
    (h : evaluateDMApp fuel now data options (some components) (some stats) = .ok outcome) :
    (outcome.notified ≠ none ↔
        (prepDMAppData ⟨data.priorityLevels, components⟩ ≠ none ∧ stats.length ≠ 0 ∧
          options.grace = 0 ∧ ¬ fastPath data stats)) ∧
      ∀ actions, outcome.notified = some actions →
        actions.map Prod.fst = stats.map Prod.fst ∧
        ∃ levels final u a, prepDMAppData ⟨data.priorityLevels, components⟩ = some levels ∧
          actions = createActionList final ∧
          ((∃ b, data.availableBandwidth = some b ∧
              degradationLoop fuel levels true (normalizeComponents stats).1
                (getBandwidthUsage stats false + (normalizeComponents stats).2)
                (b * BANDWIDTH_LIMIT_SAFETY) = .ok (final, u, a)) ∨
            (data.availableBandwidth = none ∧
              degradationLoop fuel levels false stats (getBandwidthUsage stats false) (-1) =
                .ok (final, u, a))) := by
  refine ⟨⟨?_, ?_⟩, ?_⟩
  · intro hne
    cases hn : outcome.notified with
    | none => exact absurd hn hne
    | some actions =>
      obtain ⟨levels, final, u, a, hp, h0, hg, _, hpath⟩ :=
        evaluateDMApp_emits fuel now data options components stats outcome actions h hn
      refine ⟨by rw [hp]; simp, h0, hg, ?_⟩
      unfold fastPath
      rcases hpath with ⟨b, hb, hlt, _⟩ | ⟨hb, hlt, _⟩
      · rw [hb]
        exact not_le.mpr hlt
      · rw [hb]
        exact not_le.mpr hlt
  · rintro ⟨hp, h0, hg, hfast⟩
    unfold evaluateDMApp at h
    cases hp1 : prepDMAppData ⟨data.priorityLevels, components⟩ with
    | none => exact absurd hp1 hp
    | some levels =>
      simp only [hp1] at h
      unfold evaluateStats at h
      simp only [h0, if_false, hg, gt_iff_lt, lt_self_iff_false] at h
      unfold budgetCheck at h
      unfold fastPath at hfast
      cases hB : data.availableBandwidth with
      | none =>
        rw [hB] at hfast
        simp only at hfast
        simp only [hB, Option.isSome_none, Bool.false_eq_true, if_false, false_and,
          true_and, hfast] at h
        split at h
        · simp at h
        · simp only [Except.ok.injEq] at h
          rw [← h]
          simp
      | some b =>
        rw [hB] at hfast
        simp only at hfast
        simp only [hB, Option.isSome_some, if_true, true_and, Bool.true_eq_false, false_and,
          if_false, hfast] at h
        split at h
        · simp at h
        · simp only [Except.ok.injEq] at h
          rw [← h]
          simp
  · intro actions hn
    obtain ⟨levels, final, u, a, hp, _, _, hact, hpath⟩ :=
      evaluateDMApp_emits fuel now data options components stats outcome actions h hn
    have htr : Traceable stats final := by
      rcases hpath with ⟨b, _, _, hloop⟩ | ⟨_, _, hloop⟩
      · exact traceable_trans _ _ _ (normalizeComponents_traceable stats)
          (degradationLoop_traceable fuel levels true _ _ _ _ hloop)
      · exact degradationLoop_traceable fuel levels false _ _ _ _ hloop
    refine ⟨?_, levels, final, u, a, hp, hact, ?_⟩
    · rw [hact]
      exact traceable_keys stats final htr
    · rcases hpath with ⟨b, hb, _, hloop⟩ | ⟨hb, _, hloop⟩
      · exact Or.inl ⟨b, hb, hloop⟩
      · exact Or.inr ⟨hb, hloop⟩

theorem action_list_emitted_iff_witness :
    ((some [("A", (⟨"nothing", 4000⟩ : Action))] : Option (List (InstanceId × Action))) ≠
          none ↔
        (prepDMAppData ⟨noBudgetData.priorityLevels, steadyLayout⟩ ≠ none ∧
          steadyStats.length ≠ 0 ∧ (0 : Nat) = 0 ∧ ¬ fastPath noBudgetData steadyStats)) ∧
      ((some [("A", (⟨"nothing", 4000⟩ : Action))] : Option (List (InstanceId × Action))) =
          some [("A", ⟨"nothing", 4000⟩)] →
        [("A", (⟨"nothing", 4000⟩ : Action))].map Prod.fst = steadyStats.map Prod.fst ∧
        ∃ levels final u a,
          prepDMAppData ⟨noBudgetData.priorityLevels, steadyLayout⟩ = some levels ∧
          [("A", (⟨"nothing", 4000⟩ : Action))] = createActionList final ∧
          ((∃ b, noBudgetData.availableBandwidth = some b ∧
              degradationLoop 3 levels true (normalizeComponents steadyStats).1
                (getBandwidthUsage steadyStats false + (normalizeComponents steadyStats).2)
                (b * BANDWIDTH_LIMIT_SAFETY) = .ok (final, u, a)) ∨
            (noBudgetData.availableBandwidth = none ∧
              degradationLoop 3 levels false steadyStats (getBandwidthUsage steadyStats false)
                (-1) = .ok (final, u, a)))) :=
  have h := action_list_emitted_iff 3 1000 noBudgetData ⟨0, true, 0⟩ steadyLayout steadyStats
    ⟨⟨0, true, 1000⟩, 0, some [("A", ⟨"nothing", 4000⟩)], true⟩ (by decide!)
  ⟨h.1, h.2 [("A", ⟨"nothing", 4000⟩)]⟩

/-! ## Termination of `conformComponentGroup`: lemmas -/

theorem countP_lt_of_mem (l : List ℚ) (a b : ℚ) (hab : a < b) (ha : a ∈ l) :
    l.countP (fun r => decide (r < a)) < l.countP (fun r => decide (r < b)) := by
  have hmono : ∀ m : List ℚ,
      m.countP (fun r => decide (r < a)) ≤ m.countP (fun r => decide (r < b)) := by
    intro m
    apply List.countP_mono_left
    intro x _ hx
    simp only [decide_eq_true_eq] at hx ⊢
    exact lt_trans hx hab
  induction l with
  | nil => simp at ha
  | cons x l ih =>
    rw [List.countP_cons, List.countP_cons]
    rcases List.mem_cons.mp ha with rfl | hmem
    · have h1 : decide (a < a) = false := by simp
      have h2 : decide (a < b) = true := by simp [hab]
      simp only [h1, h2, if_true, Bool.false_eq_true, if_false]
      have := hmono l
      omega
    · have := ih hmem
      by_cases hxa : x < a
      · have hxb : x < b := lt_trans hxa hab
        simp only [hxa, hxb, decide_True, if_true]
        omega
      · by_cases hxb : x < b
        · simp only [hxa, hxb, decide_True, decide_False, if_true, Bool.false_eq_true, if_false]
          omega
        · simp only [hxa, hxb, decide_False, Bool.false_eq_true, if_false]
          omega

theorem countP_lowest (lowest : ℚ) (rest : List ℚ)
    (hs : List.Sorted (fun a b => a ≤ b) (lowest :: rest)) :
    (lowest :: rest).countP (fun r => decide (r < lowest)) = 0 := by
  rw [List.countP_eq_zero]
  intro r hr
  simp only [decide_eq_true_eq, not_lt]
  rcases List.mem_cons.mp hr with rfl | hmem
  · exact le_refl _
  · exact List.rel_of_sorted_cons hs r hmem

theorem totalSteps_setVideoBandwidth (stats : Stats) (id : InstanceId) (stat : Stat) (v : ℚ)
    (hget : getStat stats id = some stat) :
    totalSteps (setVideoBandwidth stats id v) + stepsLeft stat =
      totalSteps stats + stepsLeft { stat with videoBandwidth := v } := by
  induction stats with
  | nil => simp [getStat] at hget
  | cons e stats ih =>
    obtain ⟨k, s⟩ := e
    unfold getStat at hget
    unfold setVideoBandwidth
    by_cases hk : k = id
    · rw [if_pos hk, Option.some.injEq] at hget
      rw [if_pos hk, hget]
      unfold totalSteps
      simp only [List.map_cons, List.sum_cons]
      omega
    · rw [if_neg hk] at hget
      rw [if_neg hk]
      have := ih hget
      unfold totalSteps at this ⊢
      simp only [List.map_cons, List.sum_cons]
      omega

theorem totalSteps_le_ladderBound (stats : Stats) : totalSteps stats ≤ ladderBound stats := by
  unfold totalSteps ladderBound
  induction stats with
  | nil => simp
  | cons e stats ih =>
    simp only [List.map_cons, List.sum_cons]
    have h1 : stepsLeft e.2 ≤ e.2.bitrates.video.length + 1 := by
      unfold stepsLeft rungsBelow
      have := List.countP_le_length (fun r => decide (r < e.2.videoBandwidth))
        (l := e.2.bitrates.video)
      split_ifs <;> omega
    omega

theorem traceable_ladderBound (s t : Stats) (h : Traceable s t) :
    ladderBound t = ladderBound s := by
  unfold ladderBound
  unfold Traceable at h
  induction h with
  | nil => rfl
  | cons hab _ ih =>
    simp only [List.map_cons, List.sum_cons]
    rw [ih, hab.2.1]

/-- Under ascending ladders, a visit that steps to `rung` does not raise
`stepsLeft`, and lowers it when the step is downwards. -/
theorem stepsLeft_step (stat : Stat) (rung : ℚ) (lowest : ℚ) (rest : List ℚ)
    (hv : stat.bitrates.video = lowest :: rest)
    (hs : List.Sorted (fun a b => a ≤ b) (lowest :: rest))
    (hon : stat.videoBandwidth ≠ TURNEDOFF)
    (hsel : selectedRung stat = some rung) :
    stepsLeft { stat with videoBandwidth := rung } ≤ stepsLeft stat ∧
      (stat.videoBandwidth - rung > 0 →
        stepsLeft { stat with videoBandwidth := rung } < stepsLeft stat) := by
  obtain ⟨rung1, hr1, hmem, _, hcase, _⟩ := rung_spec stat.videoBandwidth rest lowest hs
  rw [← selectedRung_eq stat lowest rest hv, hsel, Option.some.injEq] at hr1
  subst hr1
  unfold stepsLeft rungsBelow
  simp only [hon, if_false]
  by_cases hroff : rung = TURNEDOFF
  · simp only [hroff, if_true]
    exact ⟨by omega, fun _ => by omega⟩
  · simp only [hroff, if_false]
    rw [hv]
    by_cases hlt : rung < stat.videoBandwidth
    · have := countP_lt_of_mem (lowest :: rest) rung stat.videoBandwidth hlt hmem
      exact ⟨by omega, fun _ => by omega⟩
    · rcases hcase with hlow | hlow
      · rw [hlow, countP_lowest lowest rest hs]
        refine ⟨by omega, fun hpos => ?_⟩
        exact absurd (by linarith : rung < stat.videoBandwidth) hlt
      · exact absurd hlow hlt

/-- Under ascending ladders a visit returns, keeps the ladders ascending,
does not raise `totalSteps`, and lowers it when it sets `changed`. -/
theorem conformMember_steps (stats : Stats) (id : InstanceId) (bandwidthUsage : ℚ)
    (shutdown changed : Bool) (hasc : AscendingLadders stats) :
    ∃ out, conformMember stats id bandwidthUsage shutdown changed = .ok out ∧
      AscendingLadders out.1 ∧ totalSteps out.1 ≤ totalSteps stats ∧
      (changed = false → out.2.2 = true → totalSteps out.1 < totalSteps stats) := by
  cases hm : conformMember stats id bandwidthUsage shutdown changed with
  | error e =>
    exfalso
    unfold conformMember at hm
    cases hget : getStat stats id with
    | none => simp [hget] at hm
    | some stat =>
      simp only [hget] at hm
      obtain ⟨lowest, rest, hv, hs⟩ := hasc _ (getStat_mem stats id stat hget)
      simp only at hv
      obtain ⟨rung, hr, _⟩ := rung_spec stat.videoBandwidth rest lowest hs
      rw [← selectedRung_eq stat lowest rest hv] at hr
      simp only [hr] at hm
      split_ifs at hm
  | ok out =>
    refine ⟨out, rfl, ((conformMember_keeps stats id bandwidthUsage shutdown changed out hm).2
      hasc).1, ?_⟩
    rcases conformMember_ok stats id bandwidthUsage shutdown changed out hm with
      ⟨_, rfl⟩ | ⟨_, _, _, rfl⟩ |
      ⟨stat, rung, hget, hon, hsel, ⟨hd, _, rfl⟩ | ⟨hd, _, rfl⟩ | ⟨hd, rfl⟩⟩
    · exact ⟨le_refl _, fun hc ht => by simp only at ht; rw [hc] at ht; cases ht⟩
    · exact ⟨le_refl _, fun hc ht => by simp only at ht; rw [hc] at ht; cases ht⟩
    · have h1 := totalSteps_setVideoBandwidth stats id stat TURNEDOFF hget
      have h2 : stepsLeft { stat with videoBandwidth := TURNEDOFF } = 0 := by
        simp [stepsLeft]
      have h3 : 0 < stepsLeft stat := by
        unfold stepsLeft
        rw [if_neg hon]
        omega
      simp only
      exact ⟨by omega, fun _ _ => by omega⟩
    · refine ⟨le_refl _, fun hc ht => ?_⟩
      simp only [hd, hc, gt_iff_lt, lt_self_iff_false, decide_False, Bool.or_false] at ht
      cases ht
    · obtain ⟨lowest, rest, hv, hs⟩ := hasc _ (getStat_mem stats id stat hget)
      simp only at hv
      have h1 := totalSteps_setVideoBandwidth stats id stat rung hget
      obtain ⟨h2, h3⟩ := stepsLeft_step stat rung lowest rest hv hs hon hsel
      simp only
      refine ⟨by omega, fun hc ht => ?_⟩
      simp only [hc, Bool.false_or, decide_eq_true_eq] at ht
      have := h3 ht
      omega

theorem conformPass_steps (availableBandwith : ℚ) (shutdown : Bool)
    (members : List InstanceId) (stats : Stats) (bandwidthUsage : ℚ) (changed : Bool)
    (hasc : AscendingLadders stats) :
    ∃ out, conformPass availableBandwith shutdown members stats bandwidthUsage changed =
        .ok out ∧
      AscendingLadders out.1 ∧ totalSteps out.1 ≤ totalSteps stats ∧
      (changed = false → out.2.2 = true → totalSteps out.1 < totalSteps stats) := by
  induction members generalizing stats bandwidthUsage changed with
  | nil =>
    refine ⟨(stats, bandwidthUsage, changed), rfl, hasc, le_refl _, fun hc ht => ?_⟩
    simp only at ht
    rw [hc] at ht
    cases ht
  | cons id rest ih =>
    unfold conformPass
    by_cases hu : bandwidthUsage > availableBandwith
    · rw [if_pos hu]
      obtain ⟨⟨s1, u1, c1⟩, hm, hasc1, hle1, hlt1⟩ :=
        conformMember_steps stats id bandwidthUsage shutdown changed hasc
      obtain ⟨out, hp, hasc2, hle2, hlt2⟩ := ih s1 u1 c1 hasc1
      simp only [hm]
      refine ⟨out, hp, hasc2, le_trans hle2 hle1, fun hc ht => ?_⟩
      simp only at hle1 hlt1
      cases hc1 : c1 with
      | true => exact lt_of_le_of_lt hle2 (hlt1 hc hc1)
      | false => exact lt_of_lt_of_le (hlt2 hc1 ht) hle1
    · rw [if_neg hu]
      refine ⟨(stats, bandwidthUsage, changed), rfl, hasc, le_refl _, fun hc ht => ?_⟩
      simp only at ht
      rw [hc] at ht
      cases ht

theorem conformLoop_returns (sortedGroup : List InstanceId) (availableBandwith : ℚ)
    (shutdown : Bool) (fuel : Nat) (stats : Stats) (bandwidthUsage : ℚ) (changed : Bool)
    (hasc : AscendingLadders stats) (hfuel : totalSteps stats < fuel) :
    ∃ out, conformLoop sortedGroup availableBandwith shutdown fuel stats bandwidthUsage
      changed = .ok out := by
  induction fuel generalizing stats bandwidthUsage changed with
  | zero => omega
  | succ n ih =>
    unfold conformLoop
    by_cases hc : changed = true ∧ bandwidthUsage > availableBandwith
    · rw [if_pos hc]
      obtain ⟨⟨s1, u1, c1⟩, hp, hasc1, hle1, hlt1⟩ :=
        conformPass_steps availableBandwith shutdown sortedGroup stats bandwidthUsage false hasc
      simp only [hp]
      simp only at hle1 hasc1
      cases hc1 : c1 with
      | false =>
        cases n with
        | zero => exact ⟨(s1, u1), by simp [conformLoop]⟩
        | succ m => exact ⟨(s1, u1), by simp [conformLoop]⟩
      | true =>
        have hlt : totalSteps s1 < totalSteps stats := hlt1 rfl hc1
        exact ih s1 u1 true hasc1 (by omega)
    · rw [if_neg hc]
      exact ⟨_, rfl⟩

theorem conformComponentGroup_returns (fuel : Nat) (stats : Stats) (group : List InstanceId)
    (bandwidthUsage availableBandwith : ℚ) (shutdown : Bool)
    (hasc : AscendingLadders stats) (hfuel : totalSteps stats < fuel) :
    ∃ out, conformComponentGroup fuel stats group bandwidthUsage availableBandwith shutdown =
      .ok out :=
  conformLoop_returns _ availableBandwith shutdown fuel stats bandwidthUsage true hasc hfuel

/-- On the snapshot `cyclingStats` the passes over the tier X, Y alternate
between two snapshots, each pass setting `changed` and leaving the usage at
4, so the `while` loop is still running when any amount of fuel is spent. -/
theorem cycling_never_returns (fuel : Nat) :
    conformLoop ["X", "Y"] (19 / 20) false fuel cyclingStats 4 true = .error Err.outOfFuel ∧
      conformLoop ["X", "Y"] (19 / 20) false fuel cyclingStatsSwapped 4 true =
        .error Err.outOfFuel := by
  have hc : (true = true ∧ (4 : ℚ) > 19 / 20) := ⟨rfl, by norm_num⟩
  have h1 : conformPass (19 / 20) false ["X", "Y"] cyclingStats 4 false =
      .ok (cyclingStatsSwapped, 4, true) := by decide!
  have h2 : conformPass (19 / 20) false ["X", "Y"] cyclingStatsSwapped 4 false =
      .ok (cyclingStats, 4, true) := by decide!
  induction fuel with
  | zero =>
    constructor
    · unfold conformLoop
      rw [if_pos hc]
    · unfold conformLoop
      rw [if_pos hc]
  | succ n ih =>
    constructor
    · unfold conformLoop
      rw [if_pos hc]
      simp only [h1]
      exact ih.2
    · unfold conformLoop
      rw [if_pos hc]
      simp only [h2]
      exact ih.1

/-! ## Termination of `conformComponentGroup`: results -/

/-- C25: on a snapshot whose video ladders are all non-empty and ascending,
`conformComponentGroup` returns for every tier, usage, budget and shutdown
flag, as soon as the fuel exceeds `totalSteps` of the snapshot; the hypothesis
is needed: on the snapshot `cyclingStats`, whose ladders [3, 1, 4] are not
ascending, the call on the tier X, Y with usage 4 and budget 19/20 is still
looping when any amount of fuel is spent. -/
theorem conformComponentGroup_terminates (stats : Stats) (group : List InstanceId)
    (bandwidthUsage availableBandwith : ℚ) (shutdown : Bool)
    (hasc : AscendingLadders stats) :
    (∀ fuel, totalSteps stats < fuel →
        ∃ out, conformComponentGroup fuel stats group bandwidthUsage availableBandwith
          shutdown = .ok out) ∧
      ∀ fuel, conformComponentGroup fuel cyclingStats ["X", "Y"] 4 (19 / 20) false =
        .error Err.outOfFuel :=
  ⟨fun fuel hfuel => conformComponentGroup_returns fuel stats group bandwidthUsage
      availableBandwith shutdown hasc hfuel,
    fun fuel => by
      unfold conformComponentGroup
      rw [sortJS_groupComparator]
      exact (cycling_never_returns fuel).1⟩

theorem exampleStats_ascending : AscendingLadders exampleStats := by
  intro e he
  have h4 : ∃ lowest rest,
      (videoOnlyStat 4000 4000 [1000, 2000, 4000]).bitrates.video = lowest :: rest ∧
        List.Sorted (fun a b => a ≤ b) (lowest :: rest) :=
    ⟨1000, [2000, 4000], rfl, by decide!⟩
  simp only [exampleStats, List.mem_cons, List.mem_singleton, List.not_mem_nil,
    or_false] at he
  rcases he with rfl | rfl <;> exact h4

theorem conformComponentGroup_terminates_witness :
    (∃ out, conformComponentGroup 7 exampleStats ["B"] 8000 4750 false = .ok out) ∧
      conformComponentGroup 5 cyclingStats ["X", "Y"] 4 (19 / 20) false =
        .error Err.outOfFuel :=
  ⟨(conformComponentGroup_terminates exampleStats ["B"] 8000 4750 false
      exampleStats_ascending).1 7 (by decide!),
    (conformComponentGroup_terminates exampleStats ["B"] 8000 4750 false
      exampleStats_ascending).2 5⟩

/-! ## A tick on ascending ladders returns: lemmas -/

theorem conformComponentGroup_returns_inv (fuel : Nat) (stats : Stats)
    (group : List InstanceId) (bandwidthUsage availableBandwith : ℚ) (shutdown : Bool)
    (hasc : AscendingLadders stats) (hfuel : ladderBound stats < fuel) :
    ∃ out, conformComponentGroup fuel stats group bandwidthUsage availableBandwith shutdown =
        .ok out ∧ AscendingLadders out.1 ∧ ladderBound out.1 = ladderBound stats := by
  obtain ⟨out, h⟩ := conformComponentGroup_returns fuel stats group bandwidthUsage
    availableBandwith shutdown hasc
    (lt_of_le_of_lt (totalSteps_le_ladderBound stats) hfuel)
  have ht := conformComponentGroup_rel Traceable traceable_refl traceable_trans
    (fun s id u sd c o hh => conformMember_traceable s id u sd c o hh) fuel stats group
    bandwidthUsage availableBandwith shutdown out h
  exact ⟨out, h, traceable_ascending _ _ ht hasc, traceable_ladderBound _ _ ht⟩

theorem conformLowerTiers_returns (fuel : Nat) (availableBandwidth : ℚ) (shutdown : Bool)
    (groups : List (List InstanceId)) (stats : Stats) (bandwidthUsage : ℚ)
    (hasc : AscendingLadders stats) (hfuel : ladderBound stats < fuel) :
    ∃ out, conformLowerTiers fuel availableBandwidth shutdown groups stats bandwidthUsage =
        .ok out ∧ AscendingLadders out.1 ∧ ladderBound out.1 = ladderBound stats := by
  induction groups generalizing stats bandwidthUsage with
  | nil => exact ⟨(stats, bandwidthUsage), rfl, hasc, rfl⟩
  | cons group rest ih =>
    unfold conformLowerTiers
    by_cases hu : bandwidthUsage > availableBandwidth
    · rw [if_pos hu]
      obtain ⟨⟨s1, u1⟩, hg, hasc1, hb1⟩ := conformComponentGroup_returns_inv fuel stats group
        bandwidthUsage availableBandwidth shutdown hasc hfuel
      simp only [hg]
      simp only at hasc1 hb1
      obtain ⟨out, ho, hasc2, hb2⟩ := ih s1 u1 hasc1 (by omega)
      exact ⟨out, ho, hasc2, by omega⟩
    · rw [if_neg hu]
      exact ⟨(stats, bandwidthUsage), rfl, hasc, rfl⟩

theorem twoTurns_returns (fuel : Nat) (availableBandwidth : ℚ)
    (body : Bool → Stats → ℚ → Except Err (Stats × ℚ))
    (hbody : ∀ (shutdown : Bool) (s : Stats) (u : ℚ),
      AscendingLadders s → ladderBound s < fuel →
        ∃ r, body shutdown s u = .ok r ∧ AscendingLadders r.1 ∧ ladderBound r.1 = ladderBound s)
    (stats : Stats) (bandwidthUsage : ℚ)
    (hasc : AscendingLadders stats) (hfuel : ladderBound stats < fuel) :
    ∃ out, twoTurns availableBandwidth body stats bandwidthUsage = .ok out ∧
      AscendingLadders out.1 ∧ ladderBound out.1 = ladderBound stats := by
  unfold twoTurns
  by_cases hu : bandwidthUsage > availableBandwidth
  · rw [if_pos hu]
    obtain ⟨⟨s1, u1⟩, hb, hasc1, hb1⟩ := hbody false stats bandwidthUsage hasc hfuel
    simp only [hb]
    simp only at hasc1 hb1
    by_cases hu1 : u1 > availableBandwidth
    · rw [if_pos hu1]
      obtain ⟨out, ho, hasc2, hb2⟩ := hbody true s1 u1 hasc1 (by omega)
      exact ⟨out, ho, hasc2, by omega⟩
    · rw [if_neg hu1]
      exact ⟨(s1, u1), rfl, hasc1, hb1⟩
  · rw [if_neg hu]
    exact ⟨(stats, bandwidthUsage), rfl, hasc, rfl⟩

theorem escalationRound_returns (fuel : Nat) (levels : List (List InstanceId))
    (hasBandwidthLimit : Bool) (i : Nat) (stats : Stats)
    (bandwidthUsage availableBandwidth : ℚ)
    (hasc : AscendingLadders stats) (hfuel : ladderBound stats < fuel) :
    ∃ out, escalationRound fuel levels hasBandwidthLimit i stats bandwidthUsage
        availableBandwidth = .ok out ∧
      AscendingLadders out.1 ∧ ladderBound out.1 = ladderBound stats := by
  unfold escalationRound
  simp only
  generalize hstart : (if hasBandwidthLimit = true then
      (stats, bandwidthUsage, availableBandwidth)
    else ((normalizeComponents stats).1,
      (normalizeComponents stats).2 / BANDWIDTH_LIMIT_SAFETY, (0 : ℚ))) = start
  have hs : AscendingLadders start.1 ∧ ladderBound start.1 = ladderBound stats := by
    cases hl : hasBandwidthLimit with
    | true =>
      simp only [hl, if_true] at hstart
      rw [← hstart]
      exact ⟨hasc, rfl⟩
    | false =>
      simp only [hl, Bool.false_eq_true, if_false] at hstart
      rw [← hstart]
      exact ⟨traceable_ascending _ _ (normalizeComponents_traceable stats) hasc,
        traceable_ladderBound _ _ (normalizeComponents_traceable stats)⟩
  obtain ⟨⟨s1, u1⟩, ht, hasc1, hb1⟩ := twoTurns_returns fuel start.2.2
    (fun shutdown s u =>
      conformLowerTiers fuel start.2.2 shutdown (levels.drop i).reverse s u)
    (fun shutdown s u ha hb => conformLowerTiers_returns fuel start.2.2 shutdown _ s u ha hb)
    start.1 start.2.1 hs.1 (by omega)
  simp only [ht]
  simp only at hasc1 hb1
  by_cases hu : u1 > start.2.2
  · rw [if_pos hu]
    obtain ⟨⟨s2, u2⟩, ht2, hasc2, hb2⟩ := twoTurns_returns fuel start.2.2
      (fun shutdown s u =>
        conformComponentGroup fuel s ((levels[i - 1]?).getD []) u start.2.2 shutdown)
      (fun shutdown s u ha hb =>
        conformComponentGroup_returns_inv fuel s _ u start.2.2 shutdown ha hb)
      s1 u1 hasc1 (by omega)
    simp only [ht2]
    simp only at hasc2 hb2
    exact ⟨_, rfl, hasc2, by show ladderBound s2 = _; omega⟩
  · rw [if_neg hu]
    exact ⟨_, rfl, hasc1, by show ladderBound s1 = _; omega⟩

theorem escalationLoop_returns (fuel : Nat) (levels : List (List InstanceId))
    (hasBandwidthLimit : Bool) (rounds i : Nat) (stats : Stats)
    (bandwidthUsage availableBandwidth : ℚ)
    (hasc : AscendingLadders stats) (hfuel : ladderBound stats < fuel) :
    ∃ out, escalationLoop fuel levels hasBandwidthLimit rounds i stats bandwidthUsage
        availableBandwidth = .ok out := by
  induction rounds generalizing i stats bandwidthUsage availableBandwidth with
  | zero => exact ⟨_, rfl⟩
  | succ n ih =>
    unfold escalationLoop
    by_cases hc : hasBandwidthLimit = false ∨ bandwidthUsage > availableBandwidth
    · rw [if_pos hc]
      obtain ⟨⟨s1, u1, a1⟩, hr, hasc1, hb1⟩ := escalationRound_returns fuel levels
        hasBandwidthLimit i stats bandwidthUsage availableBandwidth hasc hfuel
      simp only [hr]
      simp only at hasc1 hb1
      exact ih (i + 1) s1 u1 a1 hasc1 (by omega)
    · rw [if_neg hc]
      exact ⟨_, rfl⟩

theorem budgetCheck_returns (fuel : Nat) (data : JobData) (options : Options)
    (levels : List (List InstanceId)) (stats : Stats)
    (hasc : AscendingLadders stats) (hfuel : ladderBound stats < fuel) :
    ∃ outcome, budgetCheck fuel data options levels stats = .ok outcome ∧
      outcome.resolved = true := by
  unfold budgetCheck
  cases hB : data.availableBandwidth with
  | none =>
    simp only [Option.isSome_none, Bool.false_eq_true, if_false, false_and, true_and]
    split_ifs with h1
    · exact ⟨_, rfl, rfl⟩
    · obtain ⟨⟨s1, u1, a1⟩, hloop⟩ := escalationLoop_returns fuel levels false levels.length 1
        stats (getBandwidthUsage stats false) (-1) hasc hfuel
      unfold degradationLoop
      rw [hloop]
      exact ⟨_, rfl, rfl⟩
  | some b =>
    simp only [Option.isSome_some, if_true, true_and, Bool.true_eq_false, false_and,
      if_false]
    split_ifs with h1
    · exact ⟨_, rfl, rfl⟩
    · obtain ⟨⟨s1, u1, a1⟩, hloop⟩ := escalationLoop_returns fuel levels true levels.length 1
        (normalizeComponents stats).1
        (getBandwidthUsage stats false + (normalizeComponents stats).2)
        (b * BANDWIDTH_LIMIT_SAFETY)
        (traceable_ascending _ _ (normalizeComponents_traceable stats) hasc)
        (by rw [traceable_ladderBound _ _ (normalizeComponents_traceable stats)]; exact hfuel)
      unfold degradationLoop
      rw [hloop]
      exact ⟨_, rfl, rfl⟩

/-! ## Resolution of the tick: results -/

theorem cycling_degradationLoop (fuel : Nat) :
    degradationLoop fuel [[], ["X", "Y"]] true cyclingStats 4 (19 / 20) =
      .error Err.outOfFuel := by
  have hcg : conformComponentGroup fuel cyclingStats ["X", "Y"] 4 (19 / 20) false =
      .error Err.outOfFuel := by
    unfold conformComponentGroup
    rw [sortJS_groupComparator]
    exact (cycling_never_returns fuel).1
  have hgt : (4 : ℚ) > 19 / 20 := by norm_num
  simp [degradationLoop, escalationLoop, escalationRound, twoTurns, conformLowerTiers, hgt, hcg]

/-- C22 (counterexample): a tick with budget 1 whose snapshot has X and Y in
one tier (tier 2; tier 1 is empty) with the ladder [3, 1, 4], which is not
ascending. The degradation loop never leaves its first `conformComponentGroup`
call, whatever the fuel: the tick neither resolves nor rejects. -/
theorem tick_never_resolves :
    prepDMAppData ⟨cyclingData.priorityLevels, cyclingLayout⟩ = some [[], ["X", "Y"]] ∧
      ∀ fuel, evaluateDMApp fuel 1000 cyclingData ⟨0, true, 0⟩ (some cyclingLayout)
        (some cyclingStats) = .error Err.outOfFuel := by
  have hp : prepDMAppData ⟨cyclingData.priorityLevels, cyclingLayout⟩ = some [[], ["X", "Y"]] := by
    decide!
  refine ⟨hp, fun fuel => ?_⟩
  have hU : getBandwidthUsage cyclingStats false + (normalizeComponents cyclingStats).2 = 4 := by
    decide!
  have hN : (normalizeComponents cyclingStats).1 = cyclingStats := by decide!
  have hA : (1 : ℚ) * BANDWIDTH_LIMIT_SAFETY = 19 / 20 := by decide!
  have hlen : cyclingStats.length ≠ 0 := by decide
  have hle : ¬ ((4 : ℚ) ≤ 19 / 20) := by norm_num
  unfold evaluateDMApp
  simp only [hp]
  unfold evaluateStats budgetCheck
  simp only [hlen, if_false, gt_iff_lt, lt_self_iff_false, cyclingData, Option.isSome_some,
    if_true, hU, hN, hA, true_and, hle, Bool.true_eq_false, false_and,
    cycling_degradationLoop fuel]

/-- C22 (amended): for every outcome of the layout fetch, every outcome of
the metrics fetch (failure, empty, or a snapshot in which every video ladder
is non-empty and ascending) and every value of the options, `evaluateDMApp`
returns, once the fuel exceeds the number of components and rungs of the
snapshot, and resolves; this includes the ticks that prune. -/
theorem evaluateDMApp_resolves (fuel : Nat) (now : Int) (data : JobData) (options : Options)
    (layout : Option (List (InstanceId × Component))) (metrics : Option Stats)
    (hladders : ∀ stats, metrics = some stats →
      AscendingLadders stats ∧ ladderBound stats < fuel) :
    ∃ outcome, evaluateDMApp fuel now data options layout metrics = .ok outcome ∧
      outcome.resolved = true := by
  unfold evaluateDMApp
  cases layout with
  | none => exact ⟨_, rfl, rfl⟩
  | some components =>
    simp only
    cases hp : prepDMAppData ⟨data.priorityLevels, components⟩ with
    | none => exact ⟨_, rfl, rfl⟩
    | some levels =>
      simp only
      cases metrics with
      | none => exact ⟨_, rfl, rfl⟩
      | some stats =>
        simp only
        obtain ⟨hasc, hfuel⟩ := hladders stats rfl
        unfold evaluateStats
        by_cases h0 : stats.length = 0
        · rw [if_pos h0]
          exact ⟨_, rfl, rfl⟩
        · rw [if_neg h0]
          simp only
          by_cases hg : options.grace > 0
          · rw [if_pos hg]
            exact ⟨_, rfl, rfl⟩
          · rw [if_neg hg]
            exact budgetCheck_returns fuel data _ levels stats hasc hfuel

theorem evaluateDMApp_resolves_witness :
    (∀ stats, some exampleStats = some stats →
        AscendingLadders stats ∧ ladderBound stats < 9) ∧
      ∃ outcome, evaluateDMApp 9 1000 exampleData ⟨0, true, 0⟩ (some exampleLayout)
          (some exampleStats) = .ok outcome ∧ outcome.resolved = true :=
  have hl : ∀ stats, some exampleStats = some stats →
      AscendingLadders stats ∧ ladderBound stats < 9 := by
    intro stats h
    cases h
    exact ⟨exampleStats_ascending, by decide⟩
  ⟨hl, evaluateDMApp_resolves 9 1000 exampleData ⟨0, true, 0⟩ (some exampleLayout)
    (some exampleStats) hl⟩

/-! ## Usage accounting: lemmas -/

theorem sum_map_update (l : List InstanceId) (id : InstanceId) (f g : InstanceId → ℚ)
    (hnodup : l.Nodup) (hid : id ∈ l) (hfg : ∀ x, x ≠ id → g x = f x) :
    (l.map g).sum = (l.map f).sum - f id + g id := by
  induction l with
  | nil => simp at hid
  | cons a l ih =>
    rw [List.nodup_cons] at hnodup
    simp only [List.map_cons, List.sum_cons]
    by_cases ha : a = id
    · subst ha
      have hsame : l.map g = l.map f := by
        apply List.map_congr_left
        intro x hx
        exact hfg x (fun hxa => hnodup.1 (hxa ▸ hx))
      rw [hsame]
      ring
    · have hmem : id ∈ l := by
        rcases List.mem_cons.mp hid with h | h
        · exact absurd h.symm ha
        · exact h
      rw [ih hnodup.2 hmem, hfg a ha]
      ring

theorem tierBandwidth_setVideoBandwidth (stats : Stats) (group : List InstanceId)
    (id : InstanceId) (stat : Stat) (v : ℚ) (hnodup : group.Nodup) (hid : id ∈ group)
    (hget : getStat stats id = some stat) :
    tierBandwidth (setVideoBandwidth stats id v) group =
      tierBandwidth stats group - effectiveBandwidth stat.videoBandwidth +
        effectiveBandwidth v := by
  unfold tierBandwidth
  rw [sum_map_update group id (effectiveOf stats)
    (effectiveOf (setVideoBandwidth stats id v)) hnodup hid]
  · have h1 : effectiveOf stats id = effectiveBandwidth stat.videoBandwidth := by
      unfold effectiveOf
      rw [hget]
    have h2 : effectiveOf (setVideoBandwidth stats id v) id = effectiveBandwidth v := by
      unfold effectiveOf
      rw [getStat_setVideoBandwidth_self stats id stat v hget]
    rw [h1, h2]
  · intro x hx
    unfold effectiveOf
    rw [getStat_setVideoBandwidth_ne stats id x v hx]

theorem snapshotDemand_setVideoBandwidth (stats : Stats) (id : InstanceId) (stat : Stat)
    (v : ℚ) (hget : getStat stats id = some stat) :
    snapshotDemand (setVideoBandwidth stats id v) =
      snapshotDemand stats - effectiveBandwidth stat.videoBandwidth +
        effectiveBandwidth v := by
  induction stats with
  | nil => simp [getStat] at hget
  | cons e stats ih =>
    obtain ⟨k, s⟩ := e
    unfold getStat at hget
    unfold setVideoBandwidth
    by_cases hk : k = id
    · rw [if_pos hk, Option.some.injEq] at hget
      rw [if_pos hk, hget]
      unfold snapshotDemand
      simp only [List.map_cons, List.sum_cons]
      ring
    · rw [if_neg hk] at hget
      rw [if_neg hk]
      have := ih hget
      unfold snapshotDemand at this ⊢
      simp only [List.map_cons, List.sum_cons]
      rw [this]
      ring

theorem traceable_noSentinelRung (s t : Stats) (hst : Traceable s t)
    (hs : NoSentinelRung s) : NoSentinelRung t := by
  unfold Traceable at hst
  induction hst with
  | nil =>
    intro e he
    simp at he
  | @cons e0 e l0 l h _ ih =>
    intro e1 he1
    rcases List.mem_cons.mp he1 with rfl | he1
    · rw [h.2.1]
      exact hs e0 (List.mem_cons_self _ _)
    · exact ih (fun d hd => hs d (List.mem_cons_of_mem _ hd)) e1 he1

/-- What a visit subtracts from the usage is what it takes from the
effective video bandwidth of the member, whether summed over a tier that holds
the member once or over the whole snapshot. -/
theorem conformMember_accounting (stats : Stats) (id : InstanceId) (bandwidthUsage : ℚ)
    (shutdown changed : Bool) (out : Stats × ℚ × Bool) (hns : NoSentinelRung stats)
    (h : conformMember stats id bandwidthUsage shutdown changed = .ok out) :
    NoSentinelRung out.1 ∧
      out.2.1 - snapshotDemand out.1 = bandwidthUsage - snapshotDemand stats ∧
      ∀ group : List InstanceId, group.Nodup → id ∈ group →
        out.2.1 - tierBandwidth out.1 group = bandwidthUsage - tierBandwidth stats group := by
  refine ⟨traceable_noSentinelRung _ _
    (conformMember_traceable stats id bandwidthUsage shutdown changed out h) hns, ?_⟩
  rcases conformMember_ok stats id bandwidthUsage shutdown changed out h with
    ⟨_, rfl⟩ | ⟨_, _, _, rfl⟩ |
    ⟨stat, rung, hget, hon, hsel, ⟨hd, _, rfl⟩ | ⟨hd, _, rfl⟩ | ⟨hd, rfl⟩⟩
  · exact ⟨rfl, fun _ _ _ => rfl⟩
  · exact ⟨rfl, fun _ _ _ => rfl⟩
  · have he : effectiveBandwidth stat.videoBandwidth = stat.videoBandwidth := by
      unfold effectiveBandwidth
      rw [if_neg hon]
    have ho : effectiveBandwidth TURNEDOFF = 0 := by
      unfold effectiveBandwidth
      rw [if_pos rfl]
    refine ⟨?_, fun group hnodup hid => ?_⟩
    · simp only
      rw [snapshotDemand_setVideoBandwidth stats id stat TURNEDOFF hget, he, ho]
      ring
    · simp only
      rw [tierBandwidth_setVideoBandwidth stats group id stat TURNEDOFF hnodup hid hget, he, ho]
      ring
  · refine ⟨?_, fun group hnodup hid => ?_⟩
    · simp only
      rw [hd]
      ring
    · simp only
      rw [hd]
      ring
  · have he : effectiveBandwidth stat.videoBandwidth = stat.videoBandwidth := by
      unfold effectiveBandwidth
      rw [if_neg hon]
    have hr : effectiveBandwidth rung = rung := by
      unfold effectiveBandwidth
      rw [if_neg]
      intro hoff
      exact hns _ (getStat_mem stats id stat hget) (hoff ▸ selectedRung_mem stat rung hsel)
    refine ⟨?_, fun group hnodup hid => ?_⟩
    · simp only
      rw [snapshotDemand_setVideoBandwidth stats id stat rung hget, he, hr]
      ring
    · simp only
      rw [tierBandwidth_setVideoBandwidth stats group id stat rung hnodup hid hget, he, hr]
      ring

/-- The usage a tick with a budget enters the degradation loop with is the
total of the bandwidths of the normalised snapshot. -/
theorem normalized_usage_eq_demand (stats : Stats) (hm : Measured stats) :
    getBandwidthUsage stats false + (normalizeComponents stats).2 =
      snapshotDemand (normalizeComponents stats).1 := by
  rw [getBandwidthUsage_measured stats (fun e he => (hm e he).1),
    (normalizeComponents_spec stats).1, (normalizeComponents_spec stats).2]
  unfold snapshotDemand
  induction stats with
  | nil => simp
  | cons e stats ih =>
    have hrest := ih (fun d hd => hm d (List.mem_cons_of_mem _ hd))
    have h0 := (hm e (List.mem_cons_self _ _)).2
    have hoff : ∀ x : ℚ, 0 ≤ x → effectiveBandwidth x = x := by
      intro x hx
      unfold effectiveBandwidth
      rw [if_neg]
      intro hx1
      rw [hx1] at hx
      exact absurd hx (by decide)
    simp only [List.map_cons, List.sum_cons] at hrest ⊢
    by_cases hz : e.2.videoBandwidth = 0
    · have hf : (List.filter (fun e => decide (e.2.videoBandwidth ≠ 0)) (e :: stats)) =
          List.filter (fun e => decide (e.2.videoBandwidth ≠ 0)) stats := by
        rw [List.filter_cons]
        simp [hz]
      rw [hf, if_pos hz, hoff _ h0]
      linarith
    · have hf : (List.filter (fun e => decide (e.2.videoBandwidth ≠ 0)) (e :: stats)) =
          e :: List.filter (fun e => decide (e.2.videoBandwidth ≠ 0)) stats := by
        rw [List.filter_cons]
        simp [hz]
      rw [hf, if_neg hz]
      simp only [List.map_cons, List.sum_cons]
      rw [hoff _ (le_trans h0 (le_max_left _ _))]
      have hmax : max e.2.videoBandwidth e.2.playingVideoBitrate =
          e.2.videoBandwidth + max (e.2.playingVideoBitrate - e.2.videoBandwidth) 0 := by
        rcases le_total e.2.videoBandwidth e.2.playingVideoBitrate with hle | hle
        · rw [max_eq_right hle, max_eq_left (by linarith)]
          ring
        · rw [max_eq_left hle, max_eq_right (by linarith)]
          ring
      rw [hmax]
      linarith

/-! ## Usage accounting: results -/

/-- C26: a `conformComponentGroup` call on a tier without repeated ids, in
a snapshot none of whose rungs has the value that marks a turned-off
component, returns the usage passed in minus the sum, over the members of the
tier, of effective `videoBandwidth` before minus effective `videoBandwidth`
after, a turned-off component counting as 0; the same holds with the sum taken
over the whole snapshot. So in a tick with a budget, on a snapshot as
`getMetrics` builds it, the usage that enters the degradation loop is the total
of the bandwidths of the normalised snapshot and the usage the loop returns is
the total of the bandwidths of the snapshot it returns. -/
theorem usage_accounting (fuel : Nat) (stats : Stats) (group : List InstanceId)
    (bandwidthUsage availableBandwith : ℚ) (shutdown : Bool) (out : Stats × ℚ)
    (hns : NoSentinelRung stats) (hnodup : group.Nodup)
    (h : conformComponentGroup fuel stats group bandwidthUsage availableBandwith shutdown =
      .ok out) :
    out.2 = bandwidthUsage - (tierBandwidth stats group - tierBandwidth out.1 group) ∧
      out.2 = bandwidthUsage - (snapshotDemand stats - snapshotDemand out.1) ∧
      ∀ (levels : List (List InstanceId)) (budget : ℚ) (final : Stats × ℚ × ℚ),
        Measured stats →
        degradationLoop fuel levels true (normalizeComponents stats).1
            (getBandwidthUsage stats false + (normalizeComponents stats).2) budget =
          .ok final →
        getBandwidthUsage stats false + (normalizeComponents stats).2 =
            snapshotDemand (normalizeComponents stats).1 ∧
          final.2.1 = snapshotDemand final.1 := by
  refine ⟨?_, ?_, ?_⟩
  · have hJ := conformComponentGroup_inv
      (fun s u => NoSentinelRung s ∧
        u - tierBandwidth s group = bandwidthUsage - tierBandwidth stats group)
      (fun id _ => id ∈ group)
      (fun s id u sd c o hid hj hm =>
        ⟨(conformMember_accounting s id u sd c o hj.1 hm).1,
          ((conformMember_accounting s id u sd c o hj.1 hm).2.2 group hnodup hid).trans hj.2⟩)
      fuel stats group bandwidthUsage availableBandwith shutdown (fun _ hid => hid) out
      ⟨hns, rfl⟩ h
    linarith [hJ.2]
  · have hJ := conformComponentGroup_inv
      (fun s u => NoSentinelRung s ∧
        u - snapshotDemand s = bandwidthUsage - snapshotDemand stats)
      (fun _ _ => True)
      (fun s id u sd c o _ hj hm =>
        ⟨(conformMember_accounting s id u sd c o hj.1 hm).1,
          ((conformMember_accounting s id u sd c o hj.1 hm).2.1).trans hj.2⟩)
      fuel stats group bandwidthUsage availableBandwith shutdown (fun _ _ => trivial) out
      ⟨hns, rfl⟩ h
    linarith [hJ.2]
  · intro levels budget final hm hloop
    have hstart := normalized_usage_eq_demand stats hm
    refine ⟨hstart, ?_⟩
    have hJ := escalationLoop_inv
      (fun s u => NoSentinelRung s ∧ u = snapshotDemand s)
      (fun s id u sd c o hj hm1 =>
        ⟨(conformMember_accounting s id u sd c o hj.1 hm1).1, by
          have := (conformMember_accounting s id u sd c o hj.1 hm1).2.1
          linarith [hj.2]⟩)
      fuel levels levels.length 1 _ _ budget final
      ⟨traceable_noSentinelRung _ _ (normalizeComponents_traceable stats) hns, hstart⟩ hloop
    exact hJ.1.2

theorem usage_accounting_witness :
    (5000 : ℚ) = 8000 - (tierBandwidth exampleStats ["B"] -
        tierBandwidth [("A", videoOnlyStat 4000 4000 [1000, 2000, 4000]),
          ("B", { videoOnlyStat 4000 4000 [1000, 2000, 4000] with videoBandwidth := 1000 })]
          ["B"]) ∧
      (5000 : ℚ) = 8000 - (snapshotDemand exampleStats -
        snapshotDemand [("A", videoOnlyStat 4000 4000 [1000, 2000, 4000]),
          ("B", { videoOnlyStat 4000 4000 [1000, 2000, 4000] with videoBandwidth := 1000 })]) ∧
      getBandwidthUsage exampleStats false + (normalizeComponents exampleStats).2 =
        snapshotDemand (normalizeComponents exampleStats).1 ∧
      (4000 : ℚ) = snapshotDemand [("A", videoOnlyStat 4000 4000 [1000, 2000, 4000]),
        ("B", { videoOnlyStat 4000 4000 [1000, 2000, 4000] with videoBandwidth := TURNEDOFF })] :=
  have h := usage_accounting 3 exampleStats ["B"] 8000 4750 false
    ([("A", videoOnlyStat 4000 4000 [1000, 2000, 4000]),
      ("B", { videoOnlyStat 4000 4000 [1000, 2000, 4000] with videoBandwidth := 1000 })], 5000)
    (by unfold NoSentinelRung; decide!) (by decide) (by decide!)
  ⟨h.1, h.2.1,
    h.2.2 [["A"], ["B"]] 4750
      ([("A", videoOnlyStat 4000 4000 [1000, 2000, 4000]),
        ("B", { videoOnlyStat 4000 4000 [1000, 2000, 4000] with
          videoBandwidth := TURNEDOFF })], 4000, 4750)
      (by unfold Measured; decide!) (by decide!)⟩

/-! ## Priority protection: lemmas -/

/-- A visit of the member `id0` leaves every other component as it was. -/
theorem conformMember_frame (stats : Stats) (id0 id : InstanceId) (bandwidthUsage : ℚ)
    (shutdown changed : Bool) (out : Stats × ℚ × Bool) (hne : id ≠ id0)
    (h : conformMember stats id0 bandwidthUsage shutdown changed = .ok out) :
    getStat out.1 id = getStat stats id := by
  rcases conformMember_ok stats id0 bandwidthUsage shutdown changed out h with
    ⟨_, rfl⟩ | ⟨_, _, _, rfl⟩ | ⟨stat, rung, _, _, _, ⟨_, _, rfl⟩ | ⟨_, _, rfl⟩ | ⟨_, rfl⟩⟩
  · rfl
  · rfl
  · exact getStat_setVideoBandwidth_ne stats id0 id TURNEDOFF hne
  · rfl
  · exact getStat_setVideoBandwidth_ne stats id0 id rung hne

/-- A `conformComponentGroup` call leaves every component outside the tier as
it was. -/
theorem conformComponentGroup_frame (fuel : Nat) (stats : Stats) (group : List InstanceId)
    (bandwidthUsage availableBandwith : ℚ) (shutdown : Bool) (out : Stats × ℚ)
    (id : InstanceId) (hid : id ∉ group)
    (h : conformComponentGroup fuel stats group bandwidthUsage availableBandwith shutdown =
      .ok out) :
    getStat out.1 id = getStat stats id :=
  conformComponentGroup_inv (fun s _ => getStat s id = getStat stats id)
    (fun id0 _ => id ≠ id0)
    (fun s id0 u sd c o hne hj hm => (conformMember_frame s id0 id u sd c o hne hm).trans hj)
    fuel stats group bandwidthUsage availableBandwith shutdown
    (fun _ h0 heq => hid (heq ▸ h0)) out rfl h

/-- The passes over a list of tiers leave every component outside those tiers
as it was. -/
theorem conformLowerTiers_frame (fuel : Nat) (availableBandwidth : ℚ) (shutdown : Bool)
    (groups : List (List InstanceId)) (stats : Stats) (bandwidthUsage : ℚ) (out : Stats × ℚ)
    (id : InstanceId) (hid : ∀ g ∈ groups, id ∉ g)
    (h : conformLowerTiers fuel availableBandwidth shutdown groups stats bandwidthUsage =
      .ok out) :
    getStat out.1 id = getStat stats id :=
  conformLowerTiers_inv (fun s _ => getStat s id = getStat stats id)
    (fun id0 _ => id ≠ id0)
    (fun s id0 u sd c o hne hj hm => (conformMember_frame s id0 id u sd c o hne hm).trans hj)
    fuel availableBandwidth shutdown groups
    (fun g hg _ h0 heq => hid g hg (heq ▸ h0)) stats bandwidthUsage out rfl h

/-- The structure of a round with a budget: the two turns over the lower
tiers run first; the own tier is visited only when they end over budget, and
then every lower tier is exhausted, before and after the own tier's turns. -/
theorem escalationRound_split (fuel : Nat) (levels : List (List InstanceId)) (i : Nat)
    (stats : Stats) (bandwidthUsage availableBandwidth : ℚ) (out : Stats × ℚ × ℚ)
    (hasc : AscendingLadders stats)
    (h : escalationRound fuel levels true i stats bandwidthUsage availableBandwidth = .ok out) :
    ∃ s1 u1,
      twoTurns availableBandwidth
          (fun shutdown s u =>
            conformLowerTiers fuel availableBandwidth shutdown (levels.drop i).reverse s u)
          stats bandwidthUsage = .ok (s1, u1) ∧
        AscendingLadders s1 ∧
        ((u1 ≤ availableBandwidth ∧ out = (s1, u1, availableBandwidth)) ∨
          (u1 > availableBandwidth ∧
            (∀ group ∈ levels.drop i, ∀ id ∈ group, Exhausted s1 id) ∧
            twoTurns availableBandwidth
                (fun shutdown s u =>
                  conformComponentGroup fuel s ((levels[i - 1]?).getD []) u
                    availableBandwidth shutdown)
                s1 u1 = .ok (out.1, out.2.1) ∧
            out.2.2 = availableBandwidth ∧
            ∀ group ∈ levels.drop i, ∀ id ∈ group, Exhausted out.1 id)) := by
  have hmem : ∀ s id u sd c o, conformMember s id u sd c = .ok o → Keeps s o.1 :=
    fun s id u sd c o hh => conformMember_keeps s id u sd c o hh
  unfold escalationRound at h
  simp only [if_true] at h
  cases ht : twoTurns availableBandwidth
      (fun shutdown s u =>
        conformLowerTiers fuel availableBandwidth shutdown (levels.drop i).reverse s u)
      stats bandwidthUsage with
  | error e => simp [ht] at h
  | ok r =>
    obtain ⟨s1, u1⟩ := r
    simp only [ht] at h
    have hk1 := twoTurns_rel Keeps keeps_refl keeps_trans availableBandwidth _
      (fun shutdown s u r hr =>
        conformLowerTiers_rel Keeps keeps_refl keeps_trans hmem fuel availableBandwidth
          shutdown _ s u r hr)
      stats bandwidthUsage _ ht
    have hasc1 : AscendingLadders s1 := (hk1.2 hasc).1
    refine ⟨s1, u1, rfl, hasc1, ?_⟩
    by_cases hu : u1 > availableBandwidth
    · rw [if_pos hu] at h
      cases ht2 : twoTurns availableBandwidth
          (fun shutdown s u =>
            conformComponentGroup fuel s ((levels[i - 1]?).getD []) u availableBandwidth
              shutdown)
          s1 u1 with
      | error e => simp [ht2] at h
      | ok r2 =>
        obtain ⟨s2, u2⟩ := r2
        simp only [ht2, Except.ok.injEq] at h
        rw [← h]
        have hk2 := twoTurns_rel Keeps keeps_refl keeps_trans availableBandwidth _
          (fun shutdown s u r hr =>
            conformComponentGroup_rel Keeps keeps_refl keeps_trans hmem fuel s _ u
              availableBandwidth shutdown r hr)
          s1 u1 _ ht2
        obtain ⟨_, sa, ua, hfa, hua, hta⟩ := twoTurns_over availableBandwidth _ stats
          bandwidthUsage _ ht hu
        have hka := conformLowerTiers_rel Keeps keeps_refl keeps_trans hmem fuel
          availableBandwidth false _ stats bandwidthUsage _ hfa
        have hlow := (conformLowerTiers_exhausts fuel availableBandwidth true _ sa ua _
          (hka.2 hasc).1 hta hu).2
        have hlow1 : ∀ group ∈ levels.drop i, ∀ id ∈ group, Exhausted s1 id :=
          fun group hg id hid => hlow group (List.mem_reverse.mpr hg) id hid
        exact Or.inr ⟨hu, hlow1, rfl, rfl,
          fun group hg id hid => (hk2.2 hasc1).2 id (hlow1 group hg id hid)⟩
    · rw [if_neg hu, Except.ok.injEq] at h
      exact Or.inl ⟨not_lt.mp hu, h.symm⟩

/-! ## Priority protection: results -/

/-- C21: in a round of the degradation loop with a budget, on a snapshot
with non-empty ascending ladders, a component that belongs to no lower tier
(in particular a component of the round's own tier, which is tier 1 in the
first round) is changed only by the visits of the own tier, and these come
only after the two turns over the lower tiers have ended over budget with
every component of every lower tier at its lowest rung or turned off; the
lower tiers are still exhausted when the round ends. -/
theorem priority_protection (fuel : Nat) (levels : List (List InstanceId)) (i : Nat)
    (stats : Stats) (bandwidthUsage availableBandwidth : ℚ) (out : Stats × ℚ × ℚ)
    (id : InstanceId) (hasc : AscendingLadders stats)
    (h : escalationRound fuel levels true i stats bandwidthUsage availableBandwidth = .ok out)
    (hnotlower : ∀ group ∈ levels.drop i, id ∉ group)
    (hchanged : getStat out.1 id ≠ getStat stats id) :
    id ∈ (levels[i - 1]?).getD [] ∧
      ∃ s1 u1,
        twoTurns availableBandwidth
            (fun shutdown s u =>
              conformLowerTiers fuel availableBandwidth shutdown (levels.drop i).reverse s u)
            stats bandwidthUsage = .ok (s1, u1) ∧
          getStat s1 id = getStat stats id ∧
          u1 > availableBandwidth ∧
          (∀ group ∈ levels.drop i, ∀ id1 ∈ group, Exhausted s1 id1) ∧
          twoTurns availableBandwidth
              (fun shutdown s u =>
                conformComponentGroup fuel s ((levels[i - 1]?).getD []) u
                  availableBandwidth shutdown)
              s1 u1 = .ok (out.1, out.2.1) ∧
          ∀ group ∈ levels.drop i, ∀ id1 ∈ group, Exhausted out.1 id1 := by
  obtain ⟨s1, u1, ht, _, hcase⟩ := escalationRound_split fuel levels i stats bandwidthUsage
    availableBandwidth out hasc h
  have hframe1 : getStat s1 id = getStat stats id :=
    twoTurns_inv (fun s _ => getStat s id = getStat stats id) availableBandwidth _
      (fun shutdown s u r hj hr =>
        (conformLowerTiers_frame fuel availableBandwidth shutdown _ s u r id
          (fun g hg => hnotlower g (List.mem_reverse.mp hg)) hr).trans hj)
      stats bandwidthUsage _ rfl ht
  rcases hcase with ⟨_, hout⟩ | ⟨hu, hlow, ht2, _, hlow2⟩
  · rw [hout] at hchanged
    exact absurd hframe1 hchanged
  · refine ⟨?_, s1, u1, ht, hframe1, hu, hlow, ht2, hlow2⟩
    by_contra hnot
    have hframe2 : getStat out.1 id = getStat s1 id :=
      twoTurns_inv (fun s _ => getStat s id = getStat s1 id) availableBandwidth _
        (fun shutdown s u r hj hr =>
          (conformComponentGroup_frame fuel s _ u availableBandwidth shutdown r id hnot
            hr).trans hj)
        s1 u1 _ rfl ht2
    exact hchanged (hframe2.trans hframe1)

theorem priority_protection_witness :
    "A" ∈ (([["A"], ["B"]] : List (List InstanceId))[1 - 1]?).getD [] ∧
      ∃ s1 u1,
        twoTurns 500
            (fun shutdown s u =>
              conformLowerTiers 4 500 shutdown
                (([["A"], ["B"]] : List (List InstanceId)).drop 1).reverse s u)
            exampleStats 9000 = .ok (s1, u1) ∧
          getStat s1 "A" = getStat exampleStats "A" ∧
          u1 > 500 ∧
          (∀ group ∈ ([["A"], ["B"]] : List (List InstanceId)).drop 1, ∀ id1 ∈ group,
            Exhausted s1 id1) ∧
          twoTurns 500
              (fun shutdown s u =>
                conformComponentGroup 4 s
                  ((([["A"], ["B"]] : List (List InstanceId))[1 - 1]?).getD []) u 500 shutdown)
              s1 u1 =
            .ok ([("A", { videoOnlyStat 4000 4000 [1000, 2000, 4000] with
                videoBandwidth := TURNEDOFF }),
              ("B", { videoOnlyStat 4000 4000 [1000, 2000, 4000] with
                videoBandwidth := TURNEDOFF })], 1000) ∧
          ∀ group ∈ ([["A"], ["B"]] : List (List InstanceId)).drop 1, ∀ id1 ∈ group,
            Exhausted [("A", { videoOnlyStat 4000 4000 [1000, 2000, 4000] with
                videoBandwidth := TURNEDOFF }),
              ("B", { videoOnlyStat 4000 4000 [1000, 2000, 4000] with
                videoBandwidth := TURNEDOFF })] id1 :=
  priority_protection 4 [["A"], ["B"]] 1 exampleStats 9000 500
    ([("A", { videoOnlyStat 4000 4000 [1000, 2000, 4000] with videoBandwidth := TURNEDOFF }),
      ("B", { videoOnlyStat 4000 4000 [1000, 2000, 4000] with videoBandwidth := TURNEDOFF })],
      1000, 500)
    "A" exampleStats_ascending (by decide!) (by decide) (by decide!)

/-! ## Downgrades before disables: lemmas -/

theorem setVideoBandwidth_mem (stats : Stats) (id : InstanceId) (v : ℚ) :
    ∀ e1 ∈ setVideoBandwidth stats id v, e1 ∈ stats ∨ e1.2.videoBandwidth = v := by
  induction stats with
  | nil =>
    intro e1 he1
    simp [setVideoBandwidth] at he1
  | cons e stats ih =>
    obtain ⟨k, s⟩ := e
    intro e1 he1
    unfold setVideoBandwidth at he1
    by_cases hk : k = id
    · rw [if_pos hk] at he1
      rcases List.mem_cons.mp he1 with rfl | he1
      · exact Or.inr rfl
      · exact Or.inl (List.mem_cons_of_mem _ he1)
    · rw [if_neg hk] at he1
      rcases List.mem_cons.mp he1 with rfl | he1
      · exact Or.inl (List.mem_cons_self _ _)
      · rcases ih e1 he1 with h1 | h1
        · exact Or.inl (List.mem_cons_of_mem _ h1)
        · exact Or.inr h1

/-- A visit without shutdown turns no component off, when no rung has the
value that marks a turned-off component. -/
theorem conformMember_allLive (stats : Stats) (id : InstanceId) (bandwidthUsage : ℚ)
    (changed : Bool) (out : Stats × ℚ × Bool)
    (hj : NoSentinelRung stats ∧ AllLive stats)
    (h : conformMember stats id bandwidthUsage false changed = .ok out) :
    NoSentinelRung out.1 ∧ AllLive out.1 := by
  refine ⟨traceable_noSentinelRung _ _
    (conformMember_traceable stats id bandwidthUsage false changed out h) hj.1, ?_⟩
  rcases conformMember_ok stats id bandwidthUsage false changed out h with
    ⟨_, rfl⟩ | ⟨_, _, _, rfl⟩ |
    ⟨stat, rung, hget, _, hsel, ⟨_, hsd, _⟩ | ⟨_, _, rfl⟩ | ⟨_, rfl⟩⟩
  · exact hj.2
  · exact hj.2
  · cases hsd
  · exact hj.2
  · intro e1 he1
    rcases setVideoBandwidth_mem stats id rung e1 he1 with h1 | h1
    · exact hj.2 e1 h1
    · rw [h1]
      intro hoff
      exact hj.1 _ (getStat_mem stats id stat hget) (hoff ▸ selectedRung_mem stat rung hsel)

theorem conformLowerTiers_allLive (fuel : Nat) (availableBandwidth : ℚ)
    (groups : List (List InstanceId)) (stats : Stats) (bandwidthUsage : ℚ) (out : Stats × ℚ)
    (hj : NoSentinelRung stats ∧ AllLive stats)
    (h : conformLowerTiers fuel availableBandwidth false groups stats bandwidthUsage =
      .ok out) :
    NoSentinelRung out.1 ∧ AllLive out.1 :=
  conformLowerTiers_inv (fun s _ => NoSentinelRung s ∧ AllLive s)
    (fun _ sd => sd = false)
    (fun s id u sd c o hsd hj1 hm => by
      subst hsd
      exact conformMember_allLive s id u c o hj1 hm)
    fuel availableBandwidth false groups (fun _ _ _ _ => rfl) stats bandwidthUsage out hj h

/-- The two turns over a list of tiers: the shutdown turn runs only after the
downgrade turn has been applied to all of them and has ended over budget, with
every component of those tiers exhausted. -/
theorem lowerTurns_split (fuel : Nat) (availableBandwidth : ℚ)
    (groups : List (List InstanceId)) (stats : Stats) (bandwidthUsage : ℚ) (out : Stats × ℚ)
    (hasc : AscendingLadders stats)
    (h : twoTurns availableBandwidth
      (fun shutdown s u => conformLowerTiers fuel availableBandwidth shutdown groups s u)
      stats bandwidthUsage = .ok out) :
    (bandwidthUsage ≤ availableBandwidth ∧ out = (stats, bandwidthUsage)) ∨
      ∃ s1 u1,
        conformLowerTiers fuel availableBandwidth false groups stats bandwidthUsage =
            .ok (s1, u1) ∧
          ((u1 ≤ availableBandwidth ∧ out = (s1, u1)) ∨
            (u1 > availableBandwidth ∧
              (∀ group ∈ groups, ∀ id ∈ group, Exhausted s1 id) ∧
              conformLowerTiers fuel availableBandwidth true groups s1 u1 = .ok out ∧
              ∀ group ∈ groups, ∀ id ∈ group, Exhausted out.1 id)) := by
  have hmem : ∀ s id u sd c o, conformMember s id u sd c = .ok o → Keeps s o.1 :=
    fun s id u sd c o hh => conformMember_keeps s id u sd c o hh
  unfold twoTurns at h
  by_cases hu : bandwidthUsage > availableBandwidth
  · rw [if_pos hu] at h
    cases hb : conformLowerTiers fuel availableBandwidth false groups stats bandwidthUsage with
    | error e => simp [hb] at h
    | ok r =>
      obtain ⟨s1, u1⟩ := r
      simp only [hb] at h
      refine Or.inr ⟨s1, u1, rfl, ?_⟩
      by_cases hu1 : u1 > availableBandwidth
      · rw [if_pos hu1] at h
        have hk1 := conformLowerTiers_rel Keeps keeps_refl keeps_trans hmem fuel
          availableBandwidth false groups stats bandwidthUsage _ hb
        have hex := (conformLowerTiers_exhausts fuel availableBandwidth false groups stats
          bandwidthUsage _ hasc hb hu1).2
        have hk2 := conformLowerTiers_rel Keeps keeps_refl keeps_trans hmem fuel
          availableBandwidth true groups s1 u1 _ h
        exact Or.inr ⟨hu1, hex, h,
          fun group hg id hid => (hk2.2 (hk1.2 hasc).1).2 id (hex group hg id hid)⟩
      · rw [if_neg hu1, Except.ok.injEq] at h
        exact Or.inl ⟨not_lt.mp hu1, h.symm⟩
  · rw [if_neg hu, Except.ok.injEq] at h
    exact Or.inl ⟨not_lt.mp hu, h.symm⟩

theorem escalationLoop_within (fuel : Nat) (levels : List (List InstanceId)) (rounds i : Nat)
    (stats : Stats) (bandwidthUsage availableBandwidth : ℚ)
    (hu : bandwidthUsage ≤ availableBandwidth) :
    escalationLoop fuel levels true rounds i stats bandwidthUsage availableBandwidth =
      .ok (stats, bandwidthUsage, availableBandwidth) := by
  cases rounds with
  | zero => rfl
  | succ n =>
    unfold escalationLoop
    rw [if_neg]
    rintro (hc | hc)
    · cases hc
    · exact absurd hc (not_lt.mpr hu)

/-- After the degradation loop with a budget, either no component has been
turned off or every component of the tiers below tier 1 is exhausted. -/
theorem degradationLoop_live_or_exhausted (fuel : Nat) (levels : List (List InstanceId))
    (stats : Stats) (bandwidthUsage availableBandwidth : ℚ) (out : Stats × ℚ × ℚ)
    (hasc : AscendingLadders stats) (hj : NoSentinelRung stats ∧ AllLive stats)
    (h : degradationLoop fuel levels true stats bandwidthUsage availableBandwidth = .ok out) :
    AllLive out.1 ∨ ∀ group ∈ levels.drop 1, ∀ id ∈ group, Exhausted out.1 id := by
  have hmem : ∀ s id u sd c o, conformMember s id u sd c = .ok o → Keeps s o.1 :=
    fun s id u sd c o hh => conformMember_keeps s id u sd c o hh
  unfold degradationLoop at h
  cases levels with
  | nil =>
    exact Or.inr (fun group hg => by simp at hg)
  | cons tier tiers =>
    simp only [List.length_cons] at h
    unfold escalationLoop at h
    by_cases hc : true = false ∨ bandwidthUsage > availableBandwidth
    · rw [if_pos hc] at h
      cases hr : escalationRound fuel (tier :: tiers) true 1 stats bandwidthUsage
          availableBandwidth with
      | error e => simp [hr] at h
      | ok r =>
        obtain ⟨sr, ur, ar⟩ := r
        simp only [hr] at h
        have hkr := escalationRound_rel Keeps keeps_refl keeps_trans hmem true
          (fun hf => absurd hf (by simp)) fuel (tier :: tiers) 1 stats bandwidthUsage
          availableBandwidth _ hr
        have hkl := escalationLoop_rel Keeps keeps_refl keeps_trans hmem true
          (fun hf => absurd hf (by simp)) fuel (tier :: tiers) tiers.length (1 + 1) sr ur ar
          out h
        obtain ⟨s1, u1, ht, hasc1, hcase⟩ := escalationRound_split fuel (tier :: tiers) 1 stats
          bandwidthUsage availableBandwidth _ hasc hr
        rcases hcase with ⟨hu1, hout⟩ | ⟨_, _, _, _, hlow2⟩
        · simp only [Prod.mk.injEq] at hout
          obtain ⟨hsr, hur, har⟩ := hout
          subst hsr hur
          rw [har] at h
          rw [escalationLoop_within fuel (tier :: tiers) tiers.length (1 + 1) sr ur
            availableBandwidth hu1, Except.ok.injEq] at h
          rw [← h]
          rcases lowerTurns_split fuel availableBandwidth _ stats bandwidthUsage _ hasc ht with
            ⟨_, hs⟩ | ⟨sa, ua, hfa, ⟨_, hs⟩ | ⟨_, _, _, hex⟩⟩
          · simp only [Prod.mk.injEq] at hs
            rw [hs.1]
            exact Or.inl hj.2
          · simp only [Prod.mk.injEq] at hs
            rw [hs.1]
            exact Or.inl (conformLowerTiers_allLive fuel availableBandwidth _ stats
              bandwidthUsage _ hj hfa).2
          · exact Or.inr (fun group hg id hid => hex group (List.mem_reverse.mpr hg) id hid)
        · exact Or.inr (fun group hg id hid =>
            (hkl.2 (hkr.2 hasc).1).2 id (hlow2 group hg id hid))
    · rw [if_neg hc, Except.ok.injEq] at h
      rw [← h]
      exact Or.inl hj.2

theorem normalizeComponents_allLive (stats : Stats)
    (hnonneg : ∀ e ∈ stats, 0 ≤ e.2.videoBandwidth) :
    AllLive (normalizeComponents stats).1 := by
  rw [(normalizeComponents_spec stats).2]
  intro e1 he1
  obtain ⟨e, he, rfl⟩ := List.mem_map.mp he1
  have h0 := hnonneg e he
  have hneg : ∀ x : ℚ, 0 ≤ x → x ≠ TURNEDOFF := by
    intro x hx hx1
    rw [hx1] at hx
    exact absurd hx (by decide)
  by_cases hz : e.2.videoBandwidth = 0
  · rw [if_pos hz]
    exact hneg _ h0
  · rw [if_neg hz]
    exact hneg _ (le_trans h0 (le_max_left _ _))

/-! ## Downgrades before disables: results -/

/-- C24: in a tick with a budget, on a snapshot with non-empty ascending
ladders in which the measured bandwidths are not negative and no rung has the
value that marks a turned-off component, the shutdown turn over the lower
tiers of a round runs only after the downgrade turn has been applied to all of
them and has ended over budget with each of their components at its lowest
rung or turned off; and if the snapshot the degradation loop returns has a turned-off
component in a tier below tier 1, then every component of the tiers below tier
1 present in it is at its lowest rung or turned off. -/
theorem downgrades_before_disables (fuel : Nat) (levels : List (List InstanceId))
    (stats : Stats) (bandwidthUsage availableBandwidth : ℚ) (out : Stats × ℚ × ℚ)
    (hasc : AscendingLadders stats) (hns : NoSentinelRung stats)
    (hnonneg : ∀ e ∈ stats, 0 ≤ e.2.videoBandwidth)
    (h : degradationLoop fuel levels true (normalizeComponents stats).1 bandwidthUsage
      availableBandwidth = .ok out) :
    (∀ (i : Nat) (s : Stats) (u : ℚ) (r : Stats × ℚ), AscendingLadders s →
        twoTurns availableBandwidth
            (fun shutdown s u =>
              conformLowerTiers fuel availableBandwidth shutdown (levels.drop i).reverse s u)
            s u = .ok r →
          (u ≤ availableBandwidth ∧ r = (s, u)) ∨
            ∃ s1 u1,
              conformLowerTiers fuel availableBandwidth false (levels.drop i).reverse s u =
                  .ok (s1, u1) ∧
                ((u1 ≤ availableBandwidth ∧ r = (s1, u1)) ∨
                  (u1 > availableBandwidth ∧
                    (∀ group ∈ levels.drop i, ∀ id ∈ group, Exhausted s1 id) ∧
                    conformLowerTiers fuel availableBandwidth true (levels.drop i).reverse
                      s1 u1 = .ok r))) ∧
      ((∃ group ∈ levels.drop 1, ∃ id ∈ group,
          videoBandwidthOf out.1 id = some TURNEDOFF) →
        ∀ group ∈ levels.drop 1, ∀ id ∈ group, Exhausted out.1 id) := by
  constructor
  · intro i s u r hs ht
    rcases lowerTurns_split fuel availableBandwidth _ s u r hs ht with
      h1 | ⟨s1, u1, hf, h1 | ⟨hu1, hex, hsd, _⟩⟩
    · exact Or.inl h1
    · exact Or.inr ⟨s1, u1, hf, Or.inl h1⟩
    · exact Or.inr ⟨s1, u1, hf, Or.inr ⟨hu1,
        fun group hg id hid => hex group (List.mem_reverse.mpr hg) id hid, hsd⟩⟩
  · rintro ⟨group, _, id, _, hoff⟩
    rcases degradationLoop_live_or_exhausted fuel levels _ bandwidthUsage availableBandwidth out
        (normalizeComponents_ascending stats hasc)
        ⟨traceable_noSentinelRung _ _ (normalizeComponents_traceable stats) hns,
          normalizeComponents_allLive stats hnonneg⟩ h with hlive | hex
    · exfalso
      unfold videoBandwidthOf at hoff
      cases hget : getStat out.1 id with
      | none => simp [hget] at hoff
      | some stat =>
        simp only [hget, Option.map_some', Option.some.injEq] at hoff
        exact hlive _ (getStat_mem out.1 id stat hget) hoff
    · exact hex

theorem downgrades_before_disables_witness :
    (((8000 : ℚ) ≤ 4750 ∧
          (([("A", videoOnlyStat 4000 4000 [1000, 2000, 4000]),
            ("B", { videoOnlyStat 4000 4000 [1000, 2000, 4000] with
              videoBandwidth := TURNEDOFF })], 4000) : Stats × ℚ) = (exampleStats, 8000)) ∨
        ∃ s1 u1,
          conformLowerTiers 3 4750 false
              (([["A"], ["B"]] : List (List InstanceId)).drop 1).reverse exampleStats 8000 =
              .ok (s1, u1) ∧
            ((u1 ≤ 4750 ∧
                (([("A", videoOnlyStat 4000 4000 [1000, 2000, 4000]),
                  ("B", { videoOnlyStat 4000 4000 [1000, 2000, 4000] with
                    videoBandwidth := TURNEDOFF })], 4000) : Stats × ℚ) = (s1, u1)) ∨
              (u1 > 4750 ∧
                (∀ group ∈ ([["A"], ["B"]] : List (List InstanceId)).drop 1, ∀ id ∈ group,
                  Exhausted s1 id) ∧
                conformLowerTiers 3 4750 true
                    (([["A"], ["B"]] : List (List InstanceId)).drop 1).reverse s1 u1 =
                  .ok ([("A", videoOnlyStat 4000 4000 [1000, 2000, 4000]),
                    ("B", { videoOnlyStat 4000 4000 [1000, 2000, 4000] with
                      videoBandwidth := TURNEDOFF })], 4000)))) ∧
      Exhausted [("A", videoOnlyStat 4000 4000 [1000, 2000, 4000]),
        ("B", { videoOnlyStat 4000 4000 [1000, 2000, 4000] with
          videoBandwidth := TURNEDOFF })] "B" :=
  have h := downgrades_before_disables 3 [["A"], ["B"]] exampleStats 8000 4750
    ([("A", videoOnlyStat 4000 4000 [1000, 2000, 4000]),
      ("B", { videoOnlyStat 4000 4000 [1000, 2000, 4000] with videoBandwidth := TURNEDOFF })],
      4000, 4750)
    exampleStats_ascending (by unfold NoSentinelRung; decide!) (by decide!) (by decide!)
  ⟨h.1 1 exampleStats 8000
      ([("A", videoOnlyStat 4000 4000 [1000, 2000, 4000]),
        ("B", { videoOnlyStat 4000 4000 [1000, 2000, 4000] with
          videoBandwidth := TURNEDOFF })], 4000)
      exampleStats_ascending (by decide!),
    h.2 ⟨["B"], by decide, "B", by decide, by decide!⟩ ["B"] (by decide) "B" (by decide)⟩

/-! ## The tick without a budget: lemmas -/

theorem setVideoBandwidth_key_mem (stats : Stats) (id : InstanceId) (v : ℚ) :
    ∀ e1 ∈ setVideoBandwidth stats id v, e1 ∈ stats ∨ e1.1 = id := by
  induction stats with
  | nil =>
    intro e1 he1
    simp [setVideoBandwidth] at he1
  | cons e stats ih =>
    obtain ⟨k, s⟩ := e
    intro e1 he1
    unfold setVideoBandwidth at he1
    by_cases hk : k = id
    · rw [if_pos hk] at he1
      rcases List.mem_cons.mp he1 with rfl | he1
      · exact Or.inr hk
      · exact Or.inl (List.mem_cons_of_mem _ he1)
    · rw [if_neg hk] at he1
      rcases List.mem_cons.mp he1 with rfl | he1
      · exact Or.inl (List.mem_cons_self _ _)
      · rcases ih e1 he1 with h1 | h1
        · exact Or.inl (List.mem_cons_of_mem _ h1)
        · exact Or.inr h1

/-- A visit of the member `id0` leaves every entry with another key as it
was. -/
theorem conformMember_entries (stats : Stats) (id0 : InstanceId) (bandwidthUsage : ℚ)
    (shutdown changed : Bool) (out : Stats × ℚ × Bool)
    (h : conformMember stats id0 bandwidthUsage shutdown changed = .ok out) :
    ∀ e ∈ out.1, e ∈ stats ∨ e.1 = id0 := by
  rcases conformMember_ok stats id0 bandwidthUsage shutdown changed out h with
    ⟨_, rfl⟩ | ⟨_, _, _, rfl⟩ | ⟨stat, rung, _, _, _, ⟨_, _, rfl⟩ | ⟨_, _, rfl⟩ | ⟨_, rfl⟩⟩
  · exact fun e he => Or.inl he
  · exact fun e he => Or.inl he
  · exact setVideoBandwidth_key_mem stats id0 TURNEDOFF
  · exact fun e he => Or.inl he
  · exact setVideoBandwidth_key_mem stats id0 rung

theorem traceable_restorable (s t : Stats) (hst : Traceable s t) (hs : Restorable s) :
    Restorable t := by
  unfold Traceable at hst
  induction hst with
  | nil =>
    intro e he
    simp at he
  | @cons e0 e l0 l h _ ih =>
    intro e1 he1
    rcases List.mem_cons.mp he1 with rfl | he1
    · obtain ⟨hr, hp, hz⟩ := hs e0 (List.mem_cons_self _ _)
      obtain ⟨_, hb, hpl, hvb⟩ := h
      rw [hb, hpl]
      refine ⟨hr, hp, fun h0 => ?_⟩
      rcases hvb with hv | hv | hv | hv
      · exact hz (hv ▸ h0)
      · rw [h0] at hv
        exact absurd hv (by decide)
      · rw [h0] at hv
        exact absurd (hr 0 hv) (lt_irrefl _)
      · rw [← hv, h0]
    · exact ih (fun d hd => hs d (List.mem_cons_of_mem _ hd)) e1 he1

/-- After `normalizeComponents` on a restorable snapshot every component is at
or above its playing bitrate, which is not negative. -/
theorem normalizeComponents_restores (stats : Stats) (hs : Restorable stats) :
    ∀ e ∈ (normalizeComponents stats).1,
      e.2.playingVideoBitrate ≤ e.2.videoBandwidth ∧ 0 ≤ e.2.playingVideoBitrate := by
  rw [(normalizeComponents_spec stats).2]
  intro e1 he1
  obtain ⟨e, he, rfl⟩ := List.mem_map.mp he1
  obtain ⟨_, hp, hz⟩ := hs e he
  by_cases h0 : e.2.videoBandwidth = 0
  · rw [if_pos h0]
    exact ⟨by rw [h0]; exact hz h0, hp⟩
  · rw [if_neg h0]
    exact ⟨le_max_right _ _, hp⟩

/-- Without a budget the loop runs every round: the last of `n + 1` rounds
starts from what the first `n` rounds return. -/
theorem escalationLoop_last (fuel : Nat) (levels : List (List InstanceId)) (n i : Nat)
    (stats : Stats) (bandwidthUsage availableBandwidth : ℚ) (out : Stats × ℚ × ℚ)
    (h : escalationLoop fuel levels false (n + 1) i stats bandwidthUsage availableBandwidth =
      .ok out) :
    ∃ s1 u1 a1,
      escalationLoop fuel levels false n i stats bandwidthUsage availableBandwidth =
          .ok (s1, u1, a1) ∧
        escalationRound fuel levels false (i + n) s1 u1 a1 = .ok out := by
  induction n generalizing i stats bandwidthUsage availableBandwidth with
  | zero =>
    unfold escalationLoop at h
    rw [if_pos (Or.inl rfl)] at h
    cases hr : escalationRound fuel levels false i stats bandwidthUsage availableBandwidth with
    | error e => simp [hr] at h
    | ok r =>
      obtain ⟨s1, u1, a1⟩ := r
      simp only [hr] at h
      simp only [escalationLoop, Except.ok.injEq] at h
      refine ⟨stats, bandwidthUsage, availableBandwidth, rfl, ?_⟩
      rw [Nat.add_zero, hr, h]
  | succ m ih =>
    unfold escalationLoop at h
    rw [if_pos (Or.inl rfl)] at h
    cases hr : escalationRound fuel levels false i stats bandwidthUsage availableBandwidth with
    | error e => simp [hr] at h
    | ok r =>
      obtain ⟨s1, u1, a1⟩ := r
      simp only [hr] at h
      obtain ⟨s2, u2, a2, hloop, hlast⟩ := ih (i + 1) s1 u1 a1 h
      refine ⟨s2, u2, a2, ?_, ?_⟩
      · unfold escalationLoop
        rw [if_pos (Or.inl rfl)]
        simp only [hr]
        exact hloop
      · have hidx : i + (m + 1) = i + 1 + m := by omega
        rw [hidx]
        exact hlast

/-- The last round without a budget: after the `normalizeComponents` call
that opens it, only entries whose key is in the last tier are changed. -/
theorem lastRound_entries (fuel : Nat) (levels : List (List InstanceId)) (stats : Stats)
    (bandwidthUsage availableBandwidth : ℚ) (out : Stats × ℚ × ℚ)
    (h : escalationRound fuel levels false levels.length stats bandwidthUsage
      availableBandwidth = .ok out) :
    ∀ e ∈ out.1, e.1 ∉ (levels[levels.length - 1]?).getD [] →
      e ∈ (normalizeComponents stats).1 := by
  have hmemV : ∀ s id0 u sd c o,
      (fun (id1 : InstanceId) (_ : Bool) => id1 ∈ (levels[levels.length - 1]?).getD []) id0 sd →
      (fun (s1 : Stats) (_ : ℚ) => ∀ e ∈ s1, e.1 ∉ (levels[levels.length - 1]?).getD [] →
        e ∈ (normalizeComponents stats).1) s u →
      conformMember s id0 u sd c = .ok o →
      (fun (s1 : Stats) (_ : ℚ) => ∀ e ∈ s1, e.1 ∉ (levels[levels.length - 1]?).getD [] →
        e ∈ (normalizeComponents stats).1) o.1 o.2.1 := by
    intro s id0 u sd c o hid hj hm e he hnot
    rcases conformMember_entries s id0 u sd c o hm e he with h1 | h1
    · exact hj e h1 hnot
    · exact absurd (h1 ▸ hid) hnot
  unfold escalationRound at h
  simp only [Bool.false_eq_true, if_false, List.drop_length, List.reverse_nil] at h
  cases ht : twoTurns 0
      (fun shutdown s u => conformLowerTiers fuel 0 shutdown [] s u)
      (normalizeComponents stats).1 ((normalizeComponents stats).2 / BANDWIDTH_LIMIT_SAFETY) with
  | error e => simp [ht] at h
  | ok r =>
    obtain ⟨s1, u1⟩ := r
    simp only [ht] at h
    have h1 := twoTurns_inv
      (fun (s1 : Stats) (_ : ℚ) => ∀ e ∈ s1, e.1 ∉ (levels[levels.length - 1]?).getD [] →
        e ∈ (normalizeComponents stats).1) 0 _
      (fun shutdown s u r hj hr => by
        simp only [conformLowerTiers, Except.ok.injEq] at hr
        rw [← hr]
        exact hj)
      _ _ _ (fun e he _ => he) ht
    by_cases hu : u1 > 0
    · rw [if_pos hu] at h
      cases ht2 : twoTurns 0
          (fun shutdown s u =>
            conformComponentGroup fuel s ((levels[levels.length - 1]?).getD []) u 0 shutdown)
          s1 u1 with
      | error e => simp [ht2] at h
      | ok r2 =>
        obtain ⟨s2, u2⟩ := r2
        simp only [ht2, Except.ok.injEq] at h
        rw [← h]
        exact twoTurns_inv
          (fun (s1 : Stats) (_ : ℚ) => ∀ e ∈ s1, e.1 ∉ (levels[levels.length - 1]?).getD [] →
            e ∈ (normalizeComponents stats).1) 0 _
          (fun shutdown s u r hj hr =>
            conformComponentGroup_inv _ _ hmemV fuel s _ u 0 shutdown (fun _ hid => hid) r hj
              hr)
          s1 u1 _ h1 ht2
    · rw [if_neg hu, Except.ok.injEq] at h
      rw [← h]
      exact h1

/-! ## The tick without a budget: results -/

/-- C27: in a tick without a budget that emits an action list and has at
least one tier, on a snapshot with positive rungs, nonzero measured
`videoBandwidth`s and non-negative playing bitrates, the last round starts
from the snapshot `normalizeComponents` returns and changes only components of
the last tier: every component outside the last tier ends with a
`videoBandwidth` at or above its playing bitrate and receives the action
`nothing`. -/
theorem no_budget_spares_higher_tiers (fuel : Nat) (now : Int) (data : JobData)
    (options : Options) (components : List (InstanceId × Component)) (stats : Stats)
    (outcome : TickOutcome) (actions : List (InstanceId × Action))
    (hnone : data.availableBandwidth = none)
    (hrungs : ∀ e ∈ stats, ∀ r ∈ e.2.bitrates.video, 0 < r)
    (hnonzero : ∀ e ∈ stats, e.2.videoBandwidth ≠ 0)
    (hplaying : ∀ e ∈ stats, 0 ≤ e.2.playingVideoBitrate)
    (h : evaluateDMApp fuel now data options (some components) (some stats) = .ok outcome)
    (hn : outcome.notified = some actions) :
    ∃ levels final, prepDMAppData ⟨data.priorityLevels, components⟩ = some levels ∧
      actions = createActionList final ∧
      (1 ≤ levels.length →
        (∃ s1 u1 a1 u a,
          escalationRound fuel levels false levels.length s1 u1 a1 = .ok (final, u, a) ∧
          ∀ e ∈ final, e.1 ∉ (levels[levels.length - 1]?).getD [] →
            e ∈ (normalizeComponents s1).1) ∧
        (∀ e ∈ final, e.1 ∉ (levels[levels.length - 1]?).getD [] →
          e.2.playingVideoBitrate ≤ e.2.videoBandwidth) ∧
        ∀ a ∈ actions, a.1 ∉ (levels[levels.length - 1]?).getD [] →
          a.2.action = "nothing") := by
  obtain ⟨levels, final, u, a, hp, _, _, hact, hpath⟩ :=
    evaluateDMApp_emits fuel now data options components stats outcome actions h hn
  refine ⟨levels, final, hp, hact, fun hL => ?_⟩
  rcases hpath with ⟨b, hb, _, _⟩ | ⟨_, _, hloop⟩
  · rw [hnone] at hb
    cases hb
  · unfold degradationLoop at hloop
    obtain ⟨n, hn1⟩ : ∃ n, levels.length = n + 1 := ⟨levels.length - 1, by omega⟩
    rw [hn1] at hloop
    obtain ⟨s1, u1, a1, hfirst, hlast⟩ := escalationLoop_last fuel levels n 1 stats _ _ _ hloop
    have hidx : 1 + n = levels.length := by omega
    rw [hidx] at hlast
    have hres0 : Restorable stats :=
      fun e he => ⟨hrungs e he, hplaying e he, fun h0 => absurd h0 (hnonzero e he)⟩
    have htr := escalationLoop_rel Traceable traceable_refl traceable_trans
      (fun s id u sd c o hh => conformMember_traceable s id u sd c o hh) false
      (fun _ s => normalizeComponents_traceable s) fuel levels n 1 stats _ _ _ hfirst
    have hres1 : Restorable s1 := traceable_restorable _ _ htr hres0
    have hent := lastRound_entries fuel levels s1 u1 a1 _ hlast
    have hge : ∀ e ∈ final, e.1 ∉ (levels[levels.length - 1]?).getD [] →
        e.2.playingVideoBitrate ≤ e.2.videoBandwidth ∧ 0 ≤ e.2.playingVideoBitrate :=
      fun e he hnot => normalizeComponents_restores s1 hres1 e (hent e he hnot)
    refine ⟨⟨s1, u1, a1, u, a, hlast, hent⟩, fun e he hnot => (hge e he hnot).1, ?_⟩
    intro act hact1 hnot
    rw [hact] at hact1
    unfold createActionList at hact1
    obtain ⟨e, he, rfl⟩ := List.mem_map.mp hact1
    obtain ⟨h1, h2⟩ := hge e he hnot
    unfold actionFor
    have hoff : e.2.videoBandwidth ≠ TURNEDOFF := by
      intro hoff
      rw [hoff] at h1
      exact absurd (le_trans h2 h1) (by decide)
    simp only [hoff, if_false, not_lt.mpr h1]

theorem no_budget_spares_higher_tiers_witness :
    ∃ levels final, prepDMAppData ⟨noBudgetData.priorityLevels, noBudgetLayout⟩ = some levels ∧
      [("hi", (⟨"nothing", 4000⟩ : Action)), ("lo", ⟨"disable", -1⟩)] =
        createActionList final ∧
      (1 ≤ levels.length →
        (∃ s1 u1 a1 u a,
          escalationRound 4 levels false levels.length s1 u1 a1 = .ok (final, u, a) ∧
          ∀ e ∈ final, e.1 ∉ (levels[levels.length - 1]?).getD [] →
            e ∈ (normalizeComponents s1).1) ∧
        (∀ e ∈ final, e.1 ∉ (levels[levels.length - 1]?).getD [] →
          e.2.playingVideoBitrate ≤ e.2.videoBandwidth) ∧
        ∀ a ∈ [("hi", (⟨"nothing", 4000⟩ : Action)), ("lo", ⟨"disable", -1⟩)],
          a.1 ∉ (levels[levels.length - 1]?).getD [] → a.2.action = "nothing") :=
  no_budget_spares_higher_tiers 4 1000 noBudgetData ⟨0, true, 0⟩ noBudgetLayout noBudgetStats
    ⟨⟨0, true, 1000⟩, 0, some [("hi", ⟨"nothing", 4000⟩), ("lo", ⟨"disable", -1⟩)], true⟩
    [("hi", ⟨"nothing", 4000⟩), ("lo", ⟨"disable", -1⟩)] rfl (by decide!) (by decide!)
    (by decide!) (by decide!) rfl
end BandwidthOrchestration
